import Mathlib

/-!
# MistServer: ring-buffer relay (`Buffer/main.cpp`) and DTSC stream (`lib/dtsc.cpp`)

A shallow embedding of the relay (the per-viewer `Send`, the ingest step, the
statistics lines, the accept step, the loop over the viewers, the main loop
and the value `Start` returns), of the DTSC live stream (`parsePacket`,
`advanceRings`, `getRing`, `updateHeaders`, `canSeekms`, `msSeek`) and of the
DTSC file (`File`, `readHeader`, `writeHeader`, `addHeader`, `seek_time`,
`seekNext`), followed by theorems about them.

Conventions.
* `int` values that the program only ever uses as array indices
  (`MyBuffer`, `current_buffer`, `lastproper`, `buffers`) are `Nat`.
* `unsigned int` and `uint32_t` arithmetic wraps modulo `2^32` (`wrap32`).
  Signed arithmetic (`int`, `long long`) is `Int` arithmetic: signed overflow
  is undefined in C++ and is not given a meaning here.
* Bytes are `Nat`s; a byte string (`std::string`, `char *`) is a `List Nat`.
* Calls into code outside the repository sources (socket writes, the FLV
  loader, the DTMI decoders) are inputs of the step functions. The JSON value
  tree of the external library is modelled from the specification, with
  member and array access as pure reads.
* A file on disk is the list of its bytes with a position; `fread` and
  `fwrite` return the item count of the C library, which is 0 for an item of
  size zero.
* What the outside world does in the main loop of the relay (the loader, the
  listener, the viewers' sockets) is an input of each iteration; what the
  relay does to the outside (lines printed, blocks written, calls of `Send`)
  is kept in traces.
* The file has the definitions first (part 1 the relay, part 2 the DTSC
  stream, part 3 statistics and seeking in the stream, part 4 the DTSC file,
  part 5 the main loop of the relay, part 6 `updateHeaders`, part 7 header
  chains, the send state of a viewer, the keyframe index and the end-of-file
  cache) and then the theorems.
-/

set_option autoImplicit false

/-! ## Part 1: `Buffer/main.cpp` -/

namespace Buffer

/-- The fields of `FLV::Tag` that the relay reads: the bytes `data`, the
address `ptr` those bytes live at (pointer identity of `FLV.data`), the
length `len` and the reader's `isKeyframe` flag. -/
structure Tag where
  data : List Nat
  ptr : Nat
  len : Int
  isKeyframe : Bool
deriving DecidableEq, Repr

/-- `struct buffer`: an FLV tag with its sequence number. -/
structure buffer where
  number : Int
  FLV : Tag
deriving DecidableEq, Repr

instance : Inhabited Tag := ⟨⟨[], 0, 0, false⟩⟩

instance : Inhabited buffer := ⟨⟨0, default⟩⟩

/-- The send state of `class user`; `connected` is `S.connected()`,
`lastpointer = 0` is the null pointer. -/
structure user where
  MyBuffer : Nat
  MyBuffer_num : Int
  MyBuffer_len : Int
  currsend : Int
  lastpointer : Nat
  connected : Bool
deriving DecidableEq, Repr

/-- What one call of `S.iwrite` did: its return value `r` and whether
`errno == EWOULDBLOCK` afterwards. -/
structure WriteOutcome where
  r : Int
  wouldBlock : Bool
deriving DecidableEq, Repr

/-- `ringbuf[i]`. -/
def slot (ringbuf : List buffer) (i : Nat) : buffer :=
  ringbuf.getD i default

/-- `user::Disconnect`: closes the socket. -/
def Disconnect (u : user) : user :=
  { u with connected := false }

/-- `user::doSend` (lines 107-116): the new user state and the return value. -/
def doSend (io : WriteOutcome) (u : user) : user × Bool :=
  if io.r ≤ 0 then
    if io.wouldBlock then (u, false) else (Disconnect u, false)
  else
    let u1 := { u with currsend := u.currsend + io.r }
    (u1, decide (u1.currsend = u1.MyBuffer_len))

/-- The first part of `Send` (lines 124-133): take the snapshot of the slot
when no send is in flight. The flag is `false` for the early return of line
128 (which leaves `MyBuffer_num` holding the value just read). -/
def snapshot (ringbuf : List buffer) (u : user) : user × Bool :=
  if u.MyBuffer_num < 0 then
    let u1 := { u with MyBuffer_num := (slot ringbuf u.MyBuffer).number }
    if u1.MyBuffer_num < 0 then (u1, false)
    else
      ({ u1 with MyBuffer_len := (slot ringbuf u.MyBuffer).FLV.len,
                 lastpointer := (slot ringbuf u.MyBuffer).FLV.ptr }, true)
  else (u, true)

/-- The `do { ... } while` keyframe search of lines 148-152, from cursor `mb`
and counter `n`; returns the final `(MyBuffer, nocrashcount)`. The loop runs
at most `buffers` times, which is the fuel `Send` passes. -/
def seekKeyframe (ringbuf : List buffer) (buffers : Nat) : Nat → Nat → Nat → Nat × Nat
  | 0, mb, n => (mb, n)
  | fuel + 1, mb, n =>
    let mb1 := (mb + 1) % buffers
    let n1 := n + 1
    if !(slot ringbuf mb1).FLV.isKeyframe && decide (n1 < buffers) then
      seekKeyframe ringbuf buffers fuel mb1 n1
    else (mb1, n1)

/-- The reset of lines 162-164. -/
def resetSend (u : user) : user :=
  { u with MyBuffer_num := -1, lastpointer := 0, currsend := 0 }

/-- The body of `if (doSend())` (lines 143-164) on the state `u` that `doSend`
left. -/
def afterSend (ringbuf : List buffer) (buffers : Nat) (u : user) : user :=
  if (slot ringbuf u.MyBuffer).number ≠ u.MyBuffer_num then
    let res := seekKeyframe ringbuf buffers buffers u.MyBuffer 0
    let u1 := { u with MyBuffer := res.1 }
    if res.2 ≥ buffers then u1 else resetSend u1
  else
    resetSend { u with MyBuffer := (u.MyBuffer + 1) % buffers }

/-- `user::Send` (lines 120-166). -/
def Send (ringbuf : List buffer) (buffers : Nat) (io : WriteOutcome) (u : user) : user :=
  if !u.connected then u
  else
    let s := snapshot ringbuf u
    if !s.2 then s.1
    else
      let u1 := s.1
      if u1.lastpointer ≠ (slot ringbuf u1.MyBuffer).FLV.ptr then Disconnect u1
      else
        let d := doSend io u1
        if d.2 then afterSend ringbuf buffers d.1 else d.1

/-- A slot holds a video keyframe tag: `data[0] == 0x09` and
`(data[11] & 0xf0) >> 4 == 1` (lines 273-274). -/
def isVideoKeyframe (t : Tag) : Bool :=
  decide (t.data.getD 0 0 = 0x09) && decide (((t.data.getD 11 0) &&& 0xf0) >>> 4 = 1)

/-- Reduction of an `unsigned int` result. -/
def wrap32 (n : Nat) : Nat := n % 2 ^ 32

/-- Conversion of an `unsigned int` to `int` (line 280). -/
def toInt32 (n : Nat) : Int :=
  if n % 2 ^ 32 < 2 ^ 31 then ((n % 2 ^ 32 : Nat) : Int) else ((n % 2 ^ 32 : Nat) : Int) - 2 ^ 32

/-- Modelled from the spec: `FLV::Tag::tagTime(0)` of `util/flv_tag.h`, which
is not among the sources: "rewrite timestamp to 0". The timestamp of an FLV
tag is bytes 4 to 7 of its 11-byte header (type, size, timestamp, stream id);
the other bytes and fields are untouched. -/
def tagTime0 (t : Tag) : Tag :=
  { t with data := (((t.data.set 4 0).set 5 0).set 6 0).set 7 0 }

/-- The relay state that the ingest step of `Start` reads and writes. -/
structure Relay where
  ringbuf : List buffer
  buffers : Nat
  current_buffer : Nat
  lastproper : Nat
  loopcount : Nat
  gotVideoInfo : Bool
  gotAudioInfo : Bool
  gotData : Bool
  Parse_Error : Bool
  metadata : Tag
  video_init : Tag
  audio_init : Tag
deriving DecidableEq, Repr

/-- What the loader did in one loop iteration: `none` when the condition of
lines 232-237 did not call `FileLoader`/`SockLoader`; otherwise the tag the
call left in the slot and the call's return value. -/
abbrev LoadResult := Option (Tag × Bool)

/-- `ringbuf[i]->FLV = t` (the slot's number is kept). -/
def setFLV (ringbuf : List buffer) (i : Nat) (t : Tag) : List buffer :=
  ringbuf.set i { slot ringbuf i with FLV := t }

/-- `ringbuf[i]->number = n`. -/
def setNumber (ringbuf : List buffer) (i : Nat) (n : Int) : List buffer :=
  ringbuf.set i { slot ringbuf i with number := n }

/-- The state at the start of the main loop: `current_buffer = 0`,
`lastproper = 0`, `loopcount = 0`, nothing received yet. -/
def initRelay (ringbuf : List buffer) : Relay :=
  { ringbuf := ringbuf, buffers := ringbuf.length, current_buffer := 0, lastproper := 0,
    loopcount := 0, gotVideoInfo := false, gotAudioInfo := false, gotData := false,
    Parse_Error := false, metadata := default, video_init := default, audio_init := default }

/-- Lines 242-251: metadata handling. -/
def ingestMetadata (s : Relay) : Relay :=
  let cur := (slot s.ringbuf s.current_buffer).FLV
  if cur.data.getD 0 0 = 0x12 then
    { s with metadata := cur,
             Parse_Error := s.Parse_Error || (s.gotVideoInfo && s.gotAudioInfo),
             gotVideoInfo := false, gotAudioInfo := false }
  else s

/-- Lines 253-262: video init data. -/
def ingestVideoInit (s : Relay) : Relay :=
  let cur := (slot s.ringbuf s.current_buffer).FLV
  if !s.gotVideoInfo && cur.isKeyframe then
    if (cur.data.getD 11 0) &&& 0x0f = 7 then
      if cur.data.getD 12 0 = 0 then
        let t := tagTime0 cur
        { s with ringbuf := setFLV s.ringbuf s.current_buffer t, video_init := t,
                 gotVideoInfo := true }
      else s
    else { s with gotVideoInfo := true }
  else s

/-- Lines 264-271: audio init data (`packtype` was read at line 240). -/
def ingestAudioInit (packtype : Nat) (s : Relay) : Relay :=
  let cur := (slot s.ringbuf s.current_buffer).FLV
  if !s.gotAudioInfo && decide (packtype = 0x08) then
    if ((cur.data.getD 11 0) &&& 0xf0) >>> 4 = 10 then
      let t := tagTime0 cur
      { s with ringbuf := setFLV s.ringbuf s.current_buffer t, audio_init := t,
               gotAudioInfo := true }
    else { s with gotAudioInfo := true }
  else s

/-- Lines 273-277: a video keyframe becomes the join point. -/
def ingestLastproper (packtype : Nat) (s : Relay) : Relay :=
  let cur := (slot s.ringbuf s.current_buffer).FLV
  if packtype = 0x09 then
    if ((cur.data.getD 11 0) &&& 0xf0) >>> 4 = 1 then { s with lastproper := s.current_buffer }
    else s
  else s

/-- Lines 278-282: `gotData`, the slot's number, the cursor. -/
def ingestFinish (s : Relay) : Relay :=
  let s1 := if s.loopcount > 5 then { s with gotData := true } else s
  { s1 with ringbuf := setNumber s1.ringbuf s1.current_buffer (toInt32 s1.loopcount),
            current_buffer := (s1.current_buffer + 1) % s1.buffers }

/-- The ingest step of one loop iteration of `Start` (lines 230-283). -/
def ingest (s : Relay) (l : LoadResult) : Relay :=
  let s0 := { s with ringbuf := setNumber s.ringbuf s.current_buffer (-1) }
  match l with
  | none => s0
  | some (t, ok) =>
    let s1 := { s0 with ringbuf := setFLV s0.ringbuf s0.current_buffer t }
    if !ok then s1
    else
      let s2 := { s1 with loopcount := wrap32 (s1.loopcount + 1) }
      let packtype := (slot s2.ringbuf s2.current_buffer).FLV.data.getD 0 0
      ingestFinish (ingestLastproper packtype (ingestAudioInit packtype
        (ingestVideoInit (ingestMetadata s2))))

/-- The ingest steps of successive loop iterations. -/
def ingestAll (s : Relay) (ls : List LoadResult) : Relay :=
  ls.foldl ingest s

/-- Number of iterations of `ls` in which a tag was loaded. -/
def loadedCount (ls : List LoadResult) : Nat :=
  (ls.filter (fun l => match l with
    | some (_, true) => true
    | _ => false)).length

/-- The viewer created on accept (lines 288-292). `MyBuffer_len` and
`lastpointer` are not initialised by the constructor; they are parameters. -/
def accept (s : Relay) (len0 : Int) (ptr0 : Nat) : user :=
  { MyBuffer := s.lastproper, MyBuffer_num := -1, MyBuffer_len := len0, currsend := 0,
    lastpointer := ptr0, connected := true }

/-- The step from `s` to `s1` keeps the ring's size, the cursor and
`lastproper`, every slot other than the one at the cursor, and bytes 0 and 11
of the tag at the cursor. -/
def SameTags (s s1 : Relay) : Prop :=
  s1.buffers = s.buffers ∧ s1.current_buffer = s.current_buffer ∧ s1.lastproper = s.lastproper
    ∧ s1.ringbuf.length = s.ringbuf.length
    ∧ (∀ i, i ≠ s.current_buffer → slot s1.ringbuf i = slot s.ringbuf i)
    ∧ (slot s1.ringbuf s.current_buffer).FLV.data.getD 0 0
        = (slot s.ringbuf s.current_buffer).FLV.data.getD 0 0
    ∧ (slot s1.ringbuf s.current_buffer).FLV.data.getD 11 0
        = (slot s.ringbuf s.current_buffer).FLV.data.getD 11 0

/-- The slot at `lastproper` holds a video keyframe and the ingest cursor is
`j + 1` slots past it, with `j + d` less than the ring size: at least `d`
more slots can be written before the one at `lastproper`. -/
def KeyframeSafe (s : Relay) (d : Nat) : Prop :=
  s.buffers = s.ringbuf.length ∧ s.lastproper < s.buffers
    ∧ isVideoKeyframe (slot s.ringbuf s.lastproper).FLV = true
    ∧ ∃ j, j + d < s.buffers ∧ s.current_buffer = (s.lastproper + 1 + j) % s.buffers

/-- An example video keyframe tag (type 0x09, frame type 1, AVC). -/
def exampleKeyframe : Tag :=
  ⟨[0x09, 0, 0, 2, 0, 0, 0, 0, 0, 0, 0, 0x17, 1], 100, 13, true⟩

/-- An example audio tag (type 0x08, MP3). -/
def exampleAudio : Tag :=
  ⟨[0x08, 0, 0, 2, 0, 0, 0, 0, 0, 0, 0, 0x2f, 1], 200, 13, false⟩

end Buffer

/-! ## Part 2: `lib/dtsc.cpp` -/

namespace DTSC

/-- Modelled from the spec: the value tree `JSON::Value` of the external JSON
library ("a JSON-like value tree": null, integers, strings, booleans, arrays,
objects with named members). -/
inductive JSON where
  | null : JSON
  | int (v : Int) : JSON
  | str (s : String) : JSON
  | bool (b : Bool) : JSON
  | arr (a : List JSON) : JSON
  | obj (m : List (String × JSON)) : JSON
deriving Repr

instance : Inhabited JSON := ⟨JSON.null⟩

namespace JSON

/-- The member named `k`, when the value is an object that has one. -/
def member? : JSON → String → Option JSON
  | obj m, k => (m.find? (fun p => p.1 == k)).map Prod.snd
  | _, _ => none

/-- Modelled from the spec: `isMember` of the value tree. -/
def isMember (j : JSON) (k : String) : Bool :=
  (j.member? k).isSome

/-- Modelled from the spec: typed member access `v["k"]` used as a value: the
member, or null when there is none. -/
def get (j : JSON) (k : String) : JSON :=
  (j.member? k).getD null

/-- Replace or add one entry of an association list. -/
def setEntry (k : String) (v : JSON) : List (String × JSON) → List (String × JSON)
  | [] => [(k, v)]
  | p :: ps => if p.1 == k then (k, v) :: ps else p :: setEntry k v ps

/-- Modelled from the spec: the assignment `v["k"] = x`; a value that is not
an object becomes an object with that single member. -/
def set (j : JSON) (k : String) (v : JSON) : JSON :=
  match j with
  | obj m => obj (setEntry k v m)
  | _ => obj [(k, v)]

/-- Modelled from the spec: `removeMember`. -/
def removeMember (j : JSON) (k : String) : JSON :=
  match j with
  | obj m => obj (m.filter (fun p => !(p.1 == k)))
  | other => other

/-- Modelled from the spec: array access `v[i]` used as a value. -/
def idx (j : JSON) (i : Nat) : JSON :=
  match j with
  | arr a => a.getD i null
  | _ => null

/-- Modelled from the spec: `size()` of an array or object. -/
def size : JSON → Nat
  | arr a => a.length
  | obj m => m.length
  | _ => 0

/-- Modelled from the spec: `asInt()`; an integer gives its value, a boolean
0 or 1, a string its decimal value, anything else 0. -/
def asInt : JSON → Int
  | int v => v
  | bool b => if b then 1 else 0
  | str s => s.toInt?.getD 0
  | _ => 0

/-- Modelled from the spec: `asString()`, also the `strVal` of a value. -/
def asString : JSON → String
  | str s => s
  | _ => ""

/-- The members of an object, in iteration order. -/
def members : JSON → List (String × JSON)
  | obj m => m
  | _ => []

end JSON

/-- `DTSC::datatype`. -/
inductive datatype where
  | AUDIO | VIDEO | META | PAUSEMARK | INVALID
deriving DecidableEq, Repr

/-- `DTSC::Ring`. -/
structure Ring where
  b : Nat
  waiting : Bool
  starved : Bool
  updated : Bool
  playCount : Int
deriving DecidableEq, Repr

/-- `DTSC::Ring::Ring(unsigned int v)` (lines 338-344). -/
def Ring.mk0 (v : Nat) : Ring :=
  { b := v, waiting := false, starved := false, updated := false, playCount := 0 }

/-- The external DTMI decoders: `JSON::fromDTMI` (v1) and `JSON::fromDTMI2`
(v2), as functions of the bytes they are given. -/
structure Codec where
  fromDTMI : List Nat → JSON
  fromDTMI2 : List Nat → JSON

/-- `DTSC::Stream`, with the function-local statics of `parsePacket`
(`syncing`) and `advanceRings` (`fragNum`, `lastkeytime`). `buffers` has the
newest packet first. `rings` lists the `Ring` objects handed out by `getRing`;
a ring is named by its position. `buffercount`, `buffertime` and `Ring.b` are
`unsigned int`. `datapointer` is `none` for the null pointer and otherwise the
string pointed at. -/
structure Stream where
  metadata : JSON
  buffers : List JSON
  keyframes : List Ring
  rings : List Ring
  trackMapping : List (Int × String)
  buffercount : Nat
  buffertime : Nat
  datapointertype : datatype
  datapointer : Option String
  syncing : Bool
  fragNum : Int
  lastkeytime : Nat
deriving Repr

/-- Reduction of an `unsigned int` / `uint32_t` result. -/
def wrap32 (n : Nat) : Nat := n % 2 ^ 32

/-- Conversion of a `long long` to `unsigned int`. -/
def toU32 (v : Int) : Nat := (v % 2 ^ 32).toNat

/-- Conversion of a `long long` to `int`. -/
def toI32 (v : Int) : Int := (v + 2 ^ 31) % 2 ^ 32 - 2 ^ 31

/-- `DTSC::Stream::Stream()` (lines 13-18). -/
def Stream.new : Stream :=
  { metadata := JSON.null, buffers := [], keyframes := [], rings := [], trackMapping := [],
    buffercount := 1, buffertime := 0, datapointertype := datatype.INVALID, datapointer := none,
    syncing := false, fragNum := 1, lastkeytime := 4242 }

/-- `DTSC::Stream::Stream(unsigned int rbuffers, unsigned int bufferTime)`
(lines 22-30). -/
def Stream.new2 (rbuffers bufferTime : Nat) : Stream :=
  { Stream.new with
    buffercount := if wrap32 rbuffers < 1 then 1 else wrap32 rbuffers,
    buffertime := wrap32 bufferTime }

/-- `DTSC::Magic_Header`. -/
def Magic_Header : List Nat := [68, 84, 83, 67]

/-- `DTSC::Magic_Packet`. -/
def Magic_Packet : List Nat := [68, 84, 80, 68]

/-- `DTSC::Magic_Packet2`. -/
def Magic_Packet2 : List Nat := [68, 84, 80, 50]

/-- `memcmp(buffer.c_str(), magic, 4) == 0`. -/
def hasMagic (buffer magic : List Nat) : Bool :=
  buffer.take 4 == magic

/-- `ntohl(((uint32_t *)buffer.c_str())[1])`: bytes 4 to 7, big-endian. -/
def ntohlAt4 (buffer : List Nat) : Nat :=
  wrap32 ((buffer.getD 4 0 % 256) * 2 ^ 24 + (buffer.getD 5 0 % 256) * 2 ^ 16
    + (buffer.getD 6 0 % 256) * 2 ^ 8 + buffer.getD 7 0 % 256)

/-- `std::string::find(pattern)`: the first position at which `pat` occurs,
`none` for `npos`. -/
def find (pat : List Nat) : List Nat → Option Nat
  | [] => if pat.isPrefixOf [] then some 0 else none
  | c :: cs => if pat.isPrefixOf (c :: cs) then some 0 else (find pat cs).map (· + 1)

/-- `trackMapping.insert(std::pair<int,std::string>(k, name))`: no effect when
the key is present. -/
def mapInsert (tm : List (Int × String)) (k : Int) (name : String) : List (Int × String) :=
  if tm.any (fun p => p.1 == k) then tm else tm ++ [(k, name)]

/-- Lines 65-70: `trackMapping` rebuilt from `metadata["tracks"]`. -/
def rebuildTrackMapping (metadata : JSON) : List (Int × String) :=
  if metadata.isMember "tracks" then
    (metadata.get "tracks").members.foldl
      (fun tm p => mapInsert tm (toI32 (p.2.get "trackid").asInt) p.1) []
  else []

/-- `trackMapping[k]`: the mapped name, after adding `k` with an empty name
when it is absent. -/
def mapIndex (tm : List (Int × String)) (k : Int) : List (Int × String) × String :=
  match tm.find? (fun p => p.1 == k) with
  | some p => (tm, p.2)
  | none => (tm ++ [(k, "")], "")

/-- The update of one given-out ring in `advanceRings` (lines 290-298), for the
current `buffers.size()`. -/
def advanceRing (size : Nat) (r : Ring) : Ring :=
  let r1 := { r with b := wrap32 (r.b + 1) }
  let r2 := if r1.waiting then { r1 with waiting := false, b := 0 } else r1
  if r2.starved || decide (r2.b ≥ size) then { r2 with starved := true, b := 0 } else r2

/-- One pass of the inner `for` of lines 308-314: erase the first keyframe
cursor with `b >= buffers.size()`; `none` when there is none (`repeat` stays
false). -/
def eraseFirstStale (size : Nat) : List Ring → Option (List Ring)
  | [] => none
  | k :: ks =>
    if k.b ≥ size then some ks else (eraseFirstStale size ks).map (fun t => k :: t)

/-- The `do { ... } while (repeat)` of lines 306-315. Every pass that repeats
erases one cursor, so the number of cursors bounds the passes. -/
def evictLoop (size : Nat) : Nat → List Ring → List Ring
  | 0, ks => ks
  | fuel + 1, ks =>
    match eraseFirstStale size ks with
    | some ks1 => evictLoop size fuel ks1
    | none => ks

/-- Lines 301-316: the internal keyframe cursors are advanced and the stale
ones erased. -/
def advanceKeyframes (size : Nat) (keyframes : List Ring) : List Ring :=
  let ks := keyframes.map (fun k => { k with b := wrap32 (k.b + 1) })
  evictLoop size ks.length ks

/-- The condition of line 319. -/
def isNewKeyframe (s : Stream) : Bool :=
  let front := s.buffers.headD JSON.null
  (decide (s.datapointertype = datatype.VIDEO) && front.isMember "keyframe")
    || (!s.metadata.isMember "video"
        && decide (Int.tdiv (front.get "time").asInt 2000 ≠ (s.lastkeytime : Int)))

/-- `buffers.front() = f`. -/
def setFront (buffers : List JSON) (f : JSON) : List JSON :=
  match buffers with
  | [] => []
  | _ :: rest => f :: rest

/-- Lines 319-325: a new keyframe cursor is pushed and the packet numbered. -/
def pushKeyframe (s : Stream) : Stream :=
  if isNewKeyframe s then
    let front := s.buffers.headD JSON.null
    let s1 := { s with keyframes := Ring.mk0 0 :: s.keyframes }
    let s2 :=
      if !front.isMember "fragnum" then
        { s1 with buffers := setFront s1.buffers (front.set "fragnum" (JSON.int s1.fragNum)),
                  fragNum := s1.fragNum + 1 }
      else s1
    { s2 with lastkeytime := toU32 (Int.tdiv ((s2.buffers.headD JSON.null).get "time").asInt 2000) }
  else s

/-- Lines 326-330: `timeBuffered`. -/
def timeBuffered (s : Stream) : Nat :=
  if s.keyframes.length > 1 then
    toU32 (((s.buffers.getD ((s.keyframes.getD 0 (Ring.mk0 0)).b) JSON.null).get "time").asInt
      - ((s.buffers.getD ((s.keyframes.getD (s.keyframes.length - 1) (Ring.mk0 0)).b)
          JSON.null).get "time").asInt)
  else 0

/-- Lines 331-333: the buffer count grows while too little is buffered. -/
def growBuffer (s : Stream) : Stream :=
  if s.buffercount > 1 && (decide (s.keyframes.length < 2) || decide (timeBuffered s < s.buffertime))
  then { s with buffercount := wrap32 (s.buffercount + 1) }
  else s

/-- `DTSC::Stream::advanceRings` (lines 285-334). -/
def advanceRings (s : Stream) : Stream :=
  let s1 := { s with rings := s.rings.map (advanceRing s.buffers.length) }
  let s2 := { s1 with keyframes := advanceKeyframes s1.buffers.length s1.keyframes }
  growBuffer (pushKeyframe s2)

/-- `DTSC::Stream::getRing` (lines 349-358): the new ring is added to `rings`;
the result is the stream and the position that names the new ring. -/
def getRing (s : Stream) : Stream × Nat :=
  let tmp := if s.keyframes.length = 0 then Ring.mk0 0
             else Ring.mk0 ((s.keyframes.getD 0 (Ring.mk0 0)).b)
  ({ s with rings := s.rings ++ [tmp] }, s.rings.length)

/-- `DTSC::Stream::dropRing` (lines 362-367), the ring named by position. -/
def dropRing (s : Stream) (i : Nat) : Stream :=
  if i < s.rings.length then { s with rings := s.rings.eraseIdx i } else s

/-- `DTSC::Stream::getPacket` (lines 243-249). -/
def getPacket (s : Stream) (num : Nat) : JSON :=
  if num ≥ s.buffers.length then JSON.null else s.buffers.getD num JSON.null

/-- Lines 98-112: the data type named by the packet's `datatype` member. -/
def typeOfPacket (p : JSON) : datatype :=
  if p.isMember "datatype" then
    let tmp := (p.get "datatype").asString
    let t1 := if tmp = "video" then datatype.VIDEO else datatype.INVALID
    let t2 := if tmp = "audio" then datatype.AUDIO else t1
    let t3 := if tmp = "meta" then datatype.META else t2
    if tmp = "pause_marker" then datatype.PAUSEMARK else t3
  else datatype.INVALID

/-- Lines 114-116: `pop_back` while `buffers.size() > buffercount`, which
keeps the `buffercount` newest packets. -/
def evictBuffers (buffers : List JSON) (buffercount : Nat) : List JSON :=
  buffers.take buffercount

/-- Lines 53-75 of `parsePacket(std::string &)`: a `"DTSC"` header frame. The
result is the stream, the buffer, and whether the function goes on (`false`
is one of the two `return false`). -/
def parseHeader (c : Codec) (version : Nat) (s : Stream) (buffer : List Nat) :
    Stream × List Nat × Bool :=
  if hasMagic buffer Magic_Header then
    let len := ntohlAt4 buffer
    if buffer.length < wrap32 (len + 8) then (s, buffer, false)
    else
      let md := if version = 1 then c.fromDTMI ((buffer.drop 8).take len)
                else c.fromDTMI2 (buffer.drop 8)
      let md1 := md.removeMember "moreheader"
      let s1 := { s with metadata := md1, trackMapping := rebuildTrackMapping md1 }
      let buffer1 := buffer.drop (wrap32 (len + 8))
      if buffer1.length ≤ 8 then (s1, buffer1, false) else (s1, buffer1, true)
  else (s, buffer, true)

/-- Lines 86-91: the v2 decode and the `datatype` backfill. -/
def decodeV2 (c : Codec) (s : Stream) (buffer : List Nat) : Stream × JSON :=
  let p := c.fromDTMI2 (buffer.drop 8)
  if !p.isMember "datatype" then
    let tm := mapIndex s.trackMapping (toI32 (p.get "trackid").asInt)
    ({ s with trackMapping := tm.1 },
      p.set "datatype" (((s.metadata.get "tracks").get tm.2).get "type"))
  else (s, p)

/-- Lines 76-120: a payload frame of the given non-zero `version`. -/
def parsePayload (c : Codec) (version : Nat) (s : Stream) (buffer : List Nat) :
    Stream × List Nat × Bool :=
  let len := ntohlAt4 buffer
  if buffer.length < wrap32 (len + 8) then (s, buffer, false)
  else
    let p1 := if version = 1 then c.fromDTMI ((buffer.drop 8).take len) else JSON.null
    let d := if version = 2 then decodeV2 c s buffer else (s, p1)
    let s1 := d.1
    let front := d.2
    let s2 := { s1 with
      buffers := front :: s1.buffers,
      datapointer := if front.isMember "data" then some (front.get "data").asString else none,
      datapointertype := typeOfPacket front }
    let buffer1 := buffer.drop (wrap32 (len + 8))
    let s3 := { s2 with buffers := evictBuffers s2.buffers s2.buffercount }
    let s4 := advanceRings s3
    ({ s4 with syncing := false }, buffer1, true)

/-- Lines 127-137: resynchronisation on the next packet magic. -/
def resync (buffer : List Nat) : List Nat :=
  let magic_search := find Magic_Packet buffer
  let magic_search2 := find Magic_Packet2 buffer
  match magic_search2 with
  | none =>
    match magic_search with
    | none => []
    | some k => buffer.drop k
  | some k2 => buffer.drop k2

/-- `DTSC::Stream::parsePacket(std::string & buffer)` (lines 42-140): the new
stream, what is left of the buffer, and the return value. -/
def parsePacket (c : Codec) (s : Stream) (buffer : List Nat) : Stream × List Nat × Bool :=
  if buffer.length > 8 then
    let v1 := if hasMagic buffer Magic_Packet then 1 else 0
    let version := if hasMagic buffer Magic_Packet2 then 2 else v1
    let h := parseHeader c version s buffer
    if !h.2.2 then (h.1, h.2.1, false)
    else if version ≠ 0 then parsePayload c version h.1 h.2.1
    else (h.1, resync h.2.1, false)
  else (s, buffer, false)

/-- A fragment `{num, len, dur}` as built at lines 432-435. -/
def mkFrag (num : JSON) (fragLen : Nat) (fragDur : Int) : JSON :=
  ((JSON.null.set "num" num).set "len" (JSON.int fragLen)).set "dur" (JSON.int fragDur)

/-- The inner `for` of lines 428-446 from index `j`: `some (fragLen, fragDur)`
when the fragment is finished (the `break`), `none` when `j` reaches
`keytime.size()` first. The fuel is `keytime.size() - j`. -/
def fragInner (keytime keylen : JSON) : Nat → Nat → Nat → Int → Option (Nat × Int)
  | 0, _, _, _ => none
  | fuel + 1, j, fragLen, fragDur =>
    if j < keytime.size then
      if fragDur ≥ 10000 then some (fragLen, fragDur)
      else fragInner keytime keylen fuel (j + 1) (fragLen + 1) (fragDur + (keylen.idx j).asInt)
    else none

/-- The outer `for` of lines 423-448 from index `i` with the current
`fragStart`: the fragments appended to `metadata["frags"]`, in order, and the
final `fragStart`. Every pass increases `i`, so `keytime.size() - i` passes
suffice; that is the fuel `fragLoop` passes. -/
def fragOuter (keytime keynum keylen : JSON) : Nat → Nat → Nat → List JSON × Nat
  | 0, _, fragStart => ([], fragStart)
  | fuel + 1, i, fragStart =>
    if i < keytime.size then
      if i = fragStart then
        match fragInner keytime keylen (keytime.size - (i + 1)) (i + 1) 1 (keylen.idx i).asInt with
        | some (fragLen, fragDur) =>
          let rest := fragOuter keytime keynum keylen fuel
            (i + (fragLen - 1) + 1) (fragStart + fragLen)
          (mkFrag (keynum.idx i) fragLen fragDur :: rest.1, rest.2)
        | none => fragOuter keytime keynum keylen fuel (i + 1) fragStart
      else fragOuter keytime keynum keylen fuel (i + 1) fragStart
    else ([], fragStart)

/-- The fragment loop of `updateHeaders` (lines 423-448) started with
`fragStart`, over the arrays `metadata["keytime"]`, `metadata["keynum"]` and
`metadata["keylen"]`. -/
def fragLoop (keytime keynum keylen : JSON) (fragStart : Nat) : List JSON × Nat :=
  fragOuter keytime keynum keylen (keytime.size - fragStart) fragStart fragStart

/-- The sum `keylen[i] + ... + keylen[i+n-1]`. -/
def keylenSum (keylen : JSON) (i : Nat) : Nat → Int
  | 0 => 0
  | n + 1 => keylenSum keylen i n + (keylen.idx (i + n)).asInt

/-- The pattern `pat` occurs in `s` at position `k`, and not before. -/
def FirstOccurrence (pat s : List Nat) (k : Nat) : Prop :=
  (s.drop k).take pat.length = pat ∧ ∀ j, j < k → (s.drop j).take pat.length ≠ pat

/-- The pattern `pat` occurs nowhere in `s`. -/
def NoOccurrence (pat s : List Nat) : Prop :=
  ∀ j, (s.drop j).take pat.length ≠ pat

end DTSC

namespace DTSC

/-- The big-endian four-byte form of a `uint32_t`. -/
def be32 (n : Nat) : List Nat :=
  [n / 2 ^ 24 % 256, n / 2 ^ 16 % 256, n / 2 ^ 8 % 256, n % 256]

/-- A `"DTP2"` frame around `payload`. -/
def frameV2 (payload : List Nat) : List Nat :=
  Magic_Packet2 ++ be32 payload.length ++ payload

/-- A decoder pair that yields the same value `v` for every input. -/
def constCodec (v : JSON) : Codec :=
  ⟨fun _ => v, fun _ => v⟩

/-- An example packet: a video keyframe at time 0. -/
def exampleKeyPacket : JSON :=
  JSON.obj [("datatype", JSON.str "video"), ("keyframe", JSON.int 1), ("time", JSON.int 0)]

/-- An example stream: capacity 3, one packet parsed, one ring given out. -/
def exampleStream : Stream :=
  (getRing (parsePacket (constCodec exampleKeyPacket) (Stream.new2 3 0) (frameV2 [0])).1).1

end DTSC

/-! ## Part 3: statistics lines (`Buffer/main.cpp`) and seeking in the stream -/

namespace Buffer

/-- `class Stats` (lines 34-69): the fields of one stats line; `up`, `down`
and `conntime` are `unsigned int`. -/
structure Stats where
  up : Nat
  down : Nat
  host : String
  connector : String
  conntime : Nat
deriving DecidableEq, Repr

/-- `Stats::Stats()` (lines 41-45). -/
def Stats.empty : Stats :=
  { up := 0, down := 0, host := "", connector := "", conntime := 0 }

/-- The statistics fields of `class user`: `lastStats`, `curr_up` and
`curr_down` (lines 80-82). -/
structure userStats where
  lastStats : Stats
  curr_up : Nat
  curr_down : Nat
deriving DecidableEq, Repr

/-- Subtraction of two `unsigned int` values. -/
def sub32 (a b : Nat) : Nat :=
  (a % 2 ^ 32 + (2 ^ 32 - b % 2 ^ 32)) % 2 ^ 32

/-- Lines 349-350: `secs`, the `unsigned int` difference of the connection
times, raised to 1 when it is below 1. -/
def statsSecs (tmpStats lastStats : Stats) : Nat :=
  let secs := sub32 tmpStats.conntime lastStats.conntime
  if secs < 1 then 1 else secs

/-- Lines 348-353 of `Start`: the handling of an `S` line whose text was
parsed into `tmpStats`. -/
def handleStats (u : userStats) (tmpStats : Stats) : userStats :=
  let secs := statsSecs tmpStats u.lastStats
  { lastStats := tmpStats,
    curr_up := sub32 tmpStats.up u.lastStats.up / secs,
    curr_down := sub32 tmpStats.down u.lastStats.down / secs }

end Buffer

namespace DTSC

/-- `DTSC::Stream::canSeekms` (lines 468-479). -/
def canSeekms (s : Stream) (ms : Nat) : Int :=
  let keytime := s.metadata.get "keytime"
  if keytime.size = 0 then 1
  else if (ms : Int) > (keytime.idx (keytime.size - 1)).asInt then 1
  else if (ms : Int) < (keytime.idx 0).asInt then -1
  else 0

/-- `DTSC::Stream::canSeekFrame` (lines 481-493). -/
def canSeekFrame (s : Stream) (frameno : Nat) : Int :=
  let keynum := s.metadata.get "keynum"
  if keynum.size = 0 then 1
  else if (frameno : Int) > (keynum.idx (keynum.size - 1)).asInt then 1
  else if (frameno : Int) < (keynum.idx 0).asInt then -1
  else 0

/-- The `time` of the packet a keyframe cursor points at:
`buffers[r.b]["time"].asInt()`. -/
def keyTime (s : Stream) (r : Ring) : Int :=
  ((s.buffers.getD r.b JSON.null).get "time").asInt

/-- `DTSC::Stream::msSeek` (lines 495-507). -/
def msSeek (s : Stream) (ms : Nat) : Nat :=
  if (ms : Int) > keyTime s (s.keyframes.getD 0 (Ring.mk0 0)) then
    (s.keyframes.getD 0 (Ring.mk0 0)).b
  else
    match s.keyframes.find? (fun r => decide (keyTime s r ≤ (ms : Int))) with
    | some r => r.b
    | none => (s.keyframes.getD (s.keyframes.length - 1) (Ring.mk0 0)).b

/-- A video keyframe packet with the given `time`, as decoded from the wire. -/
def videoKeyPacket (time : Int) : JSON :=
  JSON.obj [("datatype", JSON.str "video"), ("keyframe", JSON.int 1), ("time", JSON.int time)]

/-- A decoder for a test stream: the payload byte `k` decodes to the video
keyframe packet with time `1000 * k`. -/
def secondsCodec : Codec :=
  ⟨fun bytes => videoKeyPacket (1000 * (bytes.headD 0 : Nat)),
   fun bytes => videoKeyPacket (1000 * (bytes.headD 0 : Nat))⟩

/-- The stream after the payload frames with bytes `ks` were parsed in turn. -/
def feedSeconds (s : Stream) (ks : List Nat) : Stream :=
  ks.foldl (fun st k => (parsePacket secondsCodec st (frameV2 [k])).1) s

/-- An example stream whose metadata lists three keys, at 1000, 2000 and
3000 ms, numbered 1 to 3. -/
def exampleSeekStream : Stream :=
  { Stream.new with
    metadata := JSON.obj [("keytime", JSON.arr [JSON.int 1000, JSON.int 2000, JSON.int 3000]),
      ("keynum", JSON.arr [JSON.int 1, JSON.int 2, JSON.int 3])] }

end DTSC

/-! ## Part 4: the DTSC file (`DTSC::File` of `lib/dtsc.cpp`)

The file on disk is a byte array `F` with a position indicator `pos`; there
are no I/O errors. -/

namespace DTSC

/-- Conversion of a `long long` to `long long unsigned int`. -/
def toU64 (v : Int) : Nat := (v % 2 ^ 64).toNat

/-- Modelled from the spec: `struct seekPos` of `dtsc.h`, which is not among
the sources: "`SeekPos = {trackId, seekTime, seekPos}`". `seekTime` and
`bytePos` (the member `seekPos`, renamed because it is also the name of the
structure) hold the `long long unsigned int` values the code stores in them,
`trackID` an `unsigned int`. -/
structure seekPos where
  seekTime : Nat
  bytePos : Nat
  trackID : Nat
deriving DecidableEq, Repr

/-- Modelled from the spec: the order of `seekPos` in `dtsc.h`: "ordered by
`(seekTime, trackId)`". -/
def seekPos.lt (a b : seekPos) : Bool :=
  decide (a.seekTime < b.seekTime) || (decide (a.seekTime = b.seekTime) && decide (a.trackID < b.trackID))

/-- `std::set<seekPos>::insert` on the set kept as an increasing list: nothing
is inserted when an element equivalent under the order is present. -/
def setInsert (x : seekPos) : List seekPos → List seekPos
  | [] => [x]
  | y :: ys =>
    if x.lt y then x :: y :: ys
    else if y.lt x then y :: setInsert x ys
    else y :: ys

/-- `DTSC::File`, with the static `endPos` of `getBytePosEOF`. -/
structure File where
  F : List Nat
  pos : Nat
  created : Bool
  buffer : List Nat
  headerSize : Nat
  metadata : JSON
  firstmetadata : JSON
  jsonbuffer : JSON
  strbuffer : List Nat
  currentPositions : List seekPos
  selectedTracks : List Int
  trackMapping : List (Int × String)
  lastreadpos : Nat
  currframe : Nat
  endPos : Nat
deriving Repr

/-- `fseek(F, off, SEEK_SET)`; a negative offset fails and leaves the position. -/
def fseekSet (f : File) (off : Int) : File :=
  if off < 0 then f else { f with pos := off.toNat }

/-- `fseek(F, 0, SEEK_END)`. -/
def fseekEnd (f : File) : File :=
  { f with pos := f.F.length }

/-- The bytes of a file after `bytes` were written at position `pos`; a gap
between the old end and `pos` reads as zero bytes. -/
def writeAt (F : List Nat) (pos : Nat) (bytes : List Nat) : List Nat :=
  F.take pos ++ List.replicate (pos - F.length) 0 ++ bytes ++ F.drop (pos + bytes.length)

/-- `fwrite(bytes, bytes.size(), 1, F)`: the file and the return value, which
is the number of items written: 1, and 0 for an item of size zero. -/
def fwrite (f : File) (bytes : List Nat) : File × Nat :=
  if bytes.length = 0 then (f, 0)
  else ({ f with F := writeAt f.F f.pos bytes, pos := f.pos + bytes.length }, 1)

/-- `fread(ptr, n, 1, F)`: the file, the bytes read, and the return value,
which is 1 when `n > 0` bytes were all there and 0 otherwise. -/
def fread (f : File) (n : Nat) : File × List Nat × Nat :=
  let got := (f.F.drop f.pos).take n
  ({ f with pos := f.pos + got.length }, got,
    if n ≠ 0 ∧ got.length = n then 1 else 0)

/-- `fread(buffer, 4, 1, F)` into the member `buffer`. -/
def freadBuffer (f : File) : File × Nat :=
  let r := fread f 4
  ({ r.1 with buffer := r.2.1 ++ f.buffer.drop r.2.1.length }, r.2.2)

/-- `ntohl` of the four bytes at offset `i` of `b`, big-endian. -/
def ntohlAt (b : List Nat) (i : Nat) : Nat :=
  (b.getD i 0 % 256) * 2 ^ 24 + (b.getD (i + 1) 0 % 256) * 2 ^ 16
    + (b.getD (i + 2) 0 % 256) * 2 ^ 8 + b.getD (i + 3) 0 % 256

/-- `strbuffer.resize(n)`. -/
def resize (s : List Nat) (n : Nat) : List Nat :=
  s.take n ++ List.replicate (n - s.length) 0

/-- The failure exit of `readHeader`: `strbuffer = ""; metadata.null();`. -/
def headerFailed (f : File) : File :=
  { f with strbuffer := [], metadata := JSON.null }

/-- Lines 681-692 of `readHeader`: the size is in `buffer`; the header bytes
are read and decoded. The flag is `false` for the failed read of line 685. -/
def readHeaderBody (c : Codec) (f : File) : File × Bool :=
  let packSize := ntohlAt f.buffer 0
  let f1 := { f with strbuffer := resize f.strbuffer packSize }
  if packSize ≠ 0 then
    let r := fread f1 packSize
    if r.2.2 ≠ 1 then (r.1, false)
    else
      let f2 := { r.1 with strbuffer := r.2.1 }
      ({ f2 with metadata := c.fromDTMI f2.strbuffer }, true)
  else (f1, true)

/-- Lines 656-695 of `readHeader`: one header frame is read at `pos`. The
flag is `false` for the four failure exits, which leave `metadata` null. -/
def readHeaderFrame (c : Codec) (f : File) (pos : Int) : File × Bool :=
  let r1 := freadBuffer (fseekSet f pos)
  if r1.2 ≠ 1 then (headerFailed r1.1, false)
  else if r1.1.buffer ≠ Magic_Header then (headerFailed r1.1, false)
  else
    let r2 := freadBuffer r1.1
    if r2.2 ≠ 1 then (headerFailed r2.1, false)
    else
      let b := readHeaderBody c r2.1
      if !b.2 then (headerFailed b.1, false)
      else (if pos = 0 then { b.1 with firstmetadata := b.1.metadata } else b.1, true)

/-- `DTSC::File::readHeader(int pos)` (lines 655-703). Each level of the
recursion at line 698 uses one unit of fuel; `none` is fuel used up. -/
def readHeader (c : Codec) : Nat → File → Int → Option File
  | 0, _, _ => none
  | fuel + 1, f, pos =>
    let r := readHeaderFrame c f pos
    if !r.2 then some r.1
    else if r.1.metadata.isMember "moreheader"
        && decide ((r.1.metadata.get "moreheader").asInt > 0) then
      readHeader c fuel r.1 (toI32 (r.1.metadata.get "moreheader").asInt)
    else some { r.1 with metadata := r.1.metadata.set "vod" (JSON.bool true) }

/-- The fields of a `File` before the constructor body runs; `endPos` is the
value the static of `getBytePosEOF` holds in this process. -/
def File.blank (F : List Nat) (endPos : Nat) : File :=
  { F := F, pos := 0, created := false, buffer := [0, 0, 0, 0], headerSize := 0,
    metadata := JSON.null, firstmetadata := JSON.null, jsonbuffer := JSON.null, strbuffer := [],
    currentPositions := [], selectedTracks := [], trackMapping := [], lastreadpos := 0,
    currframe := 0, endPos := endPos }

/-- Lines 563-574 of the constructor: create mode truncates the file and
writes an empty header; read mode opens the bytes `disk`. -/
def openFile (disk : List Nat) (create : Bool) (endPos : Nat) : File :=
  if create then
    let f0 := File.blank [] endPos
    let f1 := (fwrite (fseekSet f0 0) Magic_Header).1
    let f2 := { f1 with buffer := [0, 0, 0, 0] }
    let f3 := (fwrite f2 f2.buffer).1
    { f3 with headerSize := 0, created := true }
  else File.blank disk endPos

/-- Lines 581-589 of the constructor: the header size is read from offset 4,
or four zero bytes are written there when it cannot be read. -/
def readHeaderSize (f : File) : File :=
  let r := freadBuffer (fseekSet f 4)
  if r.2 ≠ 1 then
    let f1 := { fseekSet r.1 4 with buffer := [0, 0, 0, 0] }
    (fwrite f1 f1.buffer).1
  else { r.1 with headerSize := ntohlAt r.1.buffer 0 }

/-- `DTSC::File::File(std::string filename, bool create)` (lines 562-599) on a
file whose bytes on disk are `disk`; `fuel` bounds the header chain that
`readHeader(0)` follows. -/
def File.open (c : Codec) (fuel : Nat) (disk : List Nat) (create : Bool) (endPos : Nat) :
    Option File :=
  match readHeader c fuel (readHeaderSize (openFile disk create endPos)) 0 with
  | none => none
  | some f =>
    let f1 := { f with trackMapping := rebuildTrackMapping f.metadata }
    some { fseekSet f1 (8 + f1.headerSize : Nat) with currframe := 0 }

/-- `DTSC::File::writeHeader` (lines 613-629): the file and the return value. -/
def writeHeader (f : File) (header : List Nat) (force : Bool) : File × Bool :=
  if f.headerSize ≠ header.length && !force then (f, false)
  else
    let f1 := { f with headerSize := header.length }
    let pSize := be32 header.length
    let w1 := fwrite (fseekSet f1 4) pSize
    if w1.2 ≠ 1 then (w1.1, false)
    else
      let w2 := fwrite (fseekSet w1.1 8) header
      (fseekSet w2.1 (8 + f1.headerSize : Nat), decide (w2.2 = 1))

/-- `DTSC::File::addHeader` (lines 633-650): the file and the return value. -/
def addHeader (f : File) (header : List Nat) : File × Int :=
  let f1 := fseekEnd f
  let writePos : Int := f1.pos
  let hSize := be32 header.length
  let w1 := fwrite f1 Magic_Header
  if w1.2 ≠ 1 then (w1.1, 0)
  else
    let w2 := fwrite w1.1 hSize
    if w2.2 ≠ 1 then (w2.1, 0)
    else
      let w3 := fwrite w2.1 header
      if w3.2 ≠ 1 then (w3.1, 0)
      else (w3.1, writePos)

/-- `DTSC::File::getBytePosEOF` (lines 705-712). -/
def getBytePosEOF (f : File) : File × Nat :=
  if f.endPos = 0 then
    let f1 := fseekEnd f
    ({ f1 with endPos := f1.pos }, f1.pos)
  else (f, f.endPos)

/-- `DTSC::File::seek_bpos(int bpos)` (lines 859-864). -/
def seek_bpos (f : File) (bpos : Int) : File :=
  fseekSet f bpos

/-- The `for` of lines 810-816 from index `i`: the `(seekTime, seekPos)` it
leaves. The fuel is `keynum.size() - i`. -/
def seekKey (track : JSON) (ms : Int) : Nat → Nat → Nat × Nat → Nat × Nat
  | 0, _, tmp => tmp
  | fuel + 1, i, tmp =>
    if i < (track.get "keynum").size then
      if ((track.get "keytime").idx i).asInt > ms then tmp
      else seekKey track ms fuel (i + 1)
        (toU64 ((track.get "keytime").idx i).asInt, toU64 ((track.get "keybpos").idx i).asInt)
    else tmp

/-- The `while` of lines 818-844. The result is `none` when the fuel is used
up, and otherwise the file with `none` for the `return false` of line 820 or
the `tmpPos` with which the loop ends. Bytes of `header` that `fread` did not
deliver are taken as 0. -/
def seekScan : Nat → File → Int → Int → seekPos → Option (File × Option seekPos)
  | 0, _, _, _, _ => none
  | fuel + 1, f, ms, trackNo, tmpPos =>
    let e := getBytePosEOF f
    if tmpPos.bytePos = e.2 then some (e.1, none)
    else
      let f1 := seek_bpos e.1 (toI32 tmpPos.bytePos)
      let r := fread f1 20
      let header := r.2.1
      let packSize := toI32 (ntohlAt header 4)
      let packID := toI32 (ntohlAt header 8)
      if packID ≠ trackNo then
        seekScan fuel r.1 ms trackNo
          { tmpPos with bytePos := toU64 ((tmpPos.bytePos : Int) + 8 + packSize) }
      else
        let myTime := ntohlAt header 12 * 2 ^ 32 + ntohlAt header 16
        if myTime ≥ toU64 ms then some (r.1, some { tmpPos with seekTime := myTime })
        else
          seekScan fuel r.1 ms trackNo
            { tmpPos with bytePos := toU64 ((tmpPos.bytePos : Int) + 8 + packSize) }

/-- `DTSC::File::seek_time(int ms, int trackNo)` (lines 805-846). The result is
`none` when the fuel for the `while` is used up; otherwise the file and the
value returned: `some false` at line 820, and `none` when control reaches the
end of the function after the insert, where no value is returned. -/
def seek_time (fuel : Nat) (f : File) (ms trackNo : Int) : Option (File × Option Bool) :=
  let tm := mapIndex f.trackMapping trackNo
  let f1 := { f with trackMapping := tm.1 }
  let track := (f1.metadata.get "tracks").get tm.2
  let key := seekKey track ms (track.get "keynum").size 0
    (toU64 ((track.get "keytime").idx 0).asInt, toU64 ((track.get "keybpos").idx 0).asInt)
  match seekScan fuel f1 ms trackNo
      { trackID := toU32 trackNo, seekTime := key.1, bytePos := key.2 } with
  | none => none
  | some (f2, none) => some (f2, some false)
  | some (f2, some tmpPos) =>
    some ({ f2 with currentPositions := setInsert tmpPos f2.currentPositions }, none)

/-- `DTSC::File::seek_time(int ms)` (lines 850-857). -/
def seek_timeAll (fuel : Nat) (f : File) (ms : Int) : Option (File × Bool) :=
  (f.selectedTracks.foldl
    (fun acc t => acc.bind (fun g => (seek_time fuel g ms t).map Prod.fst))
    (some { f with currentPositions := [] })).map (fun g => (g, true))

/-- The failure exit of `seekNext`: `strbuffer = ""; jsonbuffer.null();`. -/
def packetFailed (f : File) : File :=
  { f with strbuffer := [], jsonbuffer := JSON.null }

/-- Lines 734-788 of `seekNext`: the frame at the current position is read. -/
def readPacket (c : Codec) (fuel : Nat) (f : File) : Option File :=
  let f0 := { f with lastreadpos := f.pos }
  let r1 := freadBuffer f0
  if r1.2 ≠ 1 then some (packetFailed r1.1)
  else if r1.1.buffer = Magic_Header then
    (readHeader c fuel r1.1 (toI32 r1.1.lastreadpos)).map
      (fun g => { g with jsonbuffer := g.metadata })
  else
    let v1 := if r1.1.buffer = Magic_Packet then 1 else 0
    let version := if r1.1.buffer = Magic_Packet2 then 2 else v1
    if version = 0 then some (packetFailed r1.1)
    else
      let r2 := freadBuffer r1.1
      if r2.2 ≠ 1 then some (packetFailed r2.1)
      else
        let packSize := ntohlAt r2.1.buffer 0
        let f3 := { r2.1 with strbuffer := resize r2.1.strbuffer packSize }
        let r3 := fread f3 packSize
        if r3.2.2 ≠ 1 then some (packetFailed r3.1)
        else
          let f4 := { r3.1 with strbuffer := r3.2.1 }
          if version = 2 then
            let p := c.fromDTMI2 f4.strbuffer
            if !p.isMember "datatype" then
              let tm := mapIndex f4.trackMapping (toI32 (p.get "trackid").asInt)
              let q := p.set "datatype" (((f4.metadata.get "tracks").get tm.2).get "type")
              some { f4 with trackMapping := tm.1, jsonbuffer := q }
            else some { f4 with jsonbuffer := p }
          else some { f4 with jsonbuffer := c.fromDTMI f4.strbuffer }

/-- `DTSC::File::seekNext` (lines 725-788); `none` is fuel used up in
`seek_time` or `readHeader`. -/
def seekNext (c : Codec) (fuel : Nat) (f : File) : Option File :=
  match f.currentPositions with
  | [] => some (packetFailed f)
  | m :: _ =>
    match seek_time fuel f (toI32 (toU64 ((m.seekTime : Int) + 1))) (toI32 m.trackID) with
    | none => none
    | some (f1, _) =>
      let f2 := fseekSet f1 ((f1.currentPositions.headD m).bytePos : Nat)
      readPacket c fuel { f2 with currentPositions := f2.currentPositions.tail }

/-- The big-endian eight-byte form of a `long long unsigned int`. -/
def be64 (n : Nat) : List Nat :=
  be32 (n / 2 ^ 32) ++ be32 n

/-- A payload frame as it lies in a file: magic, size, track id, timestamp,
and the rest of the payload; `size` counts the 12 bytes of track id and
timestamp. -/
def packetFrame (magic : List Nat) (trackId time : Nat) (rest : List Nat) : List Nat :=
  magic ++ be32 (12 + rest.length) ++ be32 trackId ++ be64 time ++ rest

/-- A decoder for the header examples: one byte `2` decodes to a tree with a
`length` member only, anything else to a tree whose `moreheader` is 18. -/
def chainCodec : Codec :=
  ⟨fun bytes => if bytes = [2] then JSON.obj [("length", JSON.int 5)]
      else JSON.obj [("length", JSON.int 5), ("moreheader", JSON.int 18)],
   fun _ => JSON.null⟩

/-- The file as `File(filename, true)` leaves it: created, with the empty
header read back. -/
def createdFile : File :=
  (File.open chainCodec 1 [] true 0).getD (File.blank [] 0)

/-- An example file: the empty header, then two packets of track 1, at
offset 8 with timestamp `t1` and at offset 29 with timestamp `t2`; the
metadata lists one key of track 1, at time `t1` and offset 8. -/
def exampleSeekFile (t1 t2 : Nat) (positions : List seekPos) : File :=
  { File.blank (Magic_Header ++ be32 0 ++ packetFrame Magic_Packet2 1 t1 [9]
      ++ packetFrame Magic_Packet2 1 t2 [9]) 0 with
    buffer := [0, 0, 0, 0],
    metadata := JSON.obj [("tracks", JSON.obj [("video1", JSON.obj [("trackid", JSON.int 1),
      ("keytime", JSON.arr [JSON.int t1]), ("keybpos", JSON.arr [JSON.int 8]),
      ("keynum", JSON.arr [JSON.int 1])])])],
    trackMapping := [(1, "video1")],
    selectedTracks := [1],
    currentPositions := positions }

end DTSC


namespace DTSC

/-! ### The frames a scan passes over -/

/-- The 20 bytes that `seek_time` reads at offset `o` (line 826). -/
def prefixAt (F : List Nat) (o : Nat) : List Nat :=
  (F.drop o).take 20

/-- The size field of the prefix at offset `o`. -/
def prefixSize (F : List Nat) (o : Nat) : Nat :=
  ntohlAt (prefixAt F o) 4

/-- The track id field of the prefix at offset `o`. -/
def prefixTrack (F : List Nat) (o : Nat) : Nat :=
  ntohlAt (prefixAt F o) 8

/-- The timestamp field of the prefix at offset `o`. -/
def prefixTime (F : List Nat) (o : Nat) : Nat :=
  ntohlAt (prefixAt F o) 12 * 2 ^ 32 + ntohlAt (prefixAt F o) 16

/-- The frame at offset `o` is a packet of track `t` with a timestamp of at
least `ms`. -/
def isHit (F : List Nat) (ms t : Int) (o : Nat) : Prop :=
  toI32 (prefixTrack F o) = t ∧ ms.toNat ≤ prefixTime F o

instance isHit.decidable (F : List Nat) (ms t : Int) (o : Nat) : Decidable (isHit F ms t o) := by
  unfold isHit
  infer_instance

/-- The frames from offset `a` on tile the file up to offset `o`, their
offsets after `a` being `l`, and none of the frames before `o` is a packet of
track `t` with a timestamp of at least `ms`. Each of these frames has its 20
bytes of prefix in the file. -/
def Skips (F : List Nat) (ms t : Int) : Nat → List Nat → Nat → Prop
  | a, [], o => a = o
  | a, b :: l, o =>
    a + 20 ≤ F.length ∧ ¬ isHit F ms t a ∧ b = a + 8 + prefixSize F a ∧ Skips F ms t b l o

/-- The value `metadata["tracks"][trackMapping[trackNo]]` of `seek_time`. -/
def seekTrack (f : File) (trackNo : Int) : JSON :=
  (f.metadata.get "tracks").get (mapIndex f.trackMapping trackNo).2

/-- Lines 806-816 of `seek_time`: `tmpPos` as the `while` loop finds it. -/
def seekInit (f : File) (ms trackNo : Int) : seekPos :=
  let track := seekTrack f trackNo
  let key := seekKey track ms (track.get "keynum").size 0
    (toU64 ((track.get "keytime").idx 0).asInt, toU64 ((track.get "keybpos").idx 0).asInt)
  { trackID := toU32 trackNo, seekTime := key.1, bytePos := key.2 }

end DTSC

/-! ## Part 5: the main loop of the relay (`Buffer/main.cpp`) -/

namespace Buffer

/-- `std::string::find(' ')`: the position of the first space, `none` for
`npos`. -/
def findSpace : List Char → Option Nat
  | [] => none
  | c :: cs => if c = ' ' then some 0 else (findSpace cs).map (· + 1)

/-- `isspace` in the "C" locale: the space and the characters 9 to 13. -/
def isspace (c : Char) : Bool :=
  decide (c.toNat = 32) || (decide (9 ≤ c.toNat) && decide (c.toNat ≤ 13))

/-- The digit loop of `atoi`: it ends at the first character that is not a
decimal digit. -/
def atoiDigits : List Char → Int → Int
  | [], acc => acc
  | c :: cs, acc =>
    if c.isDigit then atoiDigits cs (acc * 10 + ((c.toNat : Int) - 48)) else acc

/-- `atoi`: white space, an optional sign, decimal digits. The value is the
`int` returned; overflow is undefined in C and is not given a meaning. -/
def atoi (s : List Char) : Int :=
  match s.dropWhile isspace with
  | [] => 0
  | c :: cs =>
    if c = '-' then - atoiDigits cs 0
    else if c = '+' then atoiDigits cs 0
    else atoiDigits (c :: cs) 0

/-- Conversion of an `int` to `unsigned int`. -/
def toUInt32 (v : Int) : Nat := (v % 2 ^ 32).toNat

/-- `Stats::Stats(std::string s)` (lines 46-68). The constructor does not
initialise `up`, `down` and `conntime`: they start with the indeterminate
values that `junk` holds; `host` and `connector` start empty. -/
def Stats.parse (junk : Stats) (s : List Char) : Stats :=
  let st0 : Stats := { junk with host := "", connector := "" }
  let r1 : Stats × List Char :=
    match findSpace s with
    | some f => ({ st0 with host := String.mk (s.take f) }, s.drop (f + 1))
    | none => (st0, s)
  let r2 : Stats × List Char :=
    match findSpace r1.2 with
    | some f => ({ r1.1 with connector := String.mk (r1.2.take f) }, r1.2.drop (f + 1))
    | none => r1
  let r3 : Stats × List Char :=
    match findSpace r2.2 with
    | some f => ({ r2.1 with conntime := toUInt32 (atoi (r2.2.take f)) }, r2.2.drop (f + 1))
    | none => r2
  match findSpace r3.2 with
  | some f =>
    { r3.1 with up := toUInt32 (atoi (r3.2.take f)),
                down := toUInt32 (atoi (r3.2.drop (f + 1))) }
  | none => r3.1

/-- The value of a decimal numeral, most significant digit first. -/
def decimal (cs : List Char) : Nat :=
  Nat.ofDigits 10 (cs.reverse.map (fun c => c.toNat - 48))

end Buffer

namespace Buffer

/-- A viewer of the relay (`class user`): its id `MyNum`, its send state and
its statistics. -/
structure viewer where
  MyNum : Nat
  send : user
  stats : userStats
deriving DecidableEq, Repr

/-- What the socket of a viewer delivers in one pass of the loop over the
viewers: `line` is `none` when `S.canRead()` is false and otherwise the text
`tmp` that lines 326-330 read, up to the newline; `junk` holds the
indeterminate values the numeric fields of `tmpStats` start with; `io` is the
outcome of the `iwrite` of `Send`. -/
structure ViewerInput where
  line : Option (List Char)
  junk : Stats
  io : WriteOutcome

/-- A block written to a viewer when it joins (lines 295-312): the 13 bytes
of `FLV::Header`, or the bytes of a stored tag. -/
inductive JoinWrite where
  | header
  | tag (t : Tag)
deriving DecidableEq, Repr

/-- The part of the state of `Start` that the accept step and the loop over
the viewers work on. `ip_input` is `none` for the connection as constructed
and otherwise the id of the viewer whose connection it was assigned;
`ip_connected` is `ip_input.connected()`. Three traces record what the code
does to the outside: `out` the "Disconnected user" lines (id and reason),
`sent` the ids of the viewers for which `Send` was called, `wrote` the blocks
written to joining viewers. -/
structure Hub where
  users : List viewer
  UserCount : Nat
  waiting_ip : List Char
  ip_waiting : Bool
  ip_input : Option Nat
  ip_connected : Bool
  out : List (Nat × String)
  sent : List Nat
  wrote : List (Nat × JoinWrite)
deriving DecidableEq, Repr

/-- `user::Disconnect(reason)` on a viewer of the list: the socket is closed
and the line with the reason is printed. -/
def disconnectViewer (h : Hub) (v : viewer) (reason : String) : Hub × viewer :=
  ({ h with out := h.out ++ [(v.MyNum, reason)] }, { v with send := Disconnect v.send })

/-- `tmp.substr(2)`; `none` when it throws `std::out_of_range`, which is when
`tmp` has fewer than two characters. -/
def substr2 (tmp : List Char) : Option (List Char) :=
  if tmp.length < 2 then none else some (tmp.drop 2)

/-- Lines 333-345: the push attempt of viewer `v` on the line `tmp`. The
result is `none` when `substr` throws; otherwise the new state, with the
viewer when it stays in the list and `none` when it was erased (line 338). -/
def handlePush (h : Hub) (v : viewer) (tmp : List Char) : Option (Hub × Option viewer) :=
  match substr2 tmp with
  | none => none
  | some ip =>
    if ip = h.waiting_ip then
      if !h.ip_connected then
        some ({ h with ip_input := some v.MyNum, ip_connected := v.send.connected }, none)
      else
        let r := disconnectViewer h v "Push denied - push already in progress!"
        some (r.1, some r.2)
    else
      let r := disconnectViewer h v "Push denied - invalid IP address!"
      some (r.1, some r.2)

/-- Lines 347-354: a stats line `tmp` of viewer `v`. -/
def handleStatsLine (junk : Stats) (v : viewer) (tmp : List Char) : Option viewer :=
  (substr2 tmp).map (fun t => { v with stats := handleStats v.stats (Stats.parse junk t) })

/-- Lines 331-355: the control line `tmp` of viewer `v`, when it is not empty. -/
def handleLine (h : Hub) (v : viewer) (junk : Stats) (tmp : List Char) :
    Option (Hub × Option viewer) :=
  let p := if tmp.head? = some 'P' then handlePush h v tmp else some (h, some v)
  match p with
  | none => none
  | some (h1, none) => some (h1, none)
  | some (h1, some v1) =>
    if tmp.head? = some 'S' then (handleStatsLine junk v1 tmp).map (fun v2 => (h1, some v2))
    else some (h1, some v1)

/-- The body of the loop over the viewers (lines 320-358) for the viewer `v`.
The result is `none` when an exception leaves the loop; otherwise the new
state, with the viewer when the loop goes on and `none` when the viewer was
erased and the loop left (`users.erase(usersIt); break;`). -/
def serve (ringbuf : List buffer) (buffers : Nat) (h : Hub) (v : viewer) (i : ViewerInput) :
    Option (Hub × Option viewer) :=
  if !v.send.connected then some ((disconnectViewer h v "Closed").1, none)
  else
    let r := match i.line with
      | none => some (h, some v)
      | some tmp => if tmp = [] then some (h, some v) else handleLine h v i.junk tmp
    match r with
    | none => none
    | some (h1, none) => some (h1, none)
    | some (h1, some v1) =>
      some ({ h1 with sent := h1.sent ++ [v1.MyNum] },
        some { v1 with send := Send ringbuf buffers i.io v1.send })

/-- The loop over the viewers (lines 319-359): `done` are the viewers already
served, `todo` the ones from the iterator on, `pos` the position of the
iterator; `inp pos` is what the socket of the viewer at `pos` delivers. -/
def fanLoop (ringbuf : List buffer) (buffers : Nat) (inp : Nat → ViewerInput) :
    Hub → List viewer → List viewer → Nat → Option Hub
  | h, done, [], _ => some { h with users := done }
  | h, done, v :: rest, pos =>
    match serve ringbuf buffers h v (inp pos) with
    | none => none
    | some (h1, none) => some { h1 with users := done ++ rest }
    | some (h1, some v1) => fanLoop ringbuf buffers inp h1 (done ++ [v1]) rest (pos + 1)

/-- The pass over all viewers of one loop iteration (lines 317-360). -/
def fanOut (ringbuf : List buffer) (buffers : Nat) (inp : Nat → ViewerInput) (h : Hub) :
    Option Hub :=
  fanLoop ringbuf buffers inp h [] h.users 0

/-- What `SS.accept(true)` delivered: the indeterminate values `MyBuffer_len`
and `lastpointer` of the new `user` start with, and the results of the
`S.write` calls made on it, in order. -/
structure Incoming where
  len0 : Int
  ptr0 : Nat
  w : Nat → Bool

/-- One of the writes of lines 298-312: the tag `t` is written when its
length is positive; a failed write disconnects the viewer with `reason`. The
third component counts the `S.write` calls made so far. -/
def joinWrite (w : Nat → Bool) (t : Tag) (reason : String) (st : Hub × viewer × Nat) :
    Hub × viewer × Nat :=
  if t.len > 0 then
    if !w st.2.2 then
      let r := disconnectViewer st.1 st.2.1 reason
      (r.1, r.2, st.2.2 + 1)
    else
      ({ st.1 with wrote := st.1.wrote ++ [(st.2.1.MyNum, JoinWrite.tag t)] }, st.2.1,
        st.2.2 + 1)
  else st

/-- Lines 294-314: what a joining viewer is sent. -/
def joinSend (r : Relay) (w : Nat → Bool) (h : Hub) (v : viewer) : Hub × viewer :=
  if r.gotData then
    if !w 0 then disconnectViewer h v "failed to receive the header!"
    else
      let s0 : Hub × viewer × Nat :=
        ({ h with wrote := h.wrote ++ [(v.MyNum, JoinWrite.header)] }, v, 1)
      let s1 := joinWrite w r.metadata "failed to receive metadata!" s0
      let s2 := joinWrite w r.audio_init "failed to receive audio init!" s1
      let s3 := joinWrite w r.video_init "failed to receive video init!" s2
      (s3.1, s3.2.1)
  else (h, v)

/-- Lines 286-315: a new connection becomes a viewer at the end of the list. -/
def acceptViewer (r : Relay) (inc : Incoming) (h : Hub) : Hub :=
  let v : viewer :=
    { MyNum := h.UserCount, send := accept r inc.len0 inc.ptr0,
      stats := { lastStats := Stats.empty, curr_up := 0, curr_down := 0 } }
  let j := joinSend r inc.w { h with UserCount := h.UserCount + 1 } v
  { j.1 with users := j.1.users ++ [j.2] }

/-- What the world delivers in one iteration of the main loop: `eof` is
`feof(stdin)` at the loop test before the iteration, `load` what the loader
did, `parseError` whether the loader, when called, set `FLV::Parse_Error`,
`ip_closed` whether the connection `ip_input` was found closed, `incoming`
the connection accepted, `inp` what the viewers' sockets deliver. -/
structure Env where
  eof : Bool
  load : LoadResult
  parseError : Bool
  ip_closed : Bool
  incoming : Option Incoming
  inp : Nat → ViewerInput

/-- The loader call of lines 232-237: with `ip_waiting` the tag comes from
`ip_input` and no loader is called while that is not connected. -/
def effectiveLoad (h : Hub) (e : Env) : LoadResult :=
  if h.ip_waiting && !h.ip_connected then none else e.load

/-- The state with which the loop over the viewers of one iteration starts:
after the ingest step (lines 230-283) and the accept step (lines 286-315). -/
def beforeFanOut (st : Relay × Hub) (e : Env) : Relay × Hub :=
  let h0 := if e.ip_closed then { st.2 with ip_connected := false } else st.2
  let load := effectiveLoad h0 e
  let r1 := ingest st.1 load
  let r2 := { r1 with Parse_Error := r1.Parse_Error || (e.parseError && load.isSome) }
  let h1 := match e.incoming with
    | none => h0
    | some inc => acceptViewer r2 inc h0
  (r2, h1)

/-- One iteration of the main loop (lines 216-360); `none` when an exception
leaves it. Lines 216-229 only sleep and print. -/
def iteration (st : Relay × Hub) (e : Env) : Option (Relay × Hub) :=
  let b := beforeFanOut st e
  (fanOut b.1.ringbuf b.1.buffers e.inp b.2).map (fun h2 => (b.1, h2))

/-- The test of the main loop (line 215). -/
def loopCond (eof ip_waiting Parse_Error : Bool) : Bool :=
  (!eof || ip_waiting) && !Parse_Error

/-- The main loop (lines 215-361) over the iterations that `es` describes.
The result is `none` when `es` ends with the loop still running, or when an
exception leaves the loop. The test is false whatever `feof` is once
`Parse_Error` is set. -/
def mainLoop : Relay × Hub → List Env → Option (Relay × Hub)
  | st, [] => if st.1.Parse_Error then some st else none
  | st, e :: es =>
    if loopCond e.eof st.2.ip_waiting st.1.Parse_Error then
      match iteration st e with
      | none => none
      | some st1 => mainLoop st1 es
    else some st

/-- Lines 370-375: every viewer is disconnected with "Shutting down..." and
erased; `Disconnect` leaves the socket closed, so the test of line 373 holds
for the first viewer of each pass. -/
def shutdown (h : Hub) : List viewer → Hub
  | [] => { h with users := [] }
  | v :: rest => shutdown (disconnectViewer h v "Shutting down...").1 rest

/-- What `Start` leaves: the value it returns, the line printed at lines
364-368, and the final state. -/
structure StartResult where
  code : Int
  line : String
  relay : Relay
  hub : Hub
deriving DecidableEq, Repr

/-- The state with which the main loop starts (lines 184-213): `ringbuf` are
the slots allocated at lines 199-202, `argv3` the fourth argument, read when
`argc >= 4`. -/
def startState (argc : Nat) (ringbuf : List buffer) (argv3 : List Char) : Relay × Hub :=
  (initRelay ringbuf,
    { users := [], UserCount := 0,
      waiting_ip := if argc ≥ 4 then argv3 else [],
      ip_waiting := decide (argc ≥ 4),
      ip_input := none, ip_connected := false, out := [], sent := [], wrote := [] })

/-- `Start(argc, argv)` (lines 171-377). The result is `none` when the main
loop does not end within `es` or an exception leaves it. -/
def Start (argc : Nat) (ringbuf : List buffer) (argv3 : List Char) (es : List Env) :
    Option StartResult :=
  if argc < 3 then
    some { code := 1, line := "usage", relay := initRelay ringbuf,
           hub := (startState argc ringbuf argv3).2 }
  else
    match mainLoop (startState argc ringbuf argv3) es with
    | none => none
    | some st =>
      some { code := 0,
             line := if st.1.Parse_Error then "FLV parse error" else "Reached EOF of input",
             relay := st.1,
             hub := shutdown st.2 st.2.users }

end Buffer

namespace Buffer

/-! ### Predicates used in the statements about the main loop -/

/-- The step from `s` to `s1` keeps the counters, the flags `gotData` and
`Parse_Error`, the metadata and the number of every slot: it only rewrites
tags of the ring and the flags and copies of the init data. -/
def KeepsCounters (s s1 : Relay) : Prop :=
  s1.buffers = s.buffers ∧ s1.current_buffer = s.current_buffer
    ∧ s1.loopcount = s.loopcount ∧ s1.gotData = s.gotData ∧ s1.metadata = s.metadata
    ∧ s1.Parse_Error = s.Parse_Error ∧ s1.ringbuf.length = s.ringbuf.length
    ∧ ∀ j, (slot s1.ringbuf j).number = (slot s.ringbuf j).number

/-- The line `tmp` is a push attempt that is accepted in state `h`: it starts
with `P`, its text from position 2 is the awaited IP, and no ingest source is
connected. -/
def isAcceptedPush (h : Hub) (tmp : List Char) : Bool :=
  decide (tmp.head? = some 'P') && decide (substr2 tmp = some h.waiting_ip) && !h.ip_connected

/-- The loop over the viewers erases `v` when it comes to it in state `h`:
the viewer is found disconnected, or its line is an accepted push attempt. -/
def isErased (h : Hub) (v : viewer) (i : ViewerInput) : Bool :=
  !v.send.connected ||
    (match i.line with
     | some tmp => isAcceptedPush h tmp
     | none => false)

/-- The line delivered makes `substr(2)` throw: it is just `P` or just `S`. -/
def throws (i : ViewerInput) : Bool :=
  match i.line with
  | some tmp => decide (tmp = ['P']) || decide (tmp = ['S'])
  | none => false

/-- The viewers of `todo`, from position `pos` on, that come before the first
one the loop erases. -/
def servedBefore (h : Hub) (inp : Nat → ViewerInput) : List viewer → Nat → List viewer
  | [], _ => []
  | v :: rest, pos =>
    if isErased h v (inp pos) then [] else v :: servedBefore h inp rest (pos + 1)

/-- An example viewer with id `n` that waits at slot 0 with nothing sent. -/
def exampleViewer (n : Nat) (connected : Bool) : viewer :=
  { MyNum := n, send := ⟨0, -1, 0, 0, 0, connected⟩,
    stats := { lastStats := Stats.empty, curr_up := 0, curr_down := 0 } }

/-- An example state of a relay started with the push IP `10.0.0.1`. -/
def exampleHub (users : List viewer) (ip_connected : Bool) : Hub :=
  { users := users, UserCount := users.length, waiting_ip := "10.0.0.1".toList,
    ip_waiting := true, ip_input := if ip_connected then some 99 else none,
    ip_connected := ip_connected, out := [], sent := [], wrote := [] }

/-- A socket that delivers the control line `line`. -/
def lineInput (line : String) : ViewerInput :=
  { line := some line.toList, junk := Stats.empty, io := ⟨0, true⟩ }

/-- An example metadata tag (type 0x12). -/
def exampleMetadata : Tag :=
  ⟨[0x12, 0, 0, 2, 0, 0, 0, 0, 0, 0, 0, 2, 0], 300, 13, false⟩

/-- An example video keyframe tag that is not AVC (type 0x09, frame type 1,
codec 2). -/
def exampleVideo : Tag :=
  ⟨[0x09, 0, 0, 2, 0, 0, 0, 0, 0, 0, 0, 0x12, 0], 400, 13, true⟩

/-- A socket that delivers nothing and takes no bytes for now. -/
def quietInput : ViewerInput :=
  { line := none, junk := Stats.empty, io := ⟨0, true⟩ }

/-- An iteration in which the loader loads the tag `t` and nothing else
happens. -/
def loadEnv (t : Tag) : Env :=
  { eof := false, load := some (t, true), parseError := false, ip_closed := false,
    incoming := none, inp := fun _ => quietInput }

/-- The loop test that finds the end of the input. -/
def eofEnv : Env :=
  { eof := true, load := none, parseError := false, ip_closed := false,
    incoming := none, inp := fun _ => quietInput }

/-- An example ring: eight slots with number -1 and empty tags. -/
def exampleRing : List buffer :=
  List.replicate 8 ⟨-1, default⟩

/-- An example relay on `exampleRing` after two tags, the cursor at slot 2,
with the given `gotVideoInfo` and `gotAudioInfo`. -/
def exampleRelay (gotVideoInfo gotAudioInfo : Bool) : Relay :=
  { ringbuf := exampleRing, buffers := 8, current_buffer := 2, lastproper := 0, loopcount := 2,
    gotVideoInfo := gotVideoInfo, gotAudioInfo := gotAudioInfo, gotData := false,
    Parse_Error := false, metadata := default, video_init := default, audio_init := default }

/-- An example relay on a ring of three slots with the numbers 4, 2 and 3:
four tags were loaded and the cursor is at slot 1. -/
def countedRelay : Relay :=
  { ringbuf := [⟨4, default⟩, ⟨2, default⟩, ⟨3, default⟩], buffers := 3, current_buffer := 1,
    lastproper := 0, loopcount := 4, gotVideoInfo := false, gotAudioInfo := false,
    gotData := false, Parse_Error := false, metadata := default, video_init := default,
    audio_init := default }

end Buffer

/-! ## Part 6: `updateHeaders` (`lib/dtsc.cpp`) -/

namespace DTSC

/-- Lines 376-392 of `updateHeaders`: the reset when the source restarted.
`netPrepare` only refreshes the cached byte form of `metadata`. -/
def resetHeaders (s : Stream) : Stream :=
  { s with
    keyframes := [],
    buffers := [],
    rings := s.rings.map (fun r => { r with updated := true, b := 0, starved := true }),
    metadata := (((((s.metadata.removeMember "keytime").removeMember "keynum").removeMember
      "keylen").removeMember "frags").removeMember "lastms").removeMember "missed_frags" }

/-- `DTSC::Stream::updateHeaders` (lines 372-455). Lines 395-453, which keep
the key arrays and the fragment list of a stream that did not restart, are
the parameter `rest`. -/
def updateHeaders (rest : Stream → Stream) (s : Stream) : Stream :=
  if s.keyframes.length > 2 then
    if keyTime s (s.keyframes.getD 0 (Ring.mk0 0))
        < keyTime s (s.keyframes.getD (s.keyframes.length - 1) (Ring.mk0 0)) then
      resetHeaders s
    else rest s
  else s

/-- The members that `updateHeaders` derives from the keyframes. -/
def derivedMembers : List String :=
  ["keytime", "keynum", "keylen", "frags", "lastms", "missed_frags"]

/-- An example stream after a restart of the source: the keyframes in
`times`, newest first, one ring given out, and derived metadata. -/
def restartedStream (times : List Int) : Stream :=
  { Stream.new with
    buffers := times.map (fun t => JSON.obj [("time", JSON.int t), ("keyframe", JSON.int 1)]),
    keyframes := (List.range times.length).map Ring.mk0,
    rings := [Ring.mk0 1],
    buffercount := 8,
    metadata := JSON.obj [("video", JSON.obj []), ("keytime", JSON.arr [JSON.int 5000]),
      ("keynum", JSON.arr [JSON.int 1]), ("keylen", JSON.arr [JSON.int 1000]),
      ("lastms", JSON.int 6000)] }

end DTSC

/-! ## Part 7: header chains, the send state of a viewer, the keyframe index -/

namespace DTSC

/-- A decoder for the header chain examples: a header whose first byte is `k`
decodes to a tree whose `moreheader` is `k`. -/
def pointerCodec : Codec :=
  ⟨fun bytes => JSON.obj [("moreheader", JSON.int (bytes.headD 0))], fun _ => JSON.null⟩

/-- A header frame whose one-byte payload names the offset `k`. -/
def pointerFrame (k : Nat) : List Nat :=
  Magic_Header ++ be32 1 ++ [k]

/-- A file of two header frames: the first, at offset 0, names offset 9; the
second, at offset 9, names its own offset. -/
def selfLoopDisk : List Nat :=
  pointerFrame 9 ++ pointerFrame 9

/-- A file of three header frames, at offsets 0, 9 and 18: the first names
offset 9, the second offset 18, the third offset 9 again. -/
def twoCycleDisk : List Nat :=
  pointerFrame 9 ++ pointerFrame 18 ++ pointerFrame 9

/-- A file of two header frames: the first names offset 9, the second has no
positive `moreheader`. -/
def endedChainDisk : List Nat :=
  pointerFrame 9 ++ pointerFrame 0

end DTSC

namespace Buffer

/-- The send-state condition of a viewer: while no tag is in flight
(`MyBuffer_num < 0`) nothing of it has been sent, and while one is in flight
the count of bytes sent lies between 0 and the length taken at its start. -/
def SendInv (u : user) : Prop :=
  (u.MyBuffer_num < 0 → u.currsend = 0)
    ∧ (0 ≤ u.MyBuffer_num → 0 ≤ u.currsend ∧ u.currsend ≤ u.MyBuffer_len)

/-- Every slot of the ring has a non-negative `FLV.len`. -/
def NonNegLens (ringbuf : List buffer) : Prop :=
  ∀ b ∈ ringbuf, 0 ≤ b.FLV.len

instance (ringbuf : List buffer) : Decidable (NonNegLens ringbuf) :=
  inferInstanceAs (Decidable (∀ b ∈ ringbuf, 0 ≤ b.FLV.len))

/-- Whether `Send` on `u` gets as far as `doSend` (line 142): the viewer is
connected, the snapshot did not return early, the pointer check passed. -/
def reachesWrite (ringbuf : List buffer) (u : user) : Bool :=
  u.connected && (snapshot ringbuf u).2
    && decide ((snapshot ringbuf u).1.lastpointer
        = (slot ringbuf (snapshot ringbuf u).1.MyBuffer).FLV.ptr)

/-- The offset `currsend` that the `iwrite` of line 108 starts at when `Send`
is called on `u`. -/
def writeOffset (ringbuf : List buffer) (u : user) : Int :=
  (snapshot ringbuf u).1.currsend

/-- The length `MyBuffer_len - currsend` that the `iwrite` of line 108 is
asked for when `Send` is called on `u`. -/
def requested (ringbuf : List buffer) (u : user) : Int :=
  (snapshot ringbuf u).1.MyBuffer_len - (snapshot ringbuf u).1.currsend

/-- One call of `Send`: the ring as it is at the call, its size argument and
what `iwrite` does in it. -/
structure SendCall where
  ringbuf : List buffer
  buffers : Nat
  io : WriteOutcome
deriving DecidableEq, Repr

/-- The viewer after one call. -/
def sendStep (u : user) (c : SendCall) : user :=
  Send c.ringbuf c.buffers c.io u

/-- The viewer after the calls, in order. -/
def sendAll (u : user) (calls : List SendCall) : user :=
  calls.foldl sendStep u

/-- The calls are over rings with non-negative slot lengths, and every write
that is made returns no more than the length it was asked for. -/
def Admissible : user → List SendCall → Prop
  | _, [] => True
  | u, c :: cs =>
    NonNegLens c.ringbuf
      ∧ (reachesWrite c.ringbuf u = true → c.io.r ≤ requested c.ringbuf u)
      ∧ Admissible (sendStep u c) cs

instance decAdmissible : (u : user) → (calls : List SendCall) → Decidable (Admissible u calls)
  | _, [] => isTrue trivial
  | u, c :: cs =>
    have := decAdmissible (sendStep u c) cs
    inferInstanceAs (Decidable (NonNegLens c.ringbuf
      ∧ (reachesWrite c.ringbuf u = true → c.io.r ≤ requested c.ringbuf u)
      ∧ Admissible (sendStep u c) cs))

/-- A ring of two tags of 10 and 20 bytes, numbered 0 and 1. -/
def twoTagRing : List buffer :=
  [⟨0, ⟨[], 100, 10, true⟩⟩, ⟨1, ⟨[], 200, 20, false⟩⟩]

/-- Three calls on `twoTagRing`: a write of 4 bytes, a write that would
block, a write of the remaining 6 bytes. -/
def twoTagCalls : List SendCall :=
  [⟨twoTagRing, 2, ⟨4, false⟩⟩, ⟨twoTagRing, 2, ⟨-1, true⟩⟩, ⟨twoTagRing, 2, ⟨6, false⟩⟩]

end Buffer

namespace DTSC

/-- The `version` that `parsePacket` derives from the magic (lines 47-52). -/
def frameVersion (buffer : List Nat) : Nat :=
  if hasMagic buffer Magic_Packet2 then 2 else if hasMagic buffer Magic_Packet then 1 else 0

/-- The stream at the call of `advanceRings` in a payload frame (line 117):
the decoded packet is at the front of `buffers` and the oldest packets beyond
`buffercount` are popped. -/
def enqueued (c : Codec) (version : Nat) (s : Stream) (buffer : List Nat) : Stream :=
  let len := ntohlAt4 buffer
  let p1 := if version = 1 then c.fromDTMI ((buffer.drop 8).take len) else JSON.null
  let d := if version = 2 then decodeV2 c s buffer else (s, p1)
  let front := d.2
  { d.1 with
    buffers := evictBuffers (front :: d.1.buffers) d.1.buffercount,
    datapointer := if front.isMember "data" then some (front.get "data").asString else none,
    datapointertype := typeOfPacket front }

/-- Whether the packet that `parsePacket` enqueues from `buffer` is taken as a
keyframe: the condition of line 319 at that call of `advanceRings`. -/
def keyframeEnqueued (c : Codec) (s : Stream) (buffer : List Nat) : Bool :=
  isNewKeyframe (enqueued c (frameVersion buffer) s buffer)

/-- A stream together with a record of its packets: for every packet in
`buffers`, newest first, the packet as it was enqueued and whether it was
enqueued as a keyframe. -/
structure Tracked where
  s : Stream
  log : List (JSON × Bool)

/-- One call of `parsePacket` on a tracked stream. A call that returns true
has enqueued one packet, which is recorded; the record is cut to the packets
that `buffers` keeps. -/
def feed (c : Codec) (t : Tracked) (buffer : List Nat) : Tracked :=
  let r := parsePacket c t.s buffer
  if r.2.2 then
    ⟨r.1, ((r.1.buffers.headD JSON.null, keyframeEnqueued c t.s buffer) :: t.log).take
      t.s.buffercount⟩
  else ⟨r.1, t.log⟩

/-- The tracked stream after the calls of `parsePacket` on `inputs`, in order. -/
def feedAll (c : Codec) (t : Tracked) (inputs : List (List Nat)) : Tracked :=
  inputs.foldl (feed c) t

/-- The keyframe index is well formed: the record lists exactly the packets of
`buffers`; every keyframe cursor points into `buffers`, at a packet that was
enqueued as a keyframe; the cursors increase strictly from front to back. -/
def KeyIndexOk (t : Tracked) : Prop :=
  t.log.map Prod.fst = t.s.buffers
    ∧ (∀ k ∈ t.s.keyframes,
        k.b < t.s.buffers.length ∧ (t.log.getD k.b (JSON.null, false)).2 = true)
    ∧ t.s.keyframes.Pairwise (fun a b => a.b < b.b)

/-- A stream constructed with `rbuffers = 2^32 - 1` after one payload frame
that `secondsCodec` decodes to a video keyframe at 2000 ms. -/
def wrappedStream : Stream :=
  (parsePacket secondsCodec (Stream.new2 4294967295 0) (frameV2 [2])).1

end DTSC

namespace DTSC

/-- An example file of 29 bytes: the empty header and one packet of track 1
at offset 8, with timestamp 0; the metadata lists that packet as the one key
of track 1. -/
def shortSeekFile : File :=
  { File.blank (Magic_Header ++ be32 0 ++ packetFrame Magic_Packet2 1 0 [9]) 0 with
    metadata := JSON.obj [("tracks", JSON.obj [("video1", JSON.obj [("trackid", JSON.int 1),
      ("keytime", JSON.arr [JSON.int 0]), ("keybpos", JSON.arr [JSON.int 8]),
      ("keynum", JSON.arr [JSON.int 1])])])],
    trackMapping := [(1, "video1")],
    selectedTracks := [1] }

/-- An example file of 52 bytes that holds packets of track 2 only: the empty
header, then packets at offset 8 with timestamp 0 and at offset 30 with
timestamp 512. `endPos` is the value that the static of `getBytePosEOF` holds
when the file is used. -/
def track2File (endPos : Nat) : File :=
  { File.blank (Magic_Header ++ be32 0 ++ packetFrame Magic_Packet2 2 0 [8, 6]
      ++ packetFrame Magic_Packet2 2 512 [8, 6]) endPos with
    metadata := JSON.obj [("tracks", JSON.obj [("video2", JSON.obj [("trackid", JSON.int 2),
      ("keytime", JSON.arr [JSON.int 0]), ("keybpos", JSON.arr [JSON.int 8]),
      ("keynum", JSON.arr [JSON.int 1])])])],
    trackMapping := [(2, "video2")],
    selectedTracks := [2] }

end DTSC
/-! ## Theorems, part 1: the relay -/

namespace Buffer

/-! ### `Send` -/

theorem snapshot_MyBuffer (ringbuf : List buffer) (u : user) :
    (snapshot ringbuf u).1.MyBuffer = u.MyBuffer := by
  unfold snapshot
  dsimp only
  split_ifs <;> rfl

theorem snapshot_currsend (ringbuf : List buffer) (u : user) :
    (snapshot ringbuf u).1.currsend = u.currsend := by
  unfold snapshot
  dsimp only
  split_ifs <;> rfl

theorem doSend_MyBuffer (io : WriteOutcome) (u : user) :
    (doSend io u).1.MyBuffer = u.MyBuffer := by
  unfold doSend
  split
  · split <;> rfl
  · rfl

theorem doSend_true (io : WriteOutcome) (u : user) (h : (doSend io u).2 = true) :
    0 < io.r ∧ u.currsend + io.r = u.MyBuffer_len := by
  unfold doSend at h
  split at h
  · split at h <;> simp at h
  · rename_i hr
    simp at h
    exact ⟨by omega, h⟩

/-- C1, at the failing input: a ring of one slot that holds a keyframe, a
viewer whose send of 13 bytes completes (10 sent before, 3 written now) on a
slot whose number (7) differs from the expected number (6). The keyframe
search ends on the keyframe slot 0, but `Send` returns without the reset:
`MyBuffer_num` is still 6 and `currsend` is still 13. -/
theorem Send_overrun_single_keyframe_slot_not_reset :
    (slot [⟨7, exampleKeyframe⟩] 0).FLV.isKeyframe = true
      ∧ Send [⟨7, exampleKeyframe⟩] 1 ⟨3, false⟩ ⟨0, 6, 13, 10, 100, true⟩
          = ⟨0, 6, 13, 13, 100, true⟩ := by
  decide

/-- C2: a call of `Send` changes the viewer's cursor `MyBuffer` only if the
viewer is connected, a slot snapshot is held, the data pointer matches, and
the write of this call returned `r > 0` bringing `currsend` to exactly the
snapshot length. -/
theorem Send_cursor_changes_only_on_completed_write (ringbuf : List buffer) (buffers : Nat)
    (io : WriteOutcome) (u : user)
    (h : (Send ringbuf buffers io u).MyBuffer ≠ u.MyBuffer) :
    u.connected = true ∧ (snapshot ringbuf u).2 = true
      ∧ (snapshot ringbuf u).1.lastpointer = (slot ringbuf u.MyBuffer).FLV.ptr
      ∧ 0 < io.r
      ∧ u.currsend + io.r = (snapshot ringbuf u).1.MyBuffer_len := by
  unfold Send at h
  by_cases hc : u.connected = true
  · by_cases hs : (snapshot ringbuf u).2 = true
    · by_cases hp : (snapshot ringbuf u).1.lastpointer
          = (slot ringbuf (snapshot ringbuf u).1.MyBuffer).FLV.ptr
      on_goal 2 => rw [snapshot_MyBuffer] at hp
      · by_cases hd : (doSend io (snapshot ringbuf u).1).2 = true
        · have := doSend_true io _ hd
          rw [snapshot_currsend] at this
          rw [snapshot_MyBuffer] at hp
          exact ⟨hc, hs, hp, this.1, this.2⟩
        · simp [hc, hs, hp, hd, doSend_MyBuffer, snapshot_MyBuffer] at h
      · simp [hc, hs, hp, Disconnect, snapshot_MyBuffer] at h
    · simp [hc, hs, snapshot_MyBuffer] at h
  · simp [hc] at h

/-- Witness for C2: a viewer at slot 0 of a two-slot ring completes its send
(10 bytes sent, 3 written, length 13) and moves to slot 1. -/
theorem Send_cursor_changes_only_on_completed_write_witness :
    (Send [⟨6, exampleKeyframe⟩, ⟨7, exampleAudio⟩] 2 ⟨3, false⟩
        ⟨0, 6, 13, 10, 100, true⟩).MyBuffer = 1
      ∧ (0 : Int) < 3 ∧ (10 : Int) + 3
          = (snapshot [⟨6, exampleKeyframe⟩, ⟨7, exampleAudio⟩]
              ⟨0, 6, 13, 10, 100, true⟩).1.MyBuffer_len :=
  ⟨by decide,
    (Send_cursor_changes_only_on_completed_write [⟨6, exampleKeyframe⟩, ⟨7, exampleAudio⟩] 2
      ⟨3, false⟩ ⟨0, 6, 13, 10, 100, true⟩ (by decide)).2.2.2⟩

/-! ### The ingest step and `lastproper` -/

theorem slot_set (rb : List buffer) (i j : Nat) (b : buffer) :
    slot (rb.set i b) j = if i = j ∧ j < rb.length then b else slot rb j := by
  unfold slot
  simp only [List.getD_eq_getElem?_getD, List.getElem?_set]
  by_cases hij : i = j
  · subst hij
    by_cases hl : i < rb.length
    · simp [hl]
    · have : rb[i]? = none := List.getElem?_eq_none (by omega)
      simp [hl, this]
  · simp [hij]

theorem getD_set_ne (l : List Nat) (i j a d : Nat) (h : i ≠ j) :
    (l.set i a).getD j d = l.getD j d := by
  simp [List.getD_eq_getElem?_getD, List.getElem?_set, h]

theorem tagTime0_data0 (t : Tag) : (tagTime0 t).data.getD 0 0 = t.data.getD 0 0 := by
  simp [tagTime0, getD_set_ne]

theorem tagTime0_data11 (t : Tag) : (tagTime0 t).data.getD 11 0 = t.data.getD 11 0 := by
  simp [tagTime0, getD_set_ne]

theorem isVideoKeyframe_tagTime0 (t : Tag) : isVideoKeyframe (tagTime0 t) = isVideoKeyframe t := by
  unfold isVideoKeyframe
  rw [tagTime0_data0, tagTime0_data11]


theorem SameTags.refl (s : Relay) : SameTags s s :=
  ⟨rfl, rfl, rfl, rfl, fun _ _ => rfl, rfl, rfl⟩

theorem SameTags.trans {a b c : Relay} (h1 : SameTags a b) (h2 : SameTags b c) : SameTags a c := by
  obtain ⟨a1, a2, a3, a4, a5, a6, a7⟩ := h1
  obtain ⟨b1, b2, b3, b4, b5, b6, b7⟩ := h2
  rw [a2] at b5 b6 b7
  refine ⟨b1.trans a1, b2.trans a2, b3.trans a3, b4.trans a4, ?_, b6.trans a6, b7.trans a7⟩
  intro i hi
  rw [b5 i hi, a5 i hi]

theorem SameTags_setFLV_tagTime0 (s : Relay) :
    SameTags s { s with
      ringbuf := setFLV s.ringbuf s.current_buffer (tagTime0 (slot s.ringbuf s.current_buffer).FLV) } := by
  refine ⟨rfl, rfl, rfl, ?_, ?_, ?_, ?_⟩
  · simp [setFLV]
  · intro i hi
    simp only [setFLV, slot_set]
    rw [if_neg]
    intro h
    exact hi h.1.symm
  · simp only [setFLV, slot_set]
    split
    · exact tagTime0_data0 _
    · rfl
  · simp only [setFLV, slot_set]
    split
    · exact tagTime0_data11 _
    · rfl

theorem SameTags_ingestMetadata (s : Relay) : SameTags s (ingestMetadata s) := by
  unfold ingestMetadata
  dsimp only
  split_ifs
  · exact ⟨rfl, rfl, rfl, rfl, fun _ _ => rfl, rfl, rfl⟩
  · exact SameTags.refl s

theorem SameTags_ingestVideoInit (s : Relay) : SameTags s (ingestVideoInit s) := by
  unfold ingestVideoInit
  dsimp only
  split_ifs
  · obtain ⟨h1, h2, h3, h4, h5, h6, h7⟩ := SameTags_setFLV_tagTime0 s
    exact ⟨h1, h2, h3, h4, h5, h6, h7⟩
  · exact SameTags.refl s
  · exact ⟨rfl, rfl, rfl, rfl, fun _ _ => rfl, rfl, rfl⟩
  · exact SameTags.refl s

theorem SameTags_ingestAudioInit (p : Nat) (s : Relay) : SameTags s (ingestAudioInit p s) := by
  unfold ingestAudioInit
  dsimp only
  split_ifs
  · obtain ⟨h1, h2, h3, h4, h5, h6, h7⟩ := SameTags_setFLV_tagTime0 s
    exact ⟨h1, h2, h3, h4, h5, h6, h7⟩
  · exact ⟨rfl, rfl, rfl, rfl, fun _ _ => rfl, rfl, rfl⟩
  · exact SameTags.refl s

theorem SameTags_setNumber (s : Relay) (n : Int) :
    SameTags s { s with ringbuf := setNumber s.ringbuf s.current_buffer n } := by
  refine ⟨rfl, rfl, rfl, ?_, ?_, ?_, ?_⟩
  · simp [setNumber]
  · intro i hi
    simp only [setNumber, slot_set]
    rw [if_neg]
    intro h
    exact hi h.1.symm
  · simp only [setNumber, slot_set]
    split <;> rfl
  · simp only [setNumber, slot_set]
    split <;> rfl

theorem isVideoKeyframe_congr (a b : Tag) (h0 : a.data.getD 0 0 = b.data.getD 0 0)
    (h11 : a.data.getD 11 0 = b.data.getD 11 0) : isVideoKeyframe a = isVideoKeyframe b := by
  unfold isVideoKeyframe
  rw [h0, h11]

theorem SameTags.keyframe {s s1 : Relay} (h : SameTags s s1) (i : Nat) :
    isVideoKeyframe (slot s1.ringbuf i).FLV = isVideoKeyframe (slot s.ringbuf i).FLV := by
  obtain ⟨_, _, _, _, h5, h6, h7⟩ := h
  by_cases hi : i = s.current_buffer
  · subst hi
    exact isVideoKeyframe_congr _ _ h6 h7
  · rw [h5 i hi]

theorem ingestLastproper_spec (p : Nat) (s : Relay) :
    SameTags s { ingestLastproper p s with lastproper := s.lastproper }
      ∧ (ingestLastproper p s).ringbuf = s.ringbuf
      ∧ (ingestLastproper p s).lastproper
          = if p = 0x09 ∧ (((slot s.ringbuf s.current_buffer).FLV.data.getD 11 0) &&& 0xf0) >>> 4 = 1
            then s.current_buffer else s.lastproper := by
  unfold ingestLastproper
  dsimp only
  by_cases h1 : p = 0x09
  · by_cases h2 : (((slot s.ringbuf s.current_buffer).FLV.data.getD 11 0) &&& 0xf0) >>> 4 = 1
    · rw [if_pos h1, if_pos h2, if_pos ⟨h1, h2⟩]
      exact ⟨SameTags.refl s, rfl, rfl⟩
    · rw [if_pos h1, if_neg h2, if_neg (fun h => h2 h.2)]
      exact ⟨SameTags.refl s, rfl, rfl⟩
  · rw [if_neg h1, if_neg (fun h => h1 h.1)]
    exact ⟨SameTags.refl s, rfl, rfl⟩

theorem ingestFinish_spec (s : Relay) :
    (ingestFinish s).buffers = s.buffers
      ∧ (ingestFinish s).lastproper = s.lastproper
      ∧ (ingestFinish s).current_buffer = (s.current_buffer + 1) % s.buffers
      ∧ (ingestFinish s).ringbuf.length = s.ringbuf.length
      ∧ ∀ i, isVideoKeyframe (slot (ingestFinish s).ringbuf i).FLV
          = isVideoKeyframe (slot s.ringbuf i).FLV := by
  unfold ingestFinish
  dsimp only
  split_ifs
  · refine ⟨rfl, rfl, rfl, by simp [setNumber], fun i => ?_⟩
    exact (SameTags_setNumber { s with gotData := true } _).keyframe i
  · refine ⟨rfl, rfl, rfl, by simp [setNumber], fun i => ?_⟩
    exact (SameTags_setNumber s _).keyframe i

theorem ingest_none (s : Relay) : SameTags s (ingest s none) :=
  SameTags_setNumber s (-1)

theorem ingest_failed (s : Relay) (t : Tag) :
    (ingest s (some (t, false))).buffers = s.buffers
      ∧ (ingest s (some (t, false))).current_buffer = s.current_buffer
      ∧ (ingest s (some (t, false))).lastproper = s.lastproper
      ∧ (ingest s (some (t, false))).ringbuf.length = s.ringbuf.length
      ∧ ∀ i, i ≠ s.current_buffer →
          isVideoKeyframe (slot (ingest s (some (t, false))).ringbuf i).FLV
            = isVideoKeyframe (slot s.ringbuf i).FLV := by
  refine ⟨rfl, rfl, rfl, ?_, fun i hi => ?_⟩
  · show (setFLV (setNumber s.ringbuf s.current_buffer (-1)) s.current_buffer t).length = _
    simp [setFLV, setNumber]
  have h0 : (ingest s (some (t, false))).ringbuf
      = setFLV (setNumber s.ringbuf s.current_buffer (-1)) s.current_buffer t := rfl
  have h1 : slot (ingest s (some (t, false))).ringbuf i
      = slot (setNumber s.ringbuf s.current_buffer (-1)) i := by
    rw [h0]
    simp only [setFLV, slot_set]
    rw [if_neg]
    intro h
    exact hi h.1.symm
  rw [h1]
  exact (SameTags_setNumber s (-1)).keyframe i

theorem ingest_loaded (s : Relay) (t : Tag) (hlen : s.buffers = s.ringbuf.length)
    (hcur : s.current_buffer < s.buffers) :
    (ingest s (some (t, true))).buffers = s.buffers
      ∧ (ingest s (some (t, true))).ringbuf.length = s.ringbuf.length
      ∧ (ingest s (some (t, true))).current_buffer = (s.current_buffer + 1) % s.buffers
      ∧ (∀ i, i ≠ s.current_buffer →
          isVideoKeyframe (slot (ingest s (some (t, true))).ringbuf i).FLV
            = isVideoKeyframe (slot s.ringbuf i).FLV)
      ∧ isVideoKeyframe (slot (ingest s (some (t, true))).ringbuf s.current_buffer).FLV
          = isVideoKeyframe t
      ∧ (ingest s (some (t, true))).lastproper
          = if isVideoKeyframe t = true then s.current_buffer else s.lastproper := by
  have hc2 : s.current_buffer < s.ringbuf.length := by omega
  obtain ⟨s2, hs2⟩ : ∃ s2 : Relay, s2 = { s with
      ringbuf := setFLV (setNumber s.ringbuf s.current_buffer (-1)) s.current_buffer t,
      loopcount := wrap32 (s.loopcount + 1) } := ⟨_, rfl⟩
  have hb2 : s2.buffers = s.buffers := by rw [hs2]
  have hc : s2.current_buffer = s.current_buffer := by rw [hs2]
  have hl2 : s2.lastproper = s.lastproper := by rw [hs2]
  have hlen2 : s2.ringbuf.length = s.ringbuf.length := by
    rw [hs2]
    simp [setFLV, setNumber]
  have hcurslot : (slot s2.ringbuf s.current_buffer).FLV = t := by
    rw [hs2]
    simp [setFLV, setNumber, slot_set, hc2]
  have hother : ∀ i, i ≠ s.current_buffer →
      isVideoKeyframe (slot s2.ringbuf i).FLV = isVideoKeyframe (slot s.ringbuf i).FLV := by
    intro i hi
    have h1 : slot s2.ringbuf i = slot (setNumber s.ringbuf s.current_buffer (-1)) i := by
      rw [hs2]
      simp only [setFLV, slot_set]
      rw [if_neg]
      intro h
      exact hi h.1.symm
    rw [h1]
    exact (SameTags_setNumber s (-1)).keyframe i
  obtain ⟨p, hp⟩ : ∃ p : Nat, p = (slot s2.ringbuf s2.current_buffer).FLV.data.getD 0 0 := ⟨_, rfl⟩
  obtain ⟨x, hx⟩ : ∃ x : Relay, x = ingestAudioInit p (ingestVideoInit (ingestMetadata s2)) :=
    ⟨_, rfl⟩
  have hXs : SameTags s2 x := by
    rw [hx]
    exact ((SameTags_ingestMetadata s2).trans (SameTags_ingestVideoInit _)).trans
      (SameTags_ingestAudioInit p _)
  have hfin : ingest s (some (t, true)) = ingestFinish (ingestLastproper p x) := by
    rw [hx, hp, hs2]
    rfl
  obtain ⟨x1, x2, x3, x4, x5, x6, x7⟩ := hXs
  obtain ⟨y1, y2, y3⟩ := ingestLastproper_spec p x
  obtain ⟨y11, y12, _, y14, _⟩ := y1
  obtain ⟨z1, z2, z3, z4, z5⟩ := ingestFinish_spec (ingestLastproper p x)
  have hkf : ∀ i, isVideoKeyframe (slot (ingest s (some (t, true))).ringbuf i).FLV
      = isVideoKeyframe (slot s2.ringbuf i).FLV := by
    intro i
    rw [hfin, z5 i, y2]
    exact SameTags.keyframe ⟨x1, x2, x3, x4, x5, x6, x7⟩ i
  rw [hc] at x5 x6 x7
  refine ⟨?_, ?_, ?_, ?_, ?_, ?_⟩
  · rw [hfin, z1]
    exact (y11.trans x1).trans hb2
  · rw [hfin, z4, y2, x4, hlen2]
  · rw [hfin, z3]
    have e1 : (ingestLastproper p x).current_buffer = s.current_buffer := (y12.trans x2).trans hc
    have e2 : (ingestLastproper p x).buffers = s.buffers := (y11.trans x1).trans hb2
    rw [e1, e2]
  · intro i hi
    rw [hkf i, hother i hi]
  · rw [hkf, hcurslot]
  · rw [hfin, z2, y3, x2, hc, x7, hcurslot, x3, hl2, hp, hc, hcurslot]
    unfold isVideoKeyframe
    simp only [Bool.and_eq_true, decide_eq_true_eq]

theorem add_mod_ne_self (N lp x : Nat) (hlp : lp < N) (hx0 : 0 < x) (hx : x < N) :
    (lp + x) % N ≠ lp := by
  by_cases h : lp + x < N
  · rw [Nat.mod_eq_of_lt h]
    omega
  · rw [Nat.mod_eq_sub_mod (by omega), Nat.mod_eq_of_lt (by omega)]
    omega

theorem KeyframeSafe.current_lt {s : Relay} {d : Nat} (h : KeyframeSafe s d) :
    s.current_buffer < s.buffers := by
  obtain ⟨_, _, _, j, hj, hc⟩ := h
  rw [hc]
  exact Nat.mod_lt _ (by omega)

theorem KeyframeSafe.current_ne {s : Relay} {d : Nat} (h : KeyframeSafe s d) (hd : 1 ≤ d) :
    s.lastproper ≠ s.current_buffer := by
  obtain ⟨_, hlp, _, j, hj, hc⟩ := h
  rw [hc, Nat.add_assoc]
  exact (add_mod_ne_self _ _ _ hlp (by omega) (by omega)).symm

theorem KeyframeSafe_ingest_none {s : Relay} {d : Nat} (h : KeyframeSafe s d) :
    KeyframeSafe (ingest s none) d := by
  have hs := ingest_none s
  obtain ⟨h1, h2, h3, j, hj, hc⟩ := h
  obtain ⟨a1, a2, a3, a4, _, _, _⟩ := id hs
  refine ⟨by rw [a1, a4, h1], by rw [a3, a1]; exact h2, ?_, j, by rw [a1]; exact hj, ?_⟩
  · rw [a3, hs.keyframe]
    exact h3
  · rw [a2, a3, a1]
    exact hc

theorem KeyframeSafe_ingest_failed {s : Relay} {d : Nat} (t : Tag) (h : KeyframeSafe s d)
    (hd : 1 ≤ d) : KeyframeSafe (ingest s (some (t, false))) d := by
  have hne := h.current_ne hd
  obtain ⟨h1, h2, h3, j, hj, hc⟩ := h
  obtain ⟨a1, a2, a3, a4, a5⟩ := ingest_failed s t
  refine ⟨by rw [a1, a4, h1], by rw [a3, a1]; exact h2, ?_, j, by rw [a1]; exact hj, ?_⟩
  · rw [a3, a5 _ hne]
    exact h3
  · rw [a2, a3, a1]
    exact hc

theorem KeyframeSafe_ingest_keyframe (s : Relay) (t : Tag) (hlen : s.buffers = s.ringbuf.length)
    (hcur : s.current_buffer < s.buffers) (hk : isVideoKeyframe t = true) :
    KeyframeSafe (ingest s (some (t, true))) (s.buffers - 1) := by
  obtain ⟨a1, a2, a3, _, a5, a6⟩ := ingest_loaded s t hlen hcur
  rw [if_pos hk] at a6
  refine ⟨by rw [a1, a2, hlen], by rw [a6, a1]; exact hcur, ?_, 0, ?_, ?_⟩
  · rw [a6, a5]
    exact hk
  · rw [a1]
    omega
  · rw [a3, a6, a1]

theorem KeyframeSafe_ingest_loaded {s : Relay} {d : Nat} (t : Tag) (h : KeyframeSafe s d)
    (hd : 1 ≤ d) : KeyframeSafe (ingest s (some (t, true))) (d - 1) := by
  have hne := h.current_ne hd
  have hcur := h.current_lt
  obtain ⟨h1, h2, h3, j, hj, hc⟩ := h
  by_cases hk : isVideoKeyframe t = true
  · have hK := KeyframeSafe_ingest_keyframe s t h1 hcur hk
    obtain ⟨b1, b2, b3, i, hi, hci⟩ := hK
    have hb : (ingest s (some (t, true))).buffers = s.buffers := (ingest_loaded s t h1 hcur).1
    refine ⟨b1, b2, b3, i, ?_, hci⟩
    rw [hb] at hi ⊢
    omega
  · obtain ⟨a1, a2, a3, a4, _, a6⟩ := ingest_loaded s t h1 hcur
    rw [if_neg hk] at a6
    refine ⟨by rw [a1, a2, h1], by rw [a6, a1]; exact h2, ?_, j + 1, ?_, ?_⟩
    · rw [a6, a4 _ hne]
      exact h3
    · rw [a1]
      omega
    · rw [a3, a6, a1, hc, Nat.mod_add_mod]
      rfl

theorem loadedCount_nil : loadedCount [] = 0 := rfl

theorem loadedCount_cons_none (ls : List LoadResult) :
    loadedCount (none :: ls) = loadedCount ls := rfl

theorem loadedCount_cons_failed (t : Tag) (ls : List LoadResult) :
    loadedCount (some (t, false) :: ls) = loadedCount ls := rfl

theorem loadedCount_cons_loaded (t : Tag) (ls : List LoadResult) :
    loadedCount (some (t, true) :: ls) = loadedCount ls + 1 := rfl

theorem KeyframeSafe_ingestAll (post : List LoadResult) :
    ∀ (s : Relay) (d : Nat), KeyframeSafe s d → loadedCount post < d →
      KeyframeSafe (ingestAll s post) (d - loadedCount post) := by
  induction post with
  | nil =>
    intro s d h _
    exact h
  | cons l ls ih =>
    intro s d h hd
    show KeyframeSafe (ingestAll (ingest s l) ls) _
    match l with
    | none =>
      rw [loadedCount_cons_none] at hd ⊢
      exact ih _ _ (KeyframeSafe_ingest_none h) hd
    | some (t, false) =>
      rw [loadedCount_cons_failed] at hd ⊢
      exact ih _ _ (KeyframeSafe_ingest_failed t h (by omega)) hd
    | some (t, true) =>
      rw [loadedCount_cons_loaded] at hd ⊢
      have := ih _ _ (KeyframeSafe_ingest_loaded t h (by omega)) (by omega)
      rw [show d - (loadedCount ls + 1) = d - 1 - loadedCount ls by omega]
      exact this

/-- C3, as amended: after an ingest step that loads a video keyframe tag, and
for as long as fewer than `N - 1` further tags have been loaded (the ring has
not come back to that slot), the slot at `lastproper` holds a video keyframe
tag; this is the slot a viewer accepted in that state starts from. -/
theorem lastproper_holds_keyframe_until_wrapped (s : Relay) (t : Tag) (post : List LoadResult)
    (hlen : s.buffers = s.ringbuf.length) (hcur : s.current_buffer < s.buffers)
    (hk : isVideoKeyframe t = true)
    (hpost : post = [] ∨ loadedCount post + 1 < s.buffers) :
    isVideoKeyframe
      (slot (ingestAll (ingest s (some (t, true))) post).ringbuf
        (ingestAll (ingest s (some (t, true))) post).lastproper).FLV = true := by
  have h0 := KeyframeSafe_ingest_keyframe s t hlen hcur hk
  rcases hpost with hnil | hlt
  · subst hnil
    exact h0.2.2.1
  · exact (KeyframeSafe_ingestAll post _ _ h0 (by omega)).2.2.1

/-- Witness for C3 as amended: a ring of three slots, a keyframe loaded into
slot 0 and one audio tag after it. -/
theorem lastproper_holds_keyframe_until_wrapped_witness :
    isVideoKeyframe
      (slot (ingestAll (ingest (initRelay [default, default, default])
          (some (exampleKeyframe, true))) [some (exampleAudio, true)]).ringbuf
        (ingestAll (ingest (initRelay [default, default, default])
          (some (exampleKeyframe, true))) [some (exampleAudio, true)]).lastproper).FLV = true :=
  lastproper_holds_keyframe_until_wrapped (initRelay [default, default, default]) exampleKeyframe
    [some (exampleAudio, true)] rfl (by decide) (by decide) (Or.inr (by decide))

/-- C3 fails as stated, in both situations it names. Before any keyframe was
ingested: after one audio tag into a one-slot ring, `lastproper = 0` and slot 0
holds the audio tag. After the ring has wrapped: in a two-slot ring, a
keyframe and then two audio tags leave `lastproper = 0` with slot 0
overwritten by the second audio tag. -/
theorem lastproper_slot_not_keyframe_before_first_or_after_wrap :
    isVideoKeyframe
        (slot (ingestAll (initRelay [default]) [some (exampleAudio, true)]).ringbuf
          (ingestAll (initRelay [default]) [some (exampleAudio, true)]).lastproper).FLV = false
      ∧ isVideoKeyframe
        (slot (ingestAll (initRelay [default, default])
            [some (exampleKeyframe, true), some (exampleAudio, true),
              some (exampleAudio, true)]).ringbuf
          (ingestAll (initRelay [default, default])
            [some (exampleKeyframe, true), some (exampleAudio, true),
              some (exampleAudio, true)]).lastproper).FLV = false := by
  decide

end Buffer

/-! ### The keyframe search of `Send` after an overrun -/

namespace Buffer

theorem seekKeyframe_spec (ringbuf : List buffer) (N : Nat) :
    ∀ (fuel mb n d : Nat), n + fuel = N → 1 ≤ d → n + d ≤ N →
      (∀ e, 1 ≤ e → e < d → (slot ringbuf ((mb + e) % N)).FLV.isKeyframe = false) →
      ((slot ringbuf ((mb + d) % N)).FLV.isKeyframe = true ∨ n + d = N) →
      seekKeyframe ringbuf N fuel mb n = ((mb + d) % N, n + d) := by
  intro fuel
  induction fuel with
  | zero =>
    intro mb n d h1 h2 h3
    omega
  | succ fuel ih =>
    intro mb n d hfuel hd1 hdN hfirst hlast
    unfold seekKeyframe
    dsimp only
    by_cases hd : d = 1
    · subst hd
      have hstop : (!(slot ringbuf ((mb + 1) % N)).FLV.isKeyframe && decide (n + 1 < N)) = false := by
        rcases hlast with hk | hn
        · simp [hk]
        · simp [hn]
      rw [hstop]
      rfl
    · have hk := hfirst 1 (le_refl 1) (by omega)
      have hgo : (!(slot ringbuf ((mb + 1) % N)).FLV.isKeyframe && decide (n + 1 < N)) = true := by
        simp only [hk, Bool.not_false, Bool.true_and, decide_eq_true_eq]
        omega
      rw [hgo]
      simp only [if_true]
      have hshift : ∀ e, ((mb + 1) % N + e) % N = (mb + (e + 1)) % N := by
        intro e
        rw [Nat.mod_add_mod]
        congr 1
        omega
      have := ih ((mb + 1) % N) (n + 1) (d - 1) (by omega) (by omega) (by omega)
        (by
          intro e he1 he2
          rw [hshift]
          exact hfirst (e + 1) (by omega) (by omega))
        (by
          rw [hshift, show d - 1 + 1 = d by omega]
          rcases hlast with hk | hn
          · exact Or.inl hk
          · exact Or.inr (by omega))
      rw [this, hshift, show d - 1 + 1 = d by omega, show n + 1 + (d - 1) = n + d by omega]

/-- After a completed send on an overwritten slot, when the first keyframe met
from `MyBuffer + 1` is met after `d < N` steps, the cursor ends on it and the
send state is reset. -/
theorem afterSend_overrun_keyframe_before_last_step (ringbuf : List buffer) (N : Nat) (u : user)
    (d : Nat) (hov : (slot ringbuf u.MyBuffer).number ≠ u.MyBuffer_num) (hd1 : 1 ≤ d)
    (hdN : d < N)
    (hfirst : ∀ e, 1 ≤ e → e < d → (slot ringbuf ((u.MyBuffer + e) % N)).FLV.isKeyframe = false)
    (hkey : (slot ringbuf ((u.MyBuffer + d) % N)).FLV.isKeyframe = true) :
    afterSend ringbuf N u = resetSend { u with MyBuffer := (u.MyBuffer + d) % N } := by
  unfold afterSend
  rw [if_pos hov]
  dsimp only
  rw [seekKeyframe_spec ringbuf N N u.MyBuffer 0 d (by omega) hd1 (by omega) hfirst (Or.inl hkey)]
  dsimp only
  rw [if_neg (by omega)]

/-- After a completed send on an overwritten slot, when no keyframe is met in
the first `N - 1` steps, `Send` returns without the reset, whether or not the
slot met on step `N` (the viewer's own slot, when `MyBuffer < N`) holds a
keyframe. -/
theorem afterSend_overrun_keyframe_not_before_last_step (ringbuf : List buffer) (N : Nat)
    (u : user) (hN : 1 ≤ N) (hov : (slot ringbuf u.MyBuffer).number ≠ u.MyBuffer_num)
    (hnone : ∀ e, 1 ≤ e → e < N → (slot ringbuf ((u.MyBuffer + e) % N)).FLV.isKeyframe = false) :
    afterSend ringbuf N u = { u with MyBuffer := (u.MyBuffer + N) % N } := by
  unfold afterSend
  rw [if_pos hov]
  dsimp only
  rw [seekKeyframe_spec ringbuf N N u.MyBuffer 0 N (by omega) hN (by omega) hnone
    (Or.inr (by omega))]
  dsimp only
  rw [if_pos (by omega)]

end Buffer

/-! ## Theorems, part 2: the DTSC stream -/

namespace DTSC

/-- C5, at the failing input: `getRing` on a fresh stream, whose `buffers` is
empty, hands out a ring with `b = 0` that is not starved, so neither
`r.starved` nor `r.b < buffers.size()` holds for it. -/
theorem getRing_on_empty_buffers_not_starved :
    (getRing Stream.new).1.rings = [Ring.mk0 0]
      ∧ (Ring.mk0 0).starved = false
      ∧ ¬ (Ring.mk0 0).b < (getRing Stream.new).1.buffers.length := by
  decide

/-- C6, at the failing input: a stream constructed with `rbuffers = 2^32 - 1`
parses one payload frame; `advanceRings` increments `buffercount`, which wraps
to 0 while `buffers` holds the packet. -/
theorem bufferCount_wraps_below_buffers_size :
    (Stream.new2 4294967295 0).buffercount = 4294967295
      ∧ (parsePacket (constCodec exampleKeyPacket) (Stream.new2 4294967295 0)
          (frameV2 [0])).2.2 = true
      ∧ (parsePacket (constCodec exampleKeyPacket) (Stream.new2 4294967295 0)
          (frameV2 [0])).1.buffers.length = 1
      ∧ (parsePacket (constCodec exampleKeyPacket) (Stream.new2 4294967295 0)
          (frameV2 [0])).1.buffercount = 0 := by
  decide

/-- C7, at the failing input: the nine bytes `"DTPD" FF FF FF F8 00` are a
proper prefix of a frame with `len = 0xFFFFFFF8`. `len + 8` wraps to 0, the
length check passes, and `parsePacket` returns true with a packet pushed onto
`buffers` and the input left whole. -/
theorem parsePacket_partial_frame_length_wraps :
    ntohlAt4 [68, 84, 80, 68, 255, 255, 255, 248, 0] = 4294967288
      ∧ (parsePacket (constCodec exampleKeyPacket) Stream.new
          [68, 84, 80, 68, 255, 255, 255, 248, 0]).2.2 = true
      ∧ (parsePacket (constCodec exampleKeyPacket) Stream.new
          [68, 84, 80, 68, 255, 255, 255, 248, 0]).1.buffers.length = 1
      ∧ (parsePacket (constCodec exampleKeyPacket) Stream.new
          [68, 84, 80, 68, 255, 255, 255, 248, 0]).2.1
          = [68, 84, 80, 68, 255, 255, 255, 248, 0] := by
  decide

/-! ### `find` and resynchronisation -/

theorem isPrefixOf_iff_take (pat s : List Nat) :
    pat.isPrefixOf s = true ↔ s.take pat.length = pat := by
  rw [List.isPrefixOf_iff_prefix, List.prefix_iff_eq_take]
  exact eq_comm

theorem find_some (pat : List Nat) :
    ∀ (s : List Nat) (k : Nat), find pat s = some k → FirstOccurrence pat s k := by
  intro s
  induction s with
  | nil =>
    intro k h
    unfold find at h
    split at h
    · rename_i hp
      injection h with h
      subst h
      exact ⟨(isPrefixOf_iff_take pat []).1 hp, fun j hj => absurd hj (Nat.not_lt_zero j)⟩
    · exact absurd h (by simp)
  | cons c cs ih =>
    intro k h
    unfold find at h
    split at h
    · rename_i hp
      injection h with h
      subst h
      exact ⟨(isPrefixOf_iff_take pat (c :: cs)).1 hp, fun j hj => absurd hj (Nat.not_lt_zero j)⟩
    · rename_i hp
      cases hf : find pat cs with
      | none => rw [hf] at h; exact absurd h (by simp)
      | some k1 =>
        rw [hf] at h
        simp only [Option.map_some'] at h
        injection h with h
        subst h
        obtain ⟨h1, h2⟩ := ih k1 hf
        refine ⟨by simpa using h1, ?_⟩
        intro j hj
        cases j with
        | zero =>
          intro hcontra
          exact hp ((isPrefixOf_iff_take pat (c :: cs)).2 (by simpa using hcontra))
        | succ j1 =>
          have := h2 j1 (by omega)
          simpa using this

theorem find_none (pat : List Nat) :
    ∀ (s : List Nat), find pat s = none → NoOccurrence pat s := by
  intro s
  induction s with
  | nil =>
    intro h j
    unfold find at h
    split at h
    · exact absurd h (by simp)
    · rename_i hp
      intro hcontra
      exact hp ((isPrefixOf_iff_take pat []).2 (by simpa using hcontra))
  | cons c cs ih =>
    intro h j
    unfold find at h
    split at h
    · exact absurd h (by simp)
    · rename_i hp
      cases hf : find pat cs with
      | some k1 => rw [hf] at h; exact absurd h (by simp)
      | none =>
        cases j with
        | zero =>
          intro hcontra
          exact hp ((isPrefixOf_iff_take pat (c :: cs)).2 (by simpa using hcontra))
        | succ j1 =>
          have := ih hf j1
          simpa using this

/-- C9, as amended: on an input of more than 8 bytes that starts with none of
the three magics, `parsePacket` returns false, leaves the stream as it was,
and leaves the input equal to its suffix from the first occurrence of `"DTP2"`
when `"DTP2"` occurs anywhere in it; otherwise to its suffix from the first
occurrence of `"DTPD"`; and empty when neither occurs. -/
theorem parsePacket_resync (c : Codec) (s : Stream) (buffer : List Nat)
    (hlen : 8 < buffer.length) (h0 : hasMagic buffer Magic_Header = false)
    (h1 : hasMagic buffer Magic_Packet = false) (h2 : hasMagic buffer Magic_Packet2 = false) :
    (parsePacket c s buffer).2.2 = false ∧ (parsePacket c s buffer).1 = s
      ∧ ((∃ k, FirstOccurrence Magic_Packet2 buffer k
            ∧ (parsePacket c s buffer).2.1 = buffer.drop k)
        ∨ (NoOccurrence Magic_Packet2 buffer ∧ ∃ k, FirstOccurrence Magic_Packet buffer k
            ∧ (parsePacket c s buffer).2.1 = buffer.drop k)
        ∨ (NoOccurrence Magic_Packet2 buffer ∧ NoOccurrence Magic_Packet buffer
            ∧ (parsePacket c s buffer).2.1 = [])) := by
  have hp : parsePacket c s buffer = (s, resync buffer, false) := by
    unfold parsePacket parseHeader
    simp [hlen, h0, h1, h2]
  rw [hp]
  refine ⟨rfl, rfl, ?_⟩
  show _ ∨ _ ∨ _
  unfold resync
  dsimp only
  cases hf2 : find Magic_Packet2 buffer with
  | some k2 => exact Or.inl ⟨k2, find_some _ _ _ hf2, rfl⟩
  | none =>
    cases hf1 : find Magic_Packet buffer with
    | some k1 => exact Or.inr (Or.inl ⟨find_none _ _ hf2, k1, find_some _ _ _ hf1, rfl⟩)
    | none => exact Or.inr (Or.inr ⟨find_none _ _ hf2, find_none _ _ hf1, rfl⟩)

/-- Witness for C9 as amended: five zero bytes, then `"DTPD"`, then `"DTP2"`. -/
theorem parsePacket_resync_witness :
    (parsePacket (constCodec JSON.null) Stream.new
        ([0, 0, 0, 0, 0] ++ Magic_Packet ++ Magic_Packet2)).2.2 = false :=
  (parsePacket_resync (constCodec JSON.null) Stream.new
    ([0, 0, 0, 0, 0] ++ Magic_Packet ++ Magic_Packet2) (by decide) (by decide) (by decide)
    (by decide)).1

/-- C9 fails as stated: in the 13 bytes `00 00 00 00 00 "DTPD" "DTP2"` the
earliest magic is `"DTPD"` at offset 5, but `parsePacket` leaves the suffix
from `"DTP2"` at offset 9. -/
theorem parsePacket_resync_skips_earlier_DTPD :
    FirstOccurrence Magic_Packet ([0, 0, 0, 0, 0] ++ Magic_Packet ++ Magic_Packet2) 5
      ∧ FirstOccurrence Magic_Packet2 ([0, 0, 0, 0, 0] ++ Magic_Packet ++ Magic_Packet2) 9
      ∧ (parsePacket (constCodec JSON.null) Stream.new
          ([0, 0, 0, 0, 0] ++ Magic_Packet ++ Magic_Packet2)).2.1 = Magic_Packet2
      ∧ (parsePacket (constCodec JSON.null) Stream.new
          ([0, 0, 0, 0, 0] ++ Magic_Packet ++ Magic_Packet2)).2.1
          ≠ ([0, 0, 0, 0, 0] ++ Magic_Packet ++ Magic_Packet2).drop 5 := by
  refine ⟨find_some _ _ _ (by decide), find_some _ _ _ (by decide), by decide, by decide⟩

/-! ### The fragment loop of `updateHeaders` -/

theorem fragInner_spec (keytime keylen : JSON) (i : Nat) :
    ∀ (fuel j fragLen : Nat) (fragDur : Int) (L : Nat) (D : Int),
      fragInner keytime keylen fuel j fragLen fragDur = some (L, D) →
      j = i + fragLen → 1 ≤ fragLen → fragDur = keylenSum keylen i fragLen →
      (∀ n, 1 ≤ n → n < fragLen → keylenSum keylen i n < 10000) →
      1 ≤ L ∧ i + L < keytime.size ∧ D = keylenSum keylen i L ∧ 10000 ≤ D
        ∧ ∀ n, 1 ≤ n → n < L → keylenSum keylen i n < 10000 := by
  intro fuel
  induction fuel with
  | zero =>
    intro j fragLen fragDur L D h
    simp [fragInner] at h
  | succ fuel ih =>
    intro j fragLen fragDur L D h hj hlen hdur hmin
    unfold fragInner at h
    split at h
    · rename_i hjs
      split at h
      · rename_i hge
        injection h with h
        injection h with hL hD
        subst hL
        subst hD
        exact ⟨hlen, by omega, hdur, hge, hmin⟩
      · rename_i hlt
        refine ih (j + 1) (fragLen + 1) _ L D h (by omega) (by omega) ?_ ?_
        · rw [hdur, hj]
          rfl
        · intro n hn1 hn2
          by_cases hn : n < fragLen
          · exact hmin n hn1 hn
          · have : n = fragLen := by omega
            rw [this, ← hdur]
            omega
    · exact absurd h (by simp)

theorem fragOuter_spec (keytime keynum keylen : JSON) :
    ∀ (fuel i fragStart : Nat) (f : JSON),
      f ∈ (fragOuter keytime keynum keylen fuel i fragStart).1 →
      ∃ g L, fragStart ≤ g ∧ 1 ≤ L ∧ g + L < keytime.size
        ∧ f = mkFrag (keynum.idx g) L (keylenSum keylen g L)
        ∧ 10000 ≤ keylenSum keylen g L
        ∧ ∀ n, 1 ≤ n → n < L → keylenSum keylen g n < 10000 := by
  intro fuel
  induction fuel with
  | zero =>
    intro i fragStart f h
    simp [fragOuter] at h
  | succ fuel ih =>
    intro i fragStart f h
    unfold fragOuter at h
    split at h
    · split at h
      · rename_i hi
        split at h
        · rename_i fragLen fragDur hinner
          obtain ⟨a1, a2, a3, a4, a5⟩ := fragInner_spec keytime keylen i _ _ _ _ _ _ hinner rfl
            (le_refl 1) (by simp [keylenSum]) (by intro n h1 h2; omega)
          simp only [List.mem_cons] at h
          rcases h with h | h
          · refine ⟨i, fragLen, by omega, a1, a2, ?_, ?_, a5⟩
            · rw [h, a3]
            · rw [← a3]
              exact a4
          · obtain ⟨g, L, b1, b2⟩ := ih _ _ f h
            exact ⟨g, L, by omega, b2⟩
        · exact ih _ _ f h
      · exact ih _ _ f h
    · simp at h

theorem keylenSum_pred (keylen : JSON) (i L : Nat) (hL : 1 ≤ L) :
    keylenSum keylen i L - (keylen.idx (i + L - 1)).asInt = keylenSum keylen i (L - 1) := by
  obtain ⟨n, rfl⟩ : ∃ n, L = n + 1 := ⟨L - 1, by omega⟩
  simp only [keylenSum, Nat.add_sub_cancel]
  rw [show i + (n + 1) - 1 = i + n by omega]
  omega

/-- A fragment as `mkFrag` builds it is the object with the members `num`,
`len` and `dur`, in this order. -/
theorem mkFrag_obj (num : JSON) (fragLen : Nat) (fragDur : Int) :
    mkFrag num fragLen fragDur
      = JSON.obj [("num", num), ("len", JSON.int fragLen), ("dur", JSON.int fragDur)] := rfl

/-- C10: every fragment that the fragment loop appends is built for a group
that starts at some key `g >= fragStart`; it is an object with the three
members `num`, `len` and `dur`, where `num = keynum[g]`, `len` = the least
`L >= 1` with `keylen[g] + ... + keylen[g+L-1] >= 10000`, and `dur` = that
sum, so `dur >= 10000` and `dur` minus the last key's `keylen` is below 10000.
On the keys at 0, 3000, ..., 15000 ms with `keylen` 3000 each the loop appends
one fragment, with `num` that of the key at 0 ms, `len = 4` and
`dur = 12000`, and the next group starts at index 4, the key at 12000 ms. -/
theorem fragLoop_fragment_is_least_group_reaching_10000 :
    (∀ (keytime keynum keylen : JSON) (fragStart : Nat) (f : JSON),
      f ∈ (fragLoop keytime keynum keylen fragStart).1 →
      ∃ g L : Nat, fragStart ≤ g ∧ 1 ≤ L ∧ g + L < keytime.size
        ∧ f.members.map Prod.fst = ["num", "len", "dur"]
        ∧ f.get "num" = keynum.idx g
        ∧ f.get "len" = JSON.int L
        ∧ f.get "dur" = JSON.int (keylenSum keylen g L)
        ∧ 10000 ≤ (f.get "dur").asInt
        ∧ (∀ n, 1 ≤ n → n < L → keylenSum keylen g n < 10000)
        ∧ (f.get "dur").asInt - (keylen.idx (g + L - 1)).asInt < 10000)
    ∧ ∀ keynum : JSON,
        ((fragLoop (JSON.arr ([0, 3000, 6000, 9000, 12000, 15000].map JSON.int)) keynum
            (JSON.arr ([3000, 3000, 3000, 3000, 3000, 3000].map JSON.int)) 0).1.map
          (fun f => (f.get "num", (f.get "len").asInt, (f.get "dur").asInt))
            = [(keynum.idx 0, 4, 12000)])
        ∧ (fragLoop (JSON.arr ([0, 3000, 6000, 9000, 12000, 15000].map JSON.int)) keynum
            (JSON.arr ([3000, 3000, 3000, 3000, 3000, 3000].map JSON.int)) 0).2 = 4 := by
  constructor
  · intro keytime keynum keylen fragStart f hf
    obtain ⟨g, L, h1, h2, h3, h4, h5, h6⟩ := fragOuter_spec keytime keynum keylen _ _ _ f hf
    rw [mkFrag_obj] at h4
    subst h4
    refine ⟨g, L, h1, h2, h3, rfl, rfl, rfl, rfl, h5, h6, ?_⟩
    show keylenSum keylen g L - (keylen.idx (g + L - 1)).asInt < 10000
    rw [keylenSum_pred keylen g L h2]
    by_cases hL : L = 1
    · subst hL
      simp [keylenSum]
    · exact h6 (L - 1) (by omega) (by omega)
  · intro keynum
    exact ⟨rfl, rfl⟩

/-- Witness for C10: the fragment appended on the six example keys, whose
`keynum` are 7 to 12. -/
theorem fragLoop_fragment_is_least_group_reaching_10000_witness :
    (fragLoop (JSON.arr ([0, 3000, 6000, 9000, 12000, 15000].map JSON.int))
        (JSON.arr ([7, 8, 9, 10, 11, 12].map JSON.int))
        (JSON.arr ([3000, 3000, 3000, 3000, 3000, 3000].map JSON.int)) 0).1
      = [JSON.obj [("num", JSON.int 7), ("len", JSON.int 4), ("dur", JSON.int 12000)]]
    ∧ ∃ g L : Nat, 0 ≤ g ∧ 1 ≤ L ∧ g + L < 6
      ∧ (JSON.obj [("num", JSON.int 7), ("len", JSON.int 4),
            ("dur", JSON.int 12000)]).members.map Prod.fst = ["num", "len", "dur"]
      ∧ (JSON.obj [("num", JSON.int 7), ("len", JSON.int 4), ("dur", JSON.int 12000)]).get "num"
          = (JSON.arr ([7, 8, 9, 10, 11, 12].map JSON.int)).idx g
      ∧ (JSON.obj [("num", JSON.int 7), ("len", JSON.int 4), ("dur", JSON.int 12000)]).get "len"
          = JSON.int L
      ∧ (JSON.obj [("num", JSON.int 7), ("len", JSON.int 4), ("dur", JSON.int 12000)]).get "dur"
          = JSON.int
              (keylenSum (JSON.arr ([3000, 3000, 3000, 3000, 3000, 3000].map JSON.int)) g L)
      ∧ 10000 ≤ ((JSON.obj [("num", JSON.int 7), ("len", JSON.int 4),
            ("dur", JSON.int 12000)]).get "dur").asInt
      ∧ (∀ n, 1 ≤ n → n < L →
          keylenSum (JSON.arr ([3000, 3000, 3000, 3000, 3000, 3000].map JSON.int)) g n < 10000)
      ∧ ((JSON.obj [("num", JSON.int 7), ("len", JSON.int 4),
            ("dur", JSON.int 12000)]).get "dur").asInt
          - ((JSON.arr ([3000, 3000, 3000, 3000, 3000, 3000].map JSON.int)).idx
              (g + L - 1)).asInt < 10000 :=
  ⟨rfl, fragLoop_fragment_is_least_group_reaching_10000.1
    (JSON.arr ([0, 3000, 6000, 9000, 12000, 15000].map JSON.int))
    (JSON.arr ([7, 8, 9, 10, 11, 12].map JSON.int))
    (JSON.arr ([3000, 3000, 3000, 3000, 3000, 3000].map JSON.int)) 0
    (JSON.obj [("num", JSON.int 7), ("len", JSON.int 4), ("dur", JSON.int 12000)])
    (List.mem_singleton.2 rfl)⟩

end DTSC

namespace DTSC

/-! ### `parsePacket` on a payload frame -/

theorem growBuffer_rings (s : Stream) : (growBuffer s).rings = s.rings := by
  unfold growBuffer
  split <;> rfl

theorem growBuffer_buffers (s : Stream) : (growBuffer s).buffers = s.buffers := by
  unfold growBuffer
  split <;> rfl

theorem pushKeyframe_rings (s : Stream) : (pushKeyframe s).rings = s.rings := by
  unfold pushKeyframe
  dsimp only
  split_ifs <;> rfl

theorem pushKeyframe_buffers (s : Stream) :
    (pushKeyframe s).buffers = s.buffers
      ∨ ((s.buffers.headD JSON.null).isMember "fragnum" = false
          ∧ ∃ n, (pushKeyframe s).buffers
              = setFront s.buffers ((s.buffers.headD JSON.null).set "fragnum" (JSON.int n))) := by
  unfold pushKeyframe
  dsimp only
  split_ifs with h1 h2
  · right
    exact ⟨by simpa using h2, _, rfl⟩
  · left
    rfl
  · left
    rfl

theorem advanceRings_rings (s : Stream) :
    (advanceRings s).rings = s.rings.map (advanceRing s.buffers.length) := by
  unfold advanceRings
  dsimp only
  rw [growBuffer_rings, pushKeyframe_rings]

theorem advanceRings_buffers (s : Stream) :
    (advanceRings s).buffers = s.buffers
      ∨ ((s.buffers.headD JSON.null).isMember "fragnum" = false
          ∧ ∃ n, (advanceRings s).buffers
              = setFront s.buffers ((s.buffers.headD JSON.null).set "fragnum" (JSON.int n))) := by
  unfold advanceRings
  dsimp only
  rw [growBuffer_buffers]
  exact pushKeyframe_buffers _

theorem setFront_length (bs : List JSON) (f : JSON) : (setFront bs f).length = bs.length := by
  cases bs <;> rfl

theorem setFront_getElem?_succ (bs : List JSON) (f : JSON) (k : Nat) :
    (setFront bs f)[k + 1]? = bs[k + 1]? := by
  cases bs <;> rfl

theorem advanceRings_buffers_length (s : Stream) :
    (advanceRings s).buffers.length = s.buffers.length := by
  rcases advanceRings_buffers s with h | ⟨_, n, h⟩
  · rw [h]
  · rw [h, setFront_length]

theorem advanceRings_buffers_succ (s : Stream) (k : Nat) :
    (advanceRings s).buffers[k + 1]? = s.buffers[k + 1]? := by
  rcases advanceRings_buffers s with h | ⟨_, n, h⟩
  · rw [h]
  · rw [h, setFront_getElem?_succ]

theorem hasMagic_excl (buffer a b : List Nat) (hab : a ≠ b) (ha : hasMagic buffer a = true) :
    hasMagic buffer b = false := by
  unfold hasMagic at *
  simp only [beq_iff_eq] at ha
  simp only [beq_eq_false_iff_ne, ne_eq]
  rw [ha]
  exact hab

/-- When `parsePacket` returns true it parsed one payload frame: the input
starts with `"DTPD"` or `"DTP2"` and the result is that of `parsePayload`. -/
theorem parsePacket_true (c : Codec) (s : Stream) (buffer : List Nat)
    (h : (parsePacket c s buffer).2.2 = true) :
    ∃ version, (version = 1 ∨ version = 2)
      ∧ parsePacket c s buffer = parsePayload c version s buffer := by
  unfold parsePacket at h ⊢
  by_cases hlen : buffer.length > 8
  · simp only [hlen, if_true] at h ⊢
    by_cases hH : hasMagic buffer Magic_Header = true
    · have h1 := hasMagic_excl buffer Magic_Header Magic_Packet (by decide) hH
      have h2 := hasMagic_excl buffer Magic_Header Magic_Packet2 (by decide) hH
      simp [h1, h2] at h
      split_ifs at h
    · have hph : ∀ v, parseHeader c v s buffer = (s, buffer, true) := by
        intro v
        unfold parseHeader
        simp [hH]
      simp only [hph] at h ⊢
      by_cases h2 : hasMagic buffer Magic_Packet2 = true
      · exact ⟨2, Or.inr rfl, by simp [h2]⟩
      · by_cases h1 : hasMagic buffer Magic_Packet = true
        · exact ⟨1, Or.inl rfl, by simp [h1, h2]⟩
        · simp [h1, h2] at h
  · simp [hlen] at h

theorem decodeV2_frame (c : Codec) (s : Stream) (buffer : List Nat) :
    (decodeV2 c s buffer).1.buffers = s.buffers ∧ (decodeV2 c s buffer).1.rings = s.rings
      ∧ (decodeV2 c s buffer).1.buffercount = s.buffercount := by
  unfold decodeV2
  dsimp only
  split_ifs <;> exact ⟨rfl, rfl, rfl⟩

/-- The stream after a payload frame was parsed: `buffers` and `rings` are
those `advanceRings` leaves for a stream whose `buffers` is the new packet
`front` before the old ones, cut to `buffercount`. -/
theorem parsePayload_true (c : Codec) (version : Nat) (s : Stream) (buffer : List Nat)
    (h : (parsePayload c version s buffer).2.2 = true) :
    ∃ (front : JSON) (s3 : Stream),
      (front = if version = 2 then (decodeV2 c s buffer).2
               else if version = 1 then c.fromDTMI ((buffer.drop 8).take (ntohlAt4 buffer))
               else JSON.null)
      ∧ s3.buffers = evictBuffers (front :: s.buffers) s.buffercount
      ∧ s3.rings = s.rings
      ∧ (parsePayload c version s buffer).1.buffers = (advanceRings s3).buffers
      ∧ (parsePayload c version s buffer).1.rings = (advanceRings s3).rings := by
  unfold parsePayload at h ⊢
  dsimp only at h ⊢
  by_cases hshort : buffer.length < wrap32 (ntohlAt4 buffer + 8)
  · simp [hshort] at h
  · simp only [hshort, if_false]
    obtain ⟨d1, d2, d3⟩ := decodeV2_frame c s buffer
    by_cases hv : version = 2
    · simp only [hv, if_true]
      refine ⟨_, _, rfl, ?_, ?_, rfl, rfl⟩
      · dsimp only
        rw [d1, d3]
      · exact d2
    · simp only [hv, if_false]
      refine ⟨_, _, rfl, ?_, ?_, rfl, rfl⟩
      · rfl
      · rfl

/-- C4: a ring `r` given out by the stream (at position `i` of `rings`) that is
neither waiting nor starved and points at packet `p` still points at `p` after
a `parsePacket` that returned true, unless it is then starved. The deque is
addressable by the `unsigned int` cursor (`buffers.size() < 2^32`). -/
theorem parsePacket_keeps_ring_on_its_packet (c : Codec) (s : Stream) (buffer : List Nat)
    (i : Nat) (r : Ring) (p : JSON)
    (hr : s.rings[i]? = some r) (hw : r.waiting = false) (hs : r.starved = false)
    (hp : s.buffers[r.b]? = some p) (hsize : s.buffers.length < 2 ^ 32)
    (hok : (parsePacket c s buffer).2.2 = true) :
    ∃ r1, (parsePacket c s buffer).1.rings[i]? = some r1
      ∧ (r1.starved = true ∨ (parsePacket c s buffer).1.buffers[r1.b]? = some p) := by
  obtain ⟨version, _, hpp⟩ := parsePacket_true c s buffer hok
  rw [hpp] at hok ⊢
  obtain ⟨front, s3, _, hb3, hr3, hbuf, hrings⟩ := parsePayload_true c version s buffer hok
  rw [hrings, hbuf, advanceRings_rings, hr3]
  refine ⟨advanceRing s3.buffers.length r, by simp [hr], ?_⟩
  have hb : r.b < s.buffers.length := by
    by_contra hcon
    rw [List.getElem?_eq_none (by omega)] at hp
    exact absurd hp (by simp)
  have hwrap : wrap32 (r.b + 1) = r.b + 1 := Nat.mod_eq_of_lt (by omega)
  unfold advanceRing
  simp only [hw, hs, hwrap, Bool.false_eq_true, if_false, Bool.false_or, decide_eq_true_eq]
  by_cases hL : r.b + 1 ≥ s3.buffers.length
  · left
    simp [hL]
  · right
    simp only [hL, if_false]
    rw [advanceRings_buffers_succ, hb3]
    unfold evictBuffers
    rw [hb3] at hL
    unfold evictBuffers at hL
    rw [List.getElem?_take_of_lt (by simp at hL ⊢; omega)]
    simpa using hp

/-- Witness for C4: a stream of capacity 3 holding one packet, with one ring
given out on that packet, parses a second packet; the ring moves to index 1,
where the first packet now is. -/
theorem parsePacket_keeps_ring_on_its_packet_witness :
    ∃ r1, (parsePacket (constCodec exampleKeyPacket) exampleStream (frameV2 [0])).1.rings[0]?
        = some r1
      ∧ (r1.starved = true
        ∨ (parsePacket (constCodec exampleKeyPacket) exampleStream (frameV2 [0])).1.buffers[r1.b]?
            = some (exampleKeyPacket.set "fragnum" (JSON.int 1))) :=
  parsePacket_keeps_ring_on_its_packet (constCodec exampleKeyPacket) exampleStream (frameV2 [0])
    0 (Ring.mk0 0) (exampleKeyPacket.set "fragnum" (JSON.int 1)) rfl rfl rfl rfl (by decide)
    (by decide)

/-! ### Round trip through `parsePacket` -/

theorem member?_setEntry (k : String) (v : JSON) (k1 : String) :
    ∀ m : List (String × JSON),
      (JSON.obj (JSON.setEntry k v m)).member? k1
        = if k1 = k then some v else (JSON.obj m).member? k1 := by
  intro m
  induction m with
  | nil =>
    by_cases h : k1 = k
    · simp [JSON.member?, JSON.setEntry, h]
    · have : ¬ k = k1 := fun e => h e.symm
      simp [JSON.member?, JSON.setEntry, h, this]
  | cons p ps ih =>
    unfold JSON.setEntry
    by_cases hp : p.1 = k
    · simp only [hp, beq_self_eq_true, if_true]
      by_cases h : k1 = k
      · simp [JSON.member?, h, hp]
      · have hkf : (k == k1) = false := by simpa using fun e : k = k1 => h e.symm
        simp [JSON.member?, h, hp, hkf, List.find?]
    · have hpf : (p.1 == k) = false := by simpa using hp
      simp only [hpf, Bool.false_eq_true, if_false]
      by_cases hk1 : p.1 = k1
      · have hne : ¬ k1 = k := fun e => hp (hk1.trans e)
        simp [JSON.member?, List.find?, hk1, hne]
      · have hk1f : (p.1 == k1) = false := by simpa using hk1
        have e1 : (JSON.obj (p :: JSON.setEntry k v ps)).member? k1
            = (JSON.obj (JSON.setEntry k v ps)).member? k1 := by
          simp [JSON.member?, List.find?, hk1f]
        have e2 : (JSON.obj (p :: ps)).member? k1 = (JSON.obj ps).member? k1 := by
          simp [JSON.member?, List.find?, hk1f]
        rw [e1, e2, ih]

theorem member?_set_obj (m : List (String × JSON)) (k : String) (v : JSON) (k1 : String) :
    ((JSON.obj m).set k v).member? k1 = if k1 = k then some v else (JSON.obj m).member? k1 :=
  member?_setEntry k v k1 m

theorem ntohlAt4_frameV2 (payload : List Nat) (h : payload.length < 2 ^ 32) :
    ntohlAt4 (frameV2 payload) = payload.length := by
  simp only [ntohlAt4, frameV2, be32, Magic_Packet2, wrap32, List.cons_append, List.nil_append,
    List.getD_cons_succ, List.getD_cons_zero]
  omega

theorem frameV2_length (payload : List Nat) : (frameV2 payload).length = payload.length + 8 := by
  simp [frameV2, be32, Magic_Packet2]

theorem frameV2_drop (payload : List Nat) : (frameV2 payload).drop 8 = payload := by
  simp [frameV2, be32, Magic_Packet2]

theorem frameV2_magic (payload : List Nat) : hasMagic (frameV2 payload) Magic_Packet2 = true := by
  simp [frameV2, be32, Magic_Packet2, hasMagic]

theorem parsePacket_frameV2 (c : Codec) (s : Stream) (payload : List Nat) (hne : payload ≠ []) :
    parsePacket c s (frameV2 payload) = parsePayload c 2 s (frameV2 payload) := by
  have hlen : (frameV2 payload).length > 8 := by
    rw [frameV2_length]
    have : 0 < payload.length := List.length_pos.2 hne
    omega
  have h2 := frameV2_magic payload
  have h0 := hasMagic_excl _ Magic_Packet2 Magic_Header (by decide) h2
  unfold parsePacket parseHeader
  simp [hlen, h2, h0]

theorem parsePayload_complete (c : Codec) (version : Nat) (s : Stream) (buffer : List Nat)
    (h : ¬ buffer.length < wrap32 (ntohlAt4 buffer + 8)) :
    (parsePayload c version s buffer).2.2 = true := by
  unfold parsePayload
  simp [h]

theorem decodeV2_members (c : Codec) (s : Stream) (buffer : List Nat)
    (m : List (String × JSON)) (hdec : c.fromDTMI2 (buffer.drop 8) = JSON.obj m) :
    (∃ m1, (decodeV2 c s buffer).2 = JSON.obj m1)
      ∧ ∀ k, k ≠ "datatype" ∨ (JSON.obj m).isMember k = true →
          (decodeV2 c s buffer).2.member? k = (JSON.obj m).member? k := by
  unfold decodeV2
  dsimp only
  rw [hdec]
  by_cases hd : (JSON.obj m).isMember "datatype" = true
  · rw [if_neg (by simp [hd])]
    exact ⟨⟨m, rfl⟩, fun _ _ => rfl⟩
  · rw [if_pos (by simpa using hd)]
    refine ⟨⟨_, rfl⟩, ?_⟩
    intro k hk
    rw [member?_set_obj]
    by_cases hkd : k = "datatype"
    · subst hkd
      rcases hk with hk | hk
      · exact absurd rfl hk
      · exact absurd hk hd
    · rw [if_neg hkd]

/-- C8, as amended: for a value tree `v` that is an object, with a non-empty
encoding `payload` that the v2 decoder maps back to `v`, a stream with
`buffercount >= 1` fed `"DTP2" ++ be32(len) ++ payload` returns true, and
afterwards `getPacket(0)` has the same members as `v` except possibly
`datatype` and `fragnum`: a member of either name that `v` has is unchanged,
one that `v` lacks may have been added (`datatype` by the backfill, `fragnum`
when the packet is recorded as a keyframe). No other member is added or
changed. -/
theorem parsePacket_roundtrip_modulo_datatype_and_fragnum (c : Codec) (s : Stream)
    (payload : List Nat) (m : List (String × JSON))
    (hdec : c.fromDTMI2 payload = JSON.obj m) (hne : payload ≠ [])
    (hlen : payload.length < 2 ^ 32) (hbc : 1 ≤ s.buffercount) :
    (parsePacket c s (frameV2 payload)).2.2 = true
      ∧ ∀ k, (k ≠ "datatype" ∧ k ≠ "fragnum") ∨ (JSON.obj m).isMember k = true →
          (getPacket (parsePacket c s (frameV2 payload)).1 0).member? k
            = (JSON.obj m).member? k := by
  rw [parsePacket_frameV2 c s payload hne]
  have hcomplete : ¬ (frameV2 payload).length < wrap32 (ntohlAt4 (frameV2 payload) + 8) := by
    rw [ntohlAt4_frameV2 payload hlen, frameV2_length]
    unfold wrap32
    have := Nat.mod_le (payload.length + 8) (2 ^ 32)
    omega
  have htrue := parsePayload_complete c 2 s _ hcomplete
  refine ⟨htrue, ?_⟩
  obtain ⟨front, s3, hfront, hb3, _, hbuf, _⟩ := parsePayload_true c 2 s _ htrue
  rw [if_pos rfl] at hfront
  have hdec1 : c.fromDTMI2 ((frameV2 payload).drop 8) = JSON.obj m := by
    rw [frameV2_drop]
    exact hdec
  obtain ⟨⟨m1, hm1⟩, hF1⟩ := decodeV2_members c s (frameV2 payload) m hdec1
  rw [← hfront] at hm1 hF1
  have hs3 : s3.buffers = front :: (s.buffers.take (s.buffercount - 1)) := by
    rw [hb3]
    unfold evictBuffers
    obtain ⟨n, hn⟩ : ∃ n, s.buffercount = n + 1 := ⟨s.buffercount - 1, by omega⟩
    rw [hn]
    simp
  intro k hk
  have hfk : front.member? k = (JSON.obj m).member? k := by
    apply hF1
    rcases hk with hk | hk
    · exact Or.inl hk.1
    · exact Or.inr hk
  unfold getPacket
  rw [hbuf]
  rcases advanceRings_buffers s3 with h | ⟨hnofrag, n, h⟩
  · rw [h, hs3]
    simpa using hfk
  · rw [h, hs3]
    simp only [setFront, List.headD_cons, List.length_cons, ge_iff_le, nonpos_iff_eq_zero,
      Nat.add_one_ne_zero, if_false, List.getD_cons_zero]
    rw [hs3] at hnofrag
    simp only [List.headD_cons] at hnofrag
    rw [hm1, member?_set_obj, ← hm1]
    by_cases hkf : k = "fragnum"
    · subst hkf
      rcases hk with hk | hk
      · exact absurd rfl hk.2
      · have : front.isMember "fragnum" = true := by
          unfold JSON.isMember at hk ⊢
          rw [hfk]
          exact hk
        rw [this] at hnofrag
        exact absurd hnofrag (by simp)
    · rw [if_neg hkf]
      exact hfk

/-- Witness for C8 as amended: the example keyframe packet on a fresh stream. -/
theorem parsePacket_roundtrip_modulo_datatype_and_fragnum_witness :
    (parsePacket (constCodec exampleKeyPacket) Stream.new (frameV2 [0])).2.2 = true
      ∧ (getPacket (parsePacket (constCodec exampleKeyPacket) Stream.new (frameV2 [0])).1
          0).member? "time" = some (JSON.int 0) :=
  ⟨(parsePacket_roundtrip_modulo_datatype_and_fragnum (constCodec exampleKeyPacket) Stream.new
      [0] _ rfl (by decide) (by decide) (by decide)).1,
    (parsePacket_roundtrip_modulo_datatype_and_fragnum (constCodec exampleKeyPacket) Stream.new
      [0] _ rfl (by decide) (by decide) (by decide)).2 "time" (Or.inl ⟨by decide, by decide⟩)⟩

/-- C8 fails as stated: a video keyframe packet `v` without `fragnum`, decoded
from the frame on a fresh stream, comes back from `getPacket(0)` with the
member `fragnum = 1` added, although `v` has a `datatype` (nothing was
backfilled). -/
theorem parsePacket_adds_fragnum_to_keyframe :
    exampleKeyPacket.member? "fragnum" = none
      ∧ exampleKeyPacket.isMember "datatype" = true
      ∧ (parsePacket (constCodec exampleKeyPacket) Stream.new (frameV2 [0])).2.2 = true
      ∧ (getPacket (parsePacket (constCodec exampleKeyPacket) Stream.new (frameV2 [0])).1
          0).member? "fragnum" = some (JSON.int 1) := by
  refine ⟨rfl, rfl, rfl, rfl⟩

end DTSC

namespace DTSC

/-! ### What `parsePacket` keeps -/

theorem parsePayload_false (c : Codec) (version : Nat) (s : Stream) (buffer : List Nat)
    (h : (parsePayload c version s buffer).2.2 = false) :
    parsePayload c version s buffer = (s, buffer, false) := by
  unfold parsePayload at h ⊢
  dsimp only at h ⊢
  by_cases hshort : buffer.length < wrap32 (ntohlAt4 buffer + 8)
  · simp [hshort]
  · simp [hshort] at h

/-- An input of at most 8 bytes, or one that starts with a magic and is shorter
than the frame its length field announces, is left as it is, with the stream
unchanged and the result false, as long as `len + 8` fits 32 bits. -/
theorem parsePacket_partial_frame_unchanged (c : Codec) (s : Stream) (buffer : List Nat)
    (h : buffer.length ≤ 8
      ∨ ((hasMagic buffer Magic_Header = true ∨ hasMagic buffer Magic_Packet = true
            ∨ hasMagic buffer Magic_Packet2 = true)
          ∧ ntohlAt4 buffer + 8 < 2 ^ 32 ∧ buffer.length < ntohlAt4 buffer + 8)) :
    parsePacket c s buffer = (s, buffer, false) := by
  rcases h with h | ⟨hm, hfit, hshort⟩
  · unfold parsePacket
    rw [if_neg (by omega)]
  · have hw : wrap32 (ntohlAt4 buffer + 8) = ntohlAt4 buffer + 8 := Nat.mod_eq_of_lt hfit
    have hshort1 : buffer.length < wrap32 (ntohlAt4 buffer + 8) := by
      rw [hw]
      exact hshort
    have hpay : ∀ v, parsePayload c v s buffer = (s, buffer, false) := by
      intro v
      unfold parsePayload
      simp [hshort1]
    unfold parsePacket
    by_cases hlen : buffer.length > 8
    · rw [if_pos hlen]
      dsimp only
      by_cases hH : hasMagic buffer Magic_Header = true
      · have hph : ∀ v, parseHeader c v s buffer = (s, buffer, false) := by
          intro v
          unfold parseHeader
          simp [hH, hshort1]
        simp [hph]
      · have hph : ∀ v, parseHeader c v s buffer = (s, buffer, true) := by
          intro v
          unfold parseHeader
          simp [hH]
        simp only [hph, Bool.not_true, Bool.false_eq_true, if_false]
        rcases hm with hm | hm | hm
        · exact absurd hm hH
        · by_cases h2 : hasMagic buffer Magic_Packet2 = true
          · simp [h2, hpay]
          · simp [h2, hm, hpay]
        · simp [hm, hpay]
    · rw [if_neg hlen]

theorem growBuffer_buffercount (s : Stream) :
    (growBuffer s).buffercount = s.buffercount
      ∨ (growBuffer s).buffercount = wrap32 (s.buffercount + 1) := by
  unfold growBuffer
  split
  · exact Or.inr rfl
  · exact Or.inl rfl

theorem pushKeyframe_buffercount (s : Stream) : (pushKeyframe s).buffercount = s.buffercount := by
  unfold pushKeyframe
  dsimp only
  split_ifs <;> rfl

theorem advanceRings_buffercount (s : Stream) :
    (advanceRings s).buffercount = s.buffercount
      ∨ (advanceRings s).buffercount = wrap32 (s.buffercount + 1) := by
  unfold advanceRings
  dsimp only
  rcases growBuffer_buffercount (pushKeyframe
    { s with rings := s.rings.map (advanceRing s.buffers.length),
             keyframes := advanceKeyframes s.buffers.length s.keyframes }) with h | h
  · rw [pushKeyframe_buffercount] at h
    exact Or.inl h
  · rw [pushKeyframe_buffercount] at h
    exact Or.inr h

theorem parseHeader_buffers (c : Codec) (version : Nat) (s : Stream) (buffer : List Nat) :
    (parseHeader c version s buffer).1.buffers = s.buffers
      ∧ (parseHeader c version s buffer).1.buffercount = s.buffercount
      ∧ (parseHeader c version s buffer).1.rings = s.rings := by
  unfold parseHeader
  dsimp only
  split_ifs <;> exact ⟨rfl, rfl, rfl⟩

theorem parsePayload_buffers_le (c : Codec) (version : Nat) (s : Stream) (buffer : List Nat)
    (hinv : s.buffers.length ≤ s.buffercount) (hfit : s.buffercount + 1 < 2 ^ 32) :
    (parsePayload c version s buffer).1.buffers.length
      ≤ (parsePayload c version s buffer).1.buffercount := by
  unfold parsePayload
  dsimp only
  by_cases hshort : buffer.length < wrap32 (ntohlAt4 buffer + 8)
  · simp only [hshort, if_true]
    exact hinv
  · simp only [hshort, if_false]
    obtain ⟨d1, _, d3⟩ := decodeV2_frame c s buffer
    have key : ∀ s3 : Stream, s3.buffers.length ≤ s3.buffercount → s3.buffercount = s.buffercount →
        (advanceRings s3).buffers.length ≤ (advanceRings s3).buffercount := by
      intro s3 h3 hbc
      rw [advanceRings_buffers_length]
      rcases advanceRings_buffercount s3 with h | h
      · rw [h]
        exact h3
      · rw [h, hbc]
        unfold wrap32
        rw [Nat.mod_eq_of_lt hfit]
        omega
    apply key
    · dsimp only
      unfold evictBuffers
      rw [List.length_take]
      exact Nat.min_le_left _ _
    · dsimp only
      split_ifs
      all_goals first
        | exact d3
        | rfl

/-- The bound `buffers.size() <= buffercount` is kept by `parsePacket` as long
as the increment of `buffercount` does not wrap. -/
theorem parsePacket_buffers_le_buffercount (c : Codec) (s : Stream) (buffer : List Nat)
    (hinv : s.buffers.length ≤ s.buffercount) (hfit : s.buffercount + 1 < 2 ^ 32) :
    (parsePacket c s buffer).1.buffers.length ≤ (parsePacket c s buffer).1.buffercount := by
  unfold parsePacket
  by_cases hlen : buffer.length > 8
  · rw [if_pos hlen]
    dsimp only
    generalize (if hasMagic buffer Magic_Packet2 = true then 2
      else if hasMagic buffer Magic_Packet = true then 1 else 0) = version
    obtain ⟨hb, hbc, _⟩ := parseHeader_buffers c version s buffer
    by_cases hgo : (!(parseHeader c version s buffer).2.2) = true
    · rw [if_pos hgo]
      dsimp only
      rw [hb, hbc]
      exact hinv
    · rw [if_neg hgo]
      by_cases hv : version ≠ 0
      · rw [if_pos hv]
        apply parsePayload_buffers_le
        · rw [hb, hbc]
          exact hinv
        · rw [hbc]
          exact hfit
      · rw [if_neg hv]
        dsimp only
        rw [hb, hbc]
        exact hinv
  · rw [if_neg hlen]
    exact hinv

theorem advanceRing_valid (size : Nat) (r : Ring) :
    (advanceRing size r).starved = true ∨ (advanceRing size r).b < size := by
  unfold advanceRing
  dsimp only
  split_ifs with h1 h2 h3
  · exact Or.inl rfl
  · right
    simp only [Bool.or_eq_true, decide_eq_true_eq, not_or] at h2
    dsimp only at h2 ⊢
    omega
  · exact Or.inl rfl
  · right
    simp only [Bool.or_eq_true, decide_eq_true_eq, not_or] at h3
    dsimp only at h3 ⊢
    omega

/-- After a `parsePacket` that returned true every given-out ring is starved
or points into `buffers`. -/
theorem parsePacket_true_rings_valid (c : Codec) (s : Stream) (buffer : List Nat)
    (hok : (parsePacket c s buffer).2.2 = true) :
    ∀ r ∈ (parsePacket c s buffer).1.rings,
      r.starved = true ∨ r.b < (parsePacket c s buffer).1.buffers.length := by
  obtain ⟨version, _, hpp⟩ := parsePacket_true c s buffer hok
  rw [hpp] at hok ⊢
  obtain ⟨front, s3, _, hb3, hr3, hbuf, hrings⟩ := parsePayload_true c version s buffer hok
  rw [hrings, hbuf, advanceRings_rings, advanceRings_buffers_length]
  intro r hr
  obtain ⟨r0, _, rfl⟩ := List.mem_map.1 hr
  exact advanceRing_valid _ r0

end DTSC

/-! ## Theorems, part 3: statistics lines, buffer growth and seeking in the stream -/

namespace Buffer

theorem sub32_of_le (a b : Nat) (ha : a < 2 ^ 32) (hb : b ≤ a) : sub32 a b = a - b := by
  unfold sub32
  omega

theorem sub32_of_lt (a b : Nat) (hb : b < 2 ^ 32) (hab : a < b) :
    sub32 a b = 2 ^ 32 - (b - a) := by
  unfold sub32
  omega

/-- When the connection time did not go back, an `S` line sets the rates to
the `unsigned int` differences of the counters divided by
`max(1, new.conntime - old.conntime)`, and stores the new line. -/
theorem handleStats_forward (u : userStats) (tmpStats : Stats)
    (hnew : tmpStats.conntime < 2 ^ 32) (hle : u.lastStats.conntime ≤ tmpStats.conntime) :
    statsSecs tmpStats u.lastStats = max 1 (tmpStats.conntime - u.lastStats.conntime)
      ∧ (handleStats u tmpStats).curr_up
          = sub32 tmpStats.up u.lastStats.up / max 1 (tmpStats.conntime - u.lastStats.conntime)
      ∧ (handleStats u tmpStats).curr_down
          = sub32 tmpStats.down u.lastStats.down
              / max 1 (tmpStats.conntime - u.lastStats.conntime)
      ∧ (handleStats u tmpStats).lastStats = tmpStats := by
  have hs : statsSecs tmpStats u.lastStats = max 1 (tmpStats.conntime - u.lastStats.conntime) := by
    unfold statsSecs
    dsimp only
    rw [sub32_of_le _ _ hnew hle]
    split <;> omega
  refine ⟨hs, ?_, ?_, rfl⟩
  · unfold handleStats
    dsimp only
    rw [hs]
  · unfold handleStats
    dsimp only
    rw [hs]

/-- When the connection time went back, `secs` is the wrapped difference
`2^32 - (old.conntime - new.conntime)`, not 1. -/
theorem statsSecs_backward (tmpStats lastStats : Stats) (hold : lastStats.conntime < 2 ^ 32)
    (hlt : tmpStats.conntime < lastStats.conntime) :
    statsSecs tmpStats lastStats = 2 ^ 32 - (lastStats.conntime - tmpStats.conntime) := by
  unfold statsSecs
  dsimp only
  rw [sub32_of_lt _ _ hold hlt]
  split <;> omega

/-- C20, at the failing input: the last stats line had `conntime = 10`,
`up = 100000`, `down = 50000`; the new one has `conntime = 5`, `up = 150000`,
`down = 75000`. The `unsigned int` difference of the connection times wraps
to 4294967291, which the test `secs < 1` does not change, so both rates are
0; with `seconds = 1`, as the claim has it, they would be 50000 and 25000. On
the claim's own example (10 to 15 seconds) the rates are 10000 and 5000. -/
theorem handleStats_conntime_backward_wraps :
    statsSecs ⟨150000, 75000, "edge1", "rtmp", 5⟩ ⟨100000, 50000, "edge1", "rtmp", 10⟩
        = 4294967291
      ∧ handleStats ⟨⟨100000, 50000, "edge1", "rtmp", 10⟩, 0, 0⟩
          ⟨150000, 75000, "edge1", "rtmp", 5⟩
        = ⟨⟨150000, 75000, "edge1", "rtmp", 5⟩, 0, 0⟩
      ∧ handleStats ⟨⟨100000, 50000, "edge1", "rtmp", 10⟩, 0, 0⟩
          ⟨150000, 75000, "edge1", "rtmp", 15⟩
        = ⟨⟨150000, 75000, "edge1", "rtmp", 15⟩, 10000, 5000⟩ := by
  decide

end Buffer

namespace DTSC

/-! ### Growth of the buffer count -/

theorem growBuffer_keyframes (s : Stream) : (growBuffer s).keyframes = s.keyframes := by
  unfold growBuffer
  split <;> rfl

theorem growBuffer_buffertime (s : Stream) : (growBuffer s).buffertime = s.buffertime := by
  unfold growBuffer
  split <;> rfl

theorem timeBuffered_congr (a b : Stream) (hk : a.keyframes = b.keyframes)
    (hb : a.buffers = b.buffers) : timeBuffered a = timeBuffered b := by
  unfold timeBuffered
  rw [hk, hb]

theorem growBuffer_step (s : Stream) :
    (growBuffer s).buffercount
      = if 1 < s.buffercount
            ∧ ((growBuffer s).keyframes.length < 2
              ∨ timeBuffered (growBuffer s) < (growBuffer s).buffertime)
        then wrap32 (s.buffercount + 1) else s.buffercount := by
  rw [growBuffer_keyframes, growBuffer_buffertime,
    timeBuffered_congr (growBuffer s) s (growBuffer_keyframes s) (growBuffer_buffers s)]
  unfold growBuffer
  by_cases h : 1 < s.buffercount ∧ (s.keyframes.length < 2 ∨ timeBuffered s < s.buffertime)
  · rw [if_pos h, if_pos (by simpa using h)]
  · rw [if_neg h, if_neg (by simpa using h)]

theorem pushKeyframe_buffertime (s : Stream) : (pushKeyframe s).buffertime = s.buffertime := by
  unfold pushKeyframe
  dsimp only
  split_ifs <;> rfl

/-- The stream after a payload frame was parsed is what `growBuffer` leaves
(with `syncing` cleared) for a stream with the old `buffercount`. -/
theorem parsePayload_true_growBuffer (c : Codec) (version : Nat) (s : Stream) (buffer : List Nat)
    (h : (parsePayload c version s buffer).2.2 = true) :
    ∃ x : Stream, x.buffercount = s.buffercount
      ∧ (parsePayload c version s buffer).1 = { growBuffer x with syncing := false } := by
  unfold parsePayload at h ⊢
  dsimp only at h ⊢
  by_cases hshort : buffer.length < wrap32 (ntohlAt4 buffer + 8)
  · simp [hshort] at h
  · simp only [hshort, if_false]
    obtain ⟨_, _, d3⟩ := decodeV2_frame c s buffer
    refine ⟨_, ?_, rfl⟩
    rw [pushKeyframe_buffercount]
    dsimp only
    split_ifs
    all_goals first
      | exact d3
      | rfl

/-- One enqueue changes `buffercount` by the test of lines 331-333, evaluated
on the stream as the enqueue leaves it: it becomes `buffercount + 1` (as an
`unsigned int`) when it was above 1 and fewer than two keyframes are held or
`timeBuffered` is below `buffertime`, and is unchanged otherwise. -/
theorem parsePacket_buffercount_step (c : Codec) (s : Stream) (buffer : List Nat)
    (hok : (parsePacket c s buffer).2.2 = true) :
    (parsePacket c s buffer).1.buffercount
      = if 1 < s.buffercount
            ∧ ((parsePacket c s buffer).1.keyframes.length < 2
              ∨ timeBuffered (parsePacket c s buffer).1 < (parsePacket c s buffer).1.buffertime)
        then wrap32 (s.buffercount + 1) else s.buffercount := by
  obtain ⟨version, _, hpp⟩ := parsePacket_true c s buffer hok
  rw [hpp] at hok ⊢
  obtain ⟨x, hx, hres⟩ := parsePayload_true_growBuffer c version s buffer hok
  rw [hres]
  have e1 : timeBuffered { growBuffer x with syncing := false } = timeBuffered (growBuffer x) :=
    timeBuffered_congr _ _ rfl rfl
  rw [e1]
  show (growBuffer x).buffercount = if 1 < s.buffercount
      ∧ ((growBuffer x).keyframes.length < 2
        ∨ timeBuffered (growBuffer x) < (growBuffer x).buffertime) then _ else _
  rw [growBuffer_step, hx]

set_option maxRecDepth 100000 in
set_option maxHeartbeats 4000000 in
/-- The steady state of the same stream: from the fifth packet to the
hundredth, `bufferCount` is 7 before each enqueue and at least 5000 ms are
buffered after it. -/
theorem bufferCount_stays_at_seven (n : Nat) (h1 : 5 ≤ n) (h2 : n ≤ 100) :
    (feedSeconds (Stream.new2 2 5000) (List.range n)).buffercount = 7
      ∧ 5000 ≤ timeBuffered (feedSeconds (Stream.new2 2 5000) (List.range (n + 1))) := by
  revert n
  decide

/-- C11: a stream constructed with `bufferCount = 2` and `bufferTime = 5000`
parses twelve video keyframe packets with times 0, 1000, ..., 11000. Each
enqueue raises `bufferCount` by one exactly when, with the new packet in,
fewer than two keyframes are held or the newest keyframe's time minus the
oldest keyframe's time is below 5000, and by zero otherwise. The count goes
3, 4, 5, 6, 7 and then stays 7 for packets 6 to 12; after the twelfth packet
seven keyframes are held and `timeBuffered = 6000`. -/
theorem bufferCount_grows_until_bufferTime_is_held :
    (∀ n, n < 12 →
      (feedSeconds (Stream.new2 2 5000) (List.range (n + 1))).buffercount
        = (feedSeconds (Stream.new2 2 5000) (List.range n)).buffercount
          + (if (feedSeconds (Stream.new2 2 5000) (List.range (n + 1))).keyframes.length < 2
                ∨ keyTime (feedSeconds (Stream.new2 2 5000) (List.range (n + 1)))
                      ((feedSeconds (Stream.new2 2 5000)
                        (List.range (n + 1))).keyframes.getD 0 (Ring.mk0 0))
                    - keyTime (feedSeconds (Stream.new2 2 5000) (List.range (n + 1)))
                      ((feedSeconds (Stream.new2 2 5000) (List.range (n + 1))).keyframes.getD
                        ((feedSeconds (Stream.new2 2 5000)
                          (List.range (n + 1))).keyframes.length - 1) (Ring.mk0 0))
                  < 5000
              then 1 else 0))
      ∧ (List.range 12).map
          (fun n => (feedSeconds (Stream.new2 2 5000) (List.range (n + 1))).buffercount)
          = [3, 4, 5, 6, 7, 7, 7, 7, 7, 7, 7, 7]
      ∧ (feedSeconds (Stream.new2 2 5000) (List.range 12)).keyframes.length = 7
      ∧ timeBuffered (feedSeconds (Stream.new2 2 5000) (List.range 12)) = 6000
      ∧ (feedSeconds (Stream.new2 2 5000) (List.range 12)).buffers.length = 7 := by
  refine ⟨by decide, by decide, by decide, by decide, by decide⟩

/-! ### `canSeekms`, `canSeekFrame`, `msSeek` -/

/-- C12: for a non-empty `keytime` array whose first entry is at most its
last, `canSeekms(ms)` is -1 for `ms` below the first entry, +1 for `ms` above
the last, and 0 otherwise, the two boundary values included; `canSeekFrame`
is the same over `keynum`. -/
theorem canSeek_three_way (s : Stream) (ms : Nat) :
    (0 < (s.metadata.get "keytime").size →
      ((s.metadata.get "keytime").idx 0).asInt
        ≤ ((s.metadata.get "keytime").idx ((s.metadata.get "keytime").size - 1)).asInt →
      canSeekms s ms
        = if (ms : Int) < ((s.metadata.get "keytime").idx 0).asInt then -1
          else if (ms : Int)
              > ((s.metadata.get "keytime").idx ((s.metadata.get "keytime").size - 1)).asInt
            then 1
          else 0)
    ∧ (0 < (s.metadata.get "keynum").size →
      ((s.metadata.get "keynum").idx 0).asInt
        ≤ ((s.metadata.get "keynum").idx ((s.metadata.get "keynum").size - 1)).asInt →
      canSeekFrame s ms
        = if (ms : Int) < ((s.metadata.get "keynum").idx 0).asInt then -1
          else if (ms : Int)
              > ((s.metadata.get "keynum").idx ((s.metadata.get "keynum").size - 1)).asInt
            then 1
          else 0) := by
  constructor
  · intro hsize hle
    unfold canSeekms
    dsimp only
    rw [if_neg (by omega)]
    split_ifs <;> first | rfl | omega
  · intro hsize hle
    unfold canSeekFrame
    dsimp only
    rw [if_neg (by omega)]
    split_ifs <;> first | rfl | omega

/-- Witness for C12: the keys at 1000, 2000 and 3000 ms, numbered 1 to 3. -/
theorem canSeek_three_way_witness :
    canSeekms exampleSeekStream 500 = -1 ∧ canSeekms exampleSeekStream 1000 = 0
      ∧ canSeekms exampleSeekStream 3000 = 0 ∧ canSeekms exampleSeekStream 3001 = 1
      ∧ canSeekFrame exampleSeekStream 0 = -1 ∧ canSeekFrame exampleSeekStream 4 = 1 :=
  ⟨(canSeek_three_way exampleSeekStream 500).1 (by decide) (by decide),
    (canSeek_three_way exampleSeekStream 1000).1 (by decide) (by decide),
    (canSeek_three_way exampleSeekStream 3000).1 (by decide) (by decide),
    (canSeek_three_way exampleSeekStream 3001).1 (by decide) (by decide),
    (canSeek_three_way exampleSeekStream 0).2 (by decide) (by decide),
    (canSeek_three_way exampleSeekStream 4).2 (by decide) (by decide)⟩

theorem find?_first {α : Type} (p : α → Bool) :
    ∀ (l : List α) (i : Nat) (x : α), l[i]? = some x → p x = true →
      (∀ j y, j < i → l[j]? = some y → p y = false) → l.find? p = some x := by
  intro l
  induction l with
  | nil =>
    intro i x h
    simp at h
  | cons a as ih =>
    intro i x h hp hmin
    cases i with
    | zero =>
      simp only [List.getElem?_cons_zero, Option.some.injEq] at h
      subst h
      simp [List.find?, hp]
    | succ i1 =>
      have ha : p a = false := hmin 0 a (by omega) (by simp)
      simp only [List.find?, ha]
      apply ih i1 x (by simpa using h) hp
      intro j y hj hy
      exact hmin (j + 1) y (by omega) (by simpa using hy)

/-- C13: with a non-empty `keyframes` deque, `msSeek(ms)` is the `b` of the
front-most keyframe whose packet time is at most `ms` when there is one, and
the `b` of the last (oldest) keyframe when there is none; in both cases it is
the `b` of an element of `keyframes`. -/
theorem msSeek_newest_keyframe_not_after (s : Stream) (ms : Nat) (hne : s.keyframes ≠ []) :
    (∀ (i : Nat) (r : Ring), s.keyframes[i]? = some r → keyTime s r ≤ (ms : Int) →
        (∀ j q, j < i → s.keyframes[j]? = some q → ¬ keyTime s q ≤ (ms : Int)) →
        msSeek s ms = r.b)
      ∧ ((∀ q, q ∈ s.keyframes → ¬ keyTime s q ≤ (ms : Int)) →
          ∃ r, s.keyframes.getLast? = some r ∧ msSeek s ms = r.b)
      ∧ ∃ r, r ∈ s.keyframes ∧ msSeek s ms = r.b := by
  obtain ⟨k0, ks, hks⟩ : ∃ k0 ks, s.keyframes = k0 :: ks := by
    cases h : s.keyframes with
    | nil => exact absurd h hne
    | cons a as => exact ⟨a, as, rfl⟩
  have h0 : s.keyframes.getD 0 (Ring.mk0 0) = k0 := by rw [hks]; rfl
  have hlast : ∃ r, s.keyframes.getLast? = some r
      ∧ s.keyframes.getD (s.keyframes.length - 1) (Ring.mk0 0) = r ∧ r ∈ s.keyframes := by
    refine ⟨s.keyframes.getLast hne, List.getLast?_eq_getLast _ hne, ?_, List.getLast_mem hne⟩
    rw [List.getLast_eq_getElem, List.getD_eq_getElem?_getD,
      List.getElem?_eq_getElem (by rw [hks]; simp)]
    rfl
  refine ⟨?_, ?_, ?_⟩
  · intro i r hi hle hmin
    unfold msSeek
    rw [h0]
    by_cases hpast : (ms : Int) > keyTime s k0
    · rw [if_pos hpast]
      have hi0 : i = 0 := by
        by_contra hne0
        exact hmin 0 k0 (by omega) (by rw [hks]; simp) (by omega)
      subst hi0
      rw [hks] at hi
      simp only [List.getElem?_cons_zero, Option.some.injEq] at hi
      rw [hi]
    · rw [if_neg hpast]
      have := find?_first (fun q => decide (keyTime s q ≤ (ms : Int))) s.keyframes i r hi
        (by simpa using hle) (by
          intro j y hj hy
          simpa using hmin j y hj hy)
      rw [this]
  · intro hnone
    obtain ⟨r, hr1, hr2, _⟩ := hlast
    refine ⟨r, hr1, ?_⟩
    unfold msSeek
    rw [h0]
    have hk0 : ¬ keyTime s k0 ≤ (ms : Int) := hnone k0 (by rw [hks]; simp)
    rw [if_neg (by omega)]
    have hf : s.keyframes.find? (fun q => decide (keyTime s q ≤ (ms : Int))) = none := by
      rw [List.find?_eq_none]
      intro q hq
      simpa using hnone q hq
    rw [hf, hr2]
  · unfold msSeek
    rw [h0]
    split_ifs
    · exact ⟨k0, by rw [hks]; simp, rfl⟩
    · cases hf : s.keyframes.find? (fun q => decide (keyTime s q ≤ (ms : Int))) with
      | some r => exact ⟨r, List.mem_of_find?_eq_some hf, rfl⟩
      | none =>
        obtain ⟨r, _, hr2, hr3⟩ := hlast
        exact ⟨r, hr3, by rw [hr2]⟩

/-- Witness for C13: three keyframes held, at 2000, 1000 and 0 ms. -/
theorem msSeek_newest_keyframe_not_after_witness :
    msSeek (feedSeconds (Stream.new2 4 0) [0, 1, 2]) 1500 = 1
      ∧ ∃ r, r ∈ (feedSeconds (Stream.new2 4 0) [0, 1, 2]).keyframes
          ∧ msSeek (feedSeconds (Stream.new2 4 0) [0, 1, 2]) 1500 = r.b :=
  ⟨(msSeek_newest_keyframe_not_after (feedSeconds (Stream.new2 4 0) [0, 1, 2]) 1500
      (by decide)).1 1 (Ring.mk0 1) (by decide) (by decide)
      (by
        intro j q hj hq
        obtain rfl : j = 0 := by omega
        have h0 : (feedSeconds (Stream.new2 4 0) [0, 1, 2]).keyframes[0]? = some (Ring.mk0 0) := by
          decide
        rw [h0] at hq
        injection hq with hq
        subst hq
        decide),
    (msSeek_newest_keyframe_not_after (feedSeconds (Stream.new2 4 0) [0, 1, 2]) 1500
      (by decide)).2.2⟩

end DTSC

/-! ## Theorems, part 4: the DTSC file -/

namespace DTSC

/-! ### Writing into the byte array -/

theorem writeAt_length (F : List Nat) (p : Nat) (bs : List Nat) :
    (writeAt F p bs).length = max F.length (p + bs.length) := by
  unfold writeAt
  simp only [List.length_append, List.length_take, List.length_replicate, List.length_drop]
  omega

theorem writeAt_prefix_length (F : List Nat) (p : Nat) :
    (F.take p ++ List.replicate (p - F.length) 0).length = p := by
  simp only [List.length_append, List.length_take, List.length_replicate]
  omega

theorem writeAt_getElem?_lt (F : List Nat) (p : Nat) (bs : List Nat) (i : Nat) (hi : i < p)
    (hF : i < F.length) : (writeAt F p bs)[i]? = F[i]? := by
  unfold writeAt
  rw [List.append_assoc, List.append_assoc,
    List.getElem?_append_left (by simp only [List.length_take]; omega),
    List.getElem?_take_of_lt hi]

theorem writeAt_drop_ge (F : List Nat) (p : Nat) (bs : List Nat) (k : Nat)
    (hk : p + bs.length ≤ k) : (writeAt F p bs).drop k = F.drop k := by
  unfold writeAt
  have hlen : (F.take p ++ List.replicate (p - F.length) 0 ++ bs).length = p + bs.length := by
    rw [List.length_append, writeAt_prefix_length]
  rw [List.drop_append_eq_append_drop, hlen,
    List.drop_of_length_le (by rw [hlen]; exact hk), List.nil_append, List.drop_drop]
  congr 1
  omega

theorem writeAt_getElem?_ge (F : List Nat) (p : Nat) (bs : List Nat) (i : Nat)
    (hi : p + bs.length ≤ i) : (writeAt F p bs)[i]? = F[i]? := by
  have h := writeAt_drop_ge F p bs i hi
  have e1 : (writeAt F p bs)[i]? = ((writeAt F p bs).drop i)[0]? := by simp
  have e2 : F[i]? = (F.drop i)[0]? := by simp
  rw [e1, e2, h]

theorem writeAt_drop_at (F : List Nat) (p : Nat) (bs : List Nat) :
    (writeAt F p bs).drop p = bs ++ F.drop (p + bs.length) := by
  unfold writeAt
  rw [List.append_assoc, List.drop_append_eq_append_drop, writeAt_prefix_length,
    List.drop_of_length_le (by rw [writeAt_prefix_length]), List.nil_append, Nat.sub_self,
    List.drop_zero]

theorem writeAt_take (F : List Nat) (p : Nat) (bs : List Nat) (hp : p ≤ F.length) :
    (writeAt F p bs).take p = F.take p := by
  unfold writeAt
  rw [show p - F.length = 0 by omega, List.replicate_zero, List.append_nil, List.append_assoc,
    List.take_append_of_le_length (by simp only [List.length_take]; omega), List.take_take,
    Nat.min_self]

theorem writeAt_end (F bs : List Nat) : writeAt F F.length bs = F ++ bs := by
  unfold writeAt
  rw [List.take_length, Nat.sub_self, List.replicate_zero, List.append_nil,
    List.drop_of_length_le (by omega), List.append_nil]

theorem be32_length (n : Nat) : (be32 n).length = 4 := rfl

theorem ntohlAt_be32 (n : Nat) (rest : List Nat) (h : n < 2 ^ 32) :
    ntohlAt (be32 n ++ rest) 0 = n := by
  simp only [ntohlAt, be32, List.cons_append, List.nil_append, Nat.zero_add,
    List.getD_cons_succ, List.getD_cons_zero]
  omega

/-! ### `writeHeader` and `addHeader` -/

theorem fwrite_nonempty (f : File) (bs : List Nat) (h : bs ≠ []) :
    fwrite f bs = ({ f with F := writeAt f.F f.pos bs, pos := f.pos + bs.length }, 1) := by
  unfold fwrite
  rw [if_neg (by simpa using h)]

theorem be32_ne_nil (n : Nat) : be32 n ≠ [] := by
  simp [be32]

theorem addHeader_F (f : File) (header : List Nat) :
    (addHeader f header).1.F = f.F ++ Magic_Header ++ be32 header.length ++ header
      ∧ (addHeader f header).1.headerSize = f.headerSize := by
  unfold addHeader
  dsimp only
  rw [fwrite_nonempty (fseekEnd f) Magic_Header (by decide)]
  dsimp only
  rw [if_neg (by simp)]
  rw [fwrite_nonempty _ (be32 header.length) (be32_ne_nil _)]
  dsimp only
  rw [if_neg (by simp)]
  have e1 : writeAt (fseekEnd f).F (fseekEnd f).pos Magic_Header = f.F ++ Magic_Header :=
    writeAt_end f.F Magic_Header
  have e2 : (fseekEnd f).pos + Magic_Header.length = (f.F ++ Magic_Header).length := by
    simp [fseekEnd]
  rw [e1, e2, writeAt_end]
  by_cases hh : header = []
  · subst hh
    simp [fwrite, fseekEnd]
  · rw [fwrite_nonempty _ header hh]
    dsimp only
    rw [if_neg (by simp)]
    dsimp only
    have e3 : (f.F ++ Magic_Header).length + (be32 header.length).length
        = (f.F ++ Magic_Header ++ be32 header.length).length := by
      simp only [List.length_append]
    rw [e3, writeAt_end]
    exact ⟨rfl, rfl⟩

/-- For a non-empty header `addHeader` returns the length the file had. -/
theorem addHeader_nonempty (f : File) (header : List Nat) (hh : header ≠ []) :
    (addHeader f header).2 = (f.F.length : Int) := by
  unfold addHeader
  dsimp only
  rw [fwrite_nonempty (fseekEnd f) Magic_Header (by decide)]
  dsimp only
  rw [if_neg (by simp)]
  rw [fwrite_nonempty _ (be32 header.length) (be32_ne_nil _)]
  dsimp only
  rw [if_neg (by simp)]
  rw [fwrite_nonempty _ header hh]
  dsimp only
  rw [if_neg (by simp)]
  rfl

/-- C17, at the failing input: on a newly created file (8 bytes) `addHeader`
of an empty header appends the 8-byte frame `"DTSC" 00 00 00 00` and returns
0, the failure value, instead of the offset 8 the frame was written at. -/
theorem addHeader_empty_header_returns_zero :
    (openFile [] true 0).F.length = 8
      ∧ (addHeader (openFile [] true 0) []).2 = 0
      ∧ (addHeader (openFile [] true 0) []).1.F
          = (openFile [] true 0).F ++ Magic_Header ++ be32 0 := by
  decide

theorem writeHeader_guard (f : File) (header : List Nat) (h : f.headerSize ≠ header.length) :
    writeHeader f header false = (f, false) := by
  unfold writeHeader
  rw [if_pos (by simpa using h)]

/-- For a non-empty header that passes the guard, `writeHeader` returns true,
sets `headerSize`, and writes the size at offset 4 and the header at offset 8. -/
theorem writeHeader_nonempty (f : File) (header : List Nat) (force : Bool) (hh : header ≠ [])
    (hg : f.headerSize = header.length ∨ force = true) :
    (writeHeader f header force).2 = true
      ∧ (writeHeader f header force).1.headerSize = header.length
      ∧ (writeHeader f header force).1.F
          = writeAt (writeAt f.F 4 (be32 header.length)) 8 header := by
  unfold writeHeader
  rw [if_neg (by
    rcases hg with hg | hg
    · simp [hg]
    · simp [hg])]
  dsimp only
  rw [fwrite_nonempty _ (be32 header.length) (be32_ne_nil _)]
  dsimp only
  rw [if_neg (by simp)]
  rw [fwrite_nonempty _ header hh]
  exact ⟨by simp, rfl, rfl⟩

theorem writeHeader_bytes (F header : List Nat) :
    ((writeAt (writeAt F 4 (be32 header.length)) 8 header).drop 4).take 4 = be32 header.length
      ∧ ((writeAt (writeAt F 4 (be32 header.length)) 8 header).drop 8).take header.length = header
      ∧ (∀ i, i < 4 ∨ 8 + header.length ≤ i → i < F.length →
          (writeAt (writeAt F 4 (be32 header.length)) 8 header)[i]? = F[i]?)
      ∧ (writeAt (writeAt F 4 (be32 header.length)) 8 header).length
          = max F.length (8 + header.length) := by
  have hl1 : (writeAt F 4 (be32 header.length)).length = max F.length 8 := by
    rw [writeAt_length, be32_length]
  refine ⟨?_, ?_, ?_, ?_⟩
  · have h1 : (writeAt (writeAt F 4 (be32 header.length)) 8 header).take 8
        = (writeAt F 4 (be32 header.length)).take 8 :=
      writeAt_take _ 8 header (by rw [hl1]; omega)
    have h2 : ((writeAt (writeAt F 4 (be32 header.length)) 8 header).drop 4).take 4
        = ((writeAt (writeAt F 4 (be32 header.length)) 8 header).take 8).drop 4 := by
      rw [List.drop_take]
    rw [h2, h1, List.drop_take, writeAt_drop_at]
    show List.take 4 (be32 header.length ++ _) = _
    rw [List.take_append_of_le_length (by simp [be32]), List.take_of_length_le (by simp [be32])]
  · rw [writeAt_drop_at, List.take_append_of_le_length (le_refl _), List.take_length]
  · intro i hi hF
    rcases hi with hi | hi
    · rw [writeAt_getElem?_lt _ 8 header i (by omega) (by rw [hl1]; omega),
        writeAt_getElem?_lt F 4 _ i hi hF]
    · rw [writeAt_getElem?_ge _ 8 header i hi,
        writeAt_getElem?_ge F 4 _ i (by rw [be32_length]; omega)]
  · rw [writeAt_length, hl1]
    omega

/-- C16, at the failing input: on a newly created file, whose `headerSize` is
0, `writeHeader` of an empty header passes the guard (equal sizes, or
`force`), writes the size 0 at offset 4, and returns false, because the
`fwrite` of a zero-size item returns 0. -/
theorem writeHeader_empty_header_returns_false :
    (openFile [] true 0).headerSize = 0
      ∧ (writeHeader (openFile [] true 0) [] false).2 = false
      ∧ (writeHeader (openFile [] true 0) [] true).2 = false
      ∧ (writeHeader (openFile [] true 0) [] true).1.F = Magic_Header ++ be32 0 := by
  decide

end DTSC

namespace DTSC

/-! ### Reading a header frame -/

theorem fread_at (f : File) (n : Nat) (body rest : List Nat) (hF : f.F.drop f.pos = body ++ rest)
    (hn : body.length = n) (hn0 : n ≠ 0) :
    fread f n = ({ f with pos := f.pos + n }, body, 1) := by
  unfold fread
  have hgot : (f.F.drop f.pos).take n = body := by
    rw [hF, ← hn, List.take_append_of_le_length (le_refl _), List.take_length]
  simp only [hgot, hn, ne_eq, hn0, not_false_eq_true, and_self, if_true]

theorem freadBuffer_at (f : File) (got rest : List Nat) (hF : f.F.drop f.pos = got ++ rest)
    (hg : got.length = 4) (hb : f.buffer.length = 4) :
    freadBuffer f = ({ f with pos := f.pos + 4, buffer := got }, 1) := by
  unfold freadBuffer
  rw [fread_at f 4 got rest hF hg (by decide)]
  dsimp only
  rw [hg, List.drop_of_length_le (by omega), List.append_nil]

theorem drop_add_of_drop_eq (F : List Nat) (p : Nat) (a b : List Nat) (h : F.drop p = a ++ b) :
    F.drop (p + a.length) = b := by
  rw [← List.drop_drop, h, List.drop_append_of_le_length (le_refl _), List.drop_length,
    List.nil_append]

/-- One header frame with a non-empty payload `body` at position `p`: the
payload is decoded into `metadata`, and into `firstmetadata` at position 0. -/
theorem readHeaderFrame_at (c : Codec) (f : File) (p n : Nat) (body rest : List Nat)
    (hF : f.F.drop p = Magic_Header ++ be32 n ++ body ++ rest) (hn : body.length = n)
    (hn0 : n ≠ 0) (hn32 : n < 2 ^ 32) (hb : f.buffer.length = 4) :
    readHeaderFrame c f (p : Int)
      = ({ f with pos := p + 4 + 4 + n, buffer := be32 n, strbuffer := body,
                  metadata := c.fromDTMI body,
                  firstmetadata := if (p : Int) = 0 then c.fromDTMI body else f.firstmetadata },
          true) := by
  have hseek : fseekSet f (p : Int) = { f with pos := p } := by
    unfold fseekSet
    rw [if_neg (by omega)]
    simp
  have h1 : freadBuffer { f with pos := p }
      = ({ f with pos := p + 4, buffer := Magic_Header }, 1) :=
    freadBuffer_at { f with pos := p } Magic_Header (be32 n ++ body ++ rest)
      (by simpa [List.append_assoc] using hF) rfl hb
  have hF2 : f.F.drop (p + 4) = be32 n ++ (body ++ rest) := by
    have := drop_add_of_drop_eq f.F p Magic_Header (be32 n ++ (body ++ rest))
      (by simpa [List.append_assoc] using hF)
    simpa using this
  have h2 : freadBuffer { f with pos := p + 4, buffer := Magic_Header }
      = ({ f with pos := p + 4 + 4, buffer := be32 n }, 1) :=
    freadBuffer_at { f with pos := p + 4, buffer := Magic_Header } (be32 n) (body ++ rest) hF2
      rfl rfl
  have hF3 : f.F.drop (p + 4 + 4) = body ++ rest := by
    have := drop_add_of_drop_eq f.F (p + 4) (be32 n) (body ++ rest) hF2
    simpa using this
  have hsize : ntohlAt (be32 n) 0 = n := by
    have := ntohlAt_be32 n [] hn32
    simpa using this
  have h3 : readHeaderBody c { f with pos := p + 4 + 4, buffer := be32 n }
      = ({ f with pos := p + 4 + 4 + n, buffer := be32 n, strbuffer := body,
                  metadata := c.fromDTMI body }, true) := by
    unfold readHeaderBody
    dsimp only
    rw [hsize, if_pos hn0]
    rw [fread_at { f with pos := p + 4 + 4, buffer := be32 n,
                          strbuffer := resize f.strbuffer n } n body rest hF3 hn hn0]
    rfl
  unfold readHeaderFrame
  dsimp only
  rw [hseek, h1]
  dsimp only
  rw [if_neg (by simp), if_neg (by simp), h2]
  dsimp only
  rw [if_neg (by simp), h3]
  dsimp only
  simp only [Bool.not_true, Bool.false_eq_true, if_false]
  by_cases hp0 : (p : Int) = 0
  · simp only [hp0, if_true]
  · simp only [hp0, if_false]

/-! ### Reopening a file -/

theorem fread_F (f : File) (n : Nat) : (fread f n).1.F = f.F := rfl

theorem freadBuffer_F (f : File) : (freadBuffer f).1.F = f.F := rfl

theorem fseekSet_F (f : File) (off : Int) : (fseekSet f off).F = f.F := by
  unfold fseekSet
  split <;> rfl

theorem readHeaderBody_F (c : Codec) (f : File) : (readHeaderBody c f).1.F = f.F := by
  unfold readHeaderBody
  dsimp only
  split_ifs <;> rfl

theorem headerFailed_F (f : File) : (headerFailed f).F = f.F := rfl

theorem readHeaderFrame_F (c : Codec) (f : File) (pos : Int) :
    (readHeaderFrame c f pos).1.F = f.F := by
  have e1 : (freadBuffer (fseekSet f pos)).1.F = f.F := by
    rw [freadBuffer_F, fseekSet_F]
  have e2 : (freadBuffer (freadBuffer (fseekSet f pos)).1).1.F = f.F := by
    rw [freadBuffer_F, e1]
  have e3 : (readHeaderBody c (freadBuffer (freadBuffer (fseekSet f pos)).1).1).1.F = f.F := by
    rw [readHeaderBody_F, e2]
  unfold readHeaderFrame
  dsimp only
  generalize freadBuffer (fseekSet f pos) = r1 at e1 e2 e3 ⊢
  generalize freadBuffer r1.1 = r2 at e2 e3 ⊢
  generalize readHeaderBody c r2.1 = b at e3 ⊢
  split_ifs
  · exact e1
  · exact e1
  · exact e2
  · exact e3
  · exact e3
  · exact e3

theorem readHeader_F (c : Codec) :
    ∀ (fuel : Nat) (f g : File) (pos : Int), readHeader c fuel f pos = some g → g.F = f.F := by
  intro fuel
  induction fuel with
  | zero =>
    intro f g pos h
    simp [readHeader] at h
  | succ fuel ih =>
    intro f g pos h
    rw [readHeader] at h
    dsimp only at h
    have e := readHeaderFrame_F c f pos
    by_cases c1 : (!(readHeaderFrame c f pos).2) = true
    · rw [if_pos c1] at h
      injection h with h
      rw [← h, e]
    · rw [if_neg c1] at h
      split at h
      · rw [ih _ _ _ h, e]
      · injection h with h
        rw [← h]
        exact e

theorem readHeader_frame (c : Codec) (fuel : Nat) (f : File) (p n : Nat) (body rest : List Nat)
    (hF : f.F.drop p = Magic_Header ++ be32 n ++ body ++ rest) (hn : body.length = n)
    (hn0 : n ≠ 0) (hn32 : n < 2 ^ 32) (hb : f.buffer.length = 4) :
    readHeader c (fuel + 1) f (p : Int)
      = if (c.fromDTMI body).isMember "moreheader"
            && decide (((c.fromDTMI body).get "moreheader").asInt > 0) then
          readHeader c fuel
            { f with pos := p + 4 + 4 + n, buffer := be32 n, strbuffer := body,
                     metadata := c.fromDTMI body,
                     firstmetadata := if (p : Int) = 0 then c.fromDTMI body else f.firstmetadata }
            (toI32 ((c.fromDTMI body).get "moreheader").asInt)
        else
          some { f with pos := p + 4 + 4 + n, buffer := be32 n, strbuffer := body,
                        metadata := (c.fromDTMI body).set "vod" (JSON.bool true),
                        firstmetadata :=
                          if (p : Int) = 0 then c.fromDTMI body else f.firstmetadata } := by
  rw [readHeader]
  dsimp only
  rw [readHeaderFrame_at c f p n body rest hF hn hn0 hn32 hb]
  rfl

/-- The file of which `disk` are the bytes, as the constructor hands it to
`readHeader(0)` in read mode, when `disk` starts with a header frame. -/
theorem readHeaderSize_frame (disk : List Nat) (endPos n : Nat) (tail : List Nat)
    (hd : disk = Magic_Header ++ be32 n ++ tail) (hn32 : n < 2 ^ 32) :
    readHeaderSize (openFile disk false endPos)
      = { File.blank disk endPos with pos := 8, buffer := be32 n, headerSize := n } := by
  have hopen : openFile disk false endPos = File.blank disk endPos := rfl
  have hseek : fseekSet (File.blank disk endPos) 4 = { File.blank disk endPos with pos := 4 } := rfl
  have hF : disk.drop 4 = be32 n ++ tail := by
    rw [hd]
    rfl
  have h1 : freadBuffer { File.blank disk endPos with pos := 4 }
      = ({ File.blank disk endPos with pos := 4 + 4, buffer := be32 n }, 1) :=
    freadBuffer_at { File.blank disk endPos with pos := 4 } (be32 n) tail hF rfl rfl
  have hsize : ntohlAt (be32 n) 0 = n := by
    have := ntohlAt_be32 n [] hn32
    simpa using this
  unfold readHeaderSize
  dsimp only
  rw [hopen, hseek, h1]
  dsimp only
  rw [if_neg (by simp), hsize]

/-- Reopening, in read mode, a file that starts with a header frame whose
non-empty payload `body` decodes to a tree without a positive `moreheader`. -/
theorem open_single_header (c : Codec) (fuel endPos : Nat) (disk body rest : List Nat)
    (hd : disk = Magic_Header ++ be32 body.length ++ body ++ rest) (hne : body ≠ [])
    (hlen : body.length < 2 ^ 32)
    (hmore : (c.fromDTMI body).isMember "moreheader" = true →
      ((c.fromDTMI body).get "moreheader").asInt ≤ 0) :
    ∃ g, File.open c (fuel + 1) disk false endPos = some g ∧ g.headerSize = body.length
      ∧ g.metadata = (c.fromDTMI body).set "vod" (JSON.bool true)
      ∧ g.firstmetadata = c.fromDTMI body := by
  have hsz := readHeaderSize_frame disk endPos body.length (body ++ rest)
    (by rw [hd, List.append_assoc]) hlen
  have hn0 : body.length ≠ 0 := fun h => hne (List.length_eq_zero.1 h)
  have hcond : ((c.fromDTMI body).isMember "moreheader"
      && decide (((c.fromDTMI body).get "moreheader").asInt > 0)) = false := by
    by_cases hm : (c.fromDTMI body).isMember "moreheader" = true
    · have := hmore hm
      simp only [hm, Bool.true_and, decide_eq_false_iff_not]
      omega
    · simp [hm]
  have hrh := readHeader_frame c fuel
    { File.blank disk endPos with pos := 8, buffer := be32 body.length,
                                  headerSize := body.length }
    0 body.length body rest (by simpa using hd) rfl hn0 hlen rfl
  rw [hcond] at hrh
  simp only [Bool.false_eq_true, if_false] at hrh
  unfold File.open
  rw [hsz]
  have h0 : ((0 : Nat) : Int) = 0 := rfl
  rw [h0] at hrh
  rw [hrh]
  exact ⟨_, rfl, rfl, rfl, rfl⟩

theorem writeHeader_file (F bytes : List Nat) (hmagic : F.take 4 = Magic_Header) :
    writeAt (writeAt F 4 (be32 bytes.length)) 8 bytes
      = Magic_Header ++ be32 bytes.length ++ bytes
          ++ (writeAt F 4 (be32 bytes.length)).drop (8 + bytes.length) := by
  have hF4 : 4 ≤ F.length := by
    by_contra hcon
    have : (F.take 4).length < 4 := by
      rw [List.length_take]
      omega
    rw [hmagic] at this
    exact absurd this (by decide)
  have hx : writeAt F 4 (be32 bytes.length)
      = Magic_Header ++ be32 bytes.length ++ F.drop 8 := by
    unfold writeAt
    rw [hmagic, show 4 - F.length = 0 by omega, List.replicate_zero, List.append_nil, be32_length]
  have hx8 : (writeAt F 4 (be32 bytes.length)).take 8 = Magic_Header ++ be32 bytes.length := by
    rw [hx, List.take_append_of_le_length (by simp [Magic_Header, be32]),
      List.take_of_length_le (by simp [Magic_Header, be32])]
  have hxl : 8 ≤ (writeAt F 4 (be32 bytes.length)).length := by
    rw [writeAt_length, be32_length]
    omega
  generalize writeAt F 4 (be32 bytes.length) = X at hx8 hxl ⊢
  unfold writeAt
  rw [hx8, show 8 - X.length = 0 by omega, List.replicate_zero, List.append_nil]

/-- C15: on a file that starts with the magic `"DTSC"`, `writeHeader(bytes,
force = true)` with non-empty `bytes` (shorter than 2^32) whose decoded tree
has no positive `moreheader`, followed by reopening the file in read mode,
yields `headerSize = bytes.size()`, `metadata` = the decoded tree with
`vod = true` set, and `firstmetadata` = the decoded tree. -/
theorem writeHeader_then_reopen (c : Codec) (fuel endPos : Nat) (f : File) (bytes : List Nat)
    (hmagic : f.F.take 4 = Magic_Header) (hne : bytes ≠ []) (hlen : bytes.length < 2 ^ 32)
    (hmore : (c.fromDTMI bytes).isMember "moreheader" = true →
      ((c.fromDTMI bytes).get "moreheader").asInt ≤ 0) :
    (writeHeader f bytes true).2 = true
      ∧ ∃ g, File.open c (fuel + 1) (writeHeader f bytes true).1.F false endPos = some g
          ∧ g.headerSize = bytes.length
          ∧ g.metadata = (c.fromDTMI bytes).set "vod" (JSON.bool true)
          ∧ g.firstmetadata = c.fromDTMI bytes := by
  obtain ⟨h1, _, h3⟩ := writeHeader_nonempty f bytes true hne (Or.inr rfl)
  refine ⟨h1, ?_⟩
  rw [h3]
  exact open_single_header c fuel endPos _ bytes _ (writeHeader_file f.F bytes hmagic) hne hlen
    hmore

/-- Witness for C15: a one-byte header written to a newly created file. -/
theorem writeHeader_then_reopen_witness :
    (writeHeader (openFile [] true 0) [1] true).2 = true
      ∧ ∃ g, File.open (constCodec exampleKeyPacket) 1
            (writeHeader (openFile [] true 0) [1] true).1.F false 0 = some g
          ∧ g.headerSize = [1].length
          ∧ g.metadata = exampleKeyPacket.set "vod" (JSON.bool true)
          ∧ g.firstmetadata = exampleKeyPacket :=
  writeHeader_then_reopen (constCodec exampleKeyPacket) 0 0 (openFile [] true 0) [1]
    (by decide) (by decide) (by decide) (fun h => absurd h (by decide))

theorem toI32_of_small (o : Nat) (h : o < 2 ^ 31) : toI32 (o : Int) = (o : Int) := by
  unfold toI32
  rw [Int.emod_eq_of_lt (by omega) (by omega)]
  omega

/-- Reopening, in read mode, a file whose first header frame names, in
`moreheader`, the offset `o` of a second header frame without a positive
`moreheader`: `firstmetadata` is the first tree, `metadata` the second with
`vod = true` set. -/
theorem open_chained_headers (c : Codec) (fuel endPos : Nat) (disk body1 rest1 body2 rest2 : List Nat)
    (o : Nat) (hd : disk = Magic_Header ++ be32 body1.length ++ body1 ++ rest1)
    (hdo : disk.drop o = Magic_Header ++ be32 body2.length ++ body2 ++ rest2)
    (hne1 : body1 ≠ []) (hne2 : body2 ≠ []) (hlen1 : body1.length < 2 ^ 32)
    (hlen2 : body2.length < 2 ^ 32) (ho0 : 0 < o) (ho : o < 2 ^ 31)
    (hm1 : (c.fromDTMI body1).isMember "moreheader" = true)
    (hv1 : ((c.fromDTMI body1).get "moreheader").asInt = (o : Int))
    (hmore2 : (c.fromDTMI body2).isMember "moreheader" = true →
      ((c.fromDTMI body2).get "moreheader").asInt ≤ 0) :
    ∃ g, File.open c (fuel + 2) disk false endPos = some g
      ∧ g.firstmetadata = c.fromDTMI body1
      ∧ g.metadata = (c.fromDTMI body2).set "vod" (JSON.bool true) := by
  have hsz := readHeaderSize_frame disk endPos body1.length (body1 ++ rest1)
    (by rw [hd, List.append_assoc]) hlen1
  have hn1 : body1.length ≠ 0 := fun h => hne1 (List.length_eq_zero.1 h)
  have hn2 : body2.length ≠ 0 := fun h => hne2 (List.length_eq_zero.1 h)
  have hcond1 : ((c.fromDTMI body1).isMember "moreheader"
      && decide (((c.fromDTMI body1).get "moreheader").asInt > 0)) = true := by
    simp only [hm1, Bool.true_and, decide_eq_true_eq, hv1]
    omega
  have hcond2 : ((c.fromDTMI body2).isMember "moreheader"
      && decide (((c.fromDTMI body2).get "moreheader").asInt > 0)) = false := by
    by_cases hm : (c.fromDTMI body2).isMember "moreheader" = true
    · have := hmore2 hm
      simp only [hm, Bool.true_and, decide_eq_false_iff_not]
      omega
    · simp [hm]
  have hrh1 := readHeader_frame c (fuel + 1)
    { File.blank disk endPos with pos := 8, buffer := be32 body1.length,
                                  headerSize := body1.length }
    0 body1.length body1 rest1 (by simpa using hd) rfl hn1 hlen1 rfl
  rw [hcond1, if_pos rfl, hv1, toI32_of_small o ho] at hrh1
  have hrh2 := readHeader_frame c fuel
    { File.blank disk endPos with
        pos := 0 + 4 + 4 + body1.length, buffer := be32 body1.length,
        headerSize := body1.length, strbuffer := body1, metadata := c.fromDTMI body1,
        firstmetadata := if ((0 : Nat) : Int) = 0 then c.fromDTMI body1
          else (File.blank disk endPos).firstmetadata }
    o body2.length body2 rest2 hdo rfl hn2 hlen2 rfl
  rw [hcond2] at hrh2
  simp only [Bool.false_eq_true, if_false] at hrh2
  have hrh : readHeader c (fuel + 1 + 1)
      { File.blank disk endPos with pos := 8, buffer := be32 body1.length,
                                    headerSize := body1.length } ((0 : Nat) : Int) = _ :=
    hrh1.trans hrh2
  unfold File.open
  rw [hsz]
  have h0 : ((0 : Nat) : Int) = 0 := rfl
  rw [h0] at hrh
  rw [hrh]
  refine ⟨_, rfl, ?_, rfl⟩
  dsimp only
  rw [if_neg (by omega)]
  rfl

/-! ### The chained header scenario -/

theorem open_create_F (c : Codec) (fuel0 e0 : Nat) (f0 : File)
    (h : File.open c fuel0 [] true e0 = some f0) : f0.F = Magic_Header ++ be32 0 := by
  unfold File.open at h
  cases hr : readHeader c fuel0 (readHeaderSize (openFile [] true e0)) 0 with
  | none =>
    rw [hr] at h
    exact absurd h (by simp)
  | some g =>
    rw [hr] at h
    injection h with h
    have hg := readHeader_F c fuel0 _ g 0 hr
    rw [← h]
    show (fseekSet _ _).F = _
    rw [fseekSet_F]
    show g.F = _
    rw [hg]
    rfl

/-- C14, as amended: create a file, `addHeader(H1)`, `o2 := addHeader(H2)`,
then `writeHeader(H1', force = true)` where `H1'` decodes to a tree with
`moreheader = o2`, and reopen in read mode. When `H1'` is not empty and at most
8 bytes longer than `H1` (so that, written at offset 8, it ends before
`o2 = 16 + |H1|`), and `H2` is not empty and has no positive `moreheader`, the
reopened file has `firstmetadata = decode(H1')` and `metadata = decode(H2)`
with `vod = true` set. -/
theorem chained_headers_reopen (c : Codec) (fuel0 e0 fuel e : Nat) (f0 : File)
    (H1 H2 H1p : List Nat) (hcreate : File.open c fuel0 [] true e0 = some f0)
    (hH2 : H2 ≠ []) (hH1p : H1p ≠ []) (hl2 : H2.length < 2 ^ 32)
    (hfit : H1p.length ≤ H1.length + 8) (hsmall : H1.length + 16 < 2 ^ 31)
    (hm1 : (c.fromDTMI H1p).isMember "moreheader" = true)
    (hv1 : ((c.fromDTMI H1p).get "moreheader").asInt = (addHeader (addHeader f0 H1).1 H2).2)
    (hmore2 : (c.fromDTMI H2).isMember "moreheader" = true →
      ((c.fromDTMI H2).get "moreheader").asInt ≤ 0) :
    ∃ g, File.open c (fuel + 2)
          (writeHeader (addHeader (addHeader f0 H1).1 H2).1 H1p true).1.F false e = some g
      ∧ g.firstmetadata = c.fromDTMI H1p
      ∧ g.metadata = (c.fromDTMI H2).set "vod" (JSON.bool true) := by
  have hF0 := open_create_F c fuel0 e0 f0 hcreate
  obtain ⟨hF1, _⟩ := addHeader_F f0 H1
  obtain ⟨hF2, _⟩ := addHeader_F (addHeader f0 H1).1 H2
  have ho2 := addHeader_nonempty (addHeader f0 H1).1 H2 hH2
  have hlen1 : (addHeader f0 H1).1.F.length = 16 + H1.length := by
    rw [hF1, hF0]
    simp [Magic_Header, be32]
    omega
  rw [ho2, hlen1] at hv1
  obtain ⟨_, _, hF3⟩ := writeHeader_nonempty (addHeader (addHeader f0 H1).1 H2).1 H1p true hH1p
    (Or.inr rfl)
  have hmagic : (addHeader (addHeader f0 H1).1 H2).1.F.take 4 = Magic_Header := by
    rw [hF2, hF1, hF0]
    rfl
  have hfile := writeHeader_file (addHeader (addHeader f0 H1).1 H2).1.F H1p hmagic
  have hdrop : (writeHeader (addHeader (addHeader f0 H1).1 H2).1 H1p true).1.F.drop
      (16 + H1.length) = Magic_Header ++ be32 H2.length ++ H2 ++ [] := by
    rw [hF3, writeAt_drop_ge _ 8 H1p _ (by omega),
      writeAt_drop_ge _ 4 _ _ (by rw [be32_length]; omega), hF2, ← hlen1,
      List.append_assoc, List.append_assoc, List.drop_append_of_le_length (le_refl _),
      List.drop_length, List.nil_append, List.append_nil, List.append_assoc]
  rw [hF3] at hdrop ⊢
  exact open_chained_headers c fuel e _ H1p _ H2 [] (16 + H1.length) hfile hdrop hH1p hH2
    (by omega) hl2 (by omega) (by omega) hm1 hv1 hmore2

/-- Witness for C14 as amended: `H1` of 2 bytes, `H1'` of 3 bytes, `H2` of 1
byte; `o2 = 18`. -/
theorem chained_headers_reopen_witness :
    ∃ g, File.open chainCodec 2
          (writeHeader (addHeader (addHeader createdFile [7, 7]).1 [2]).1 [1, 1, 1] true).1.F
          false 0 = some g
      ∧ g.firstmetadata = chainCodec.fromDTMI [1, 1, 1]
      ∧ g.metadata = (chainCodec.fromDTMI [2]).set "vod" (JSON.bool true) :=
  chained_headers_reopen chainCodec 1 0 0 0 createdFile [7, 7] [2] [1, 1, 1] rfl (by decide)
    (by decide) (by decide) (by decide) (by decide) rfl rfl (fun h => absurd h (by decide))

/-- C14 fails as stated: with `H1` of 2 bytes and `H1'` of 11 bytes (`H1'`
decoding to a tree with `moreheader = o2 = 18`), `writeHeader(H1')` writes
offsets 8 to 18 and so overwrites the magic of the frame of `H2` at offset 18.
The reopened file has `firstmetadata = decode(H1')` but `metadata` null, not
`decode(H2)` with `vod` set. -/
theorem chained_headers_longer_header_overwrites_second :
    (addHeader (addHeader createdFile [7, 7]).1 [2]).2 = 18
      ∧ (chainCodec.fromDTMI [1, 1, 1, 1, 1, 1, 1, 1, 1, 1, 1]).get "moreheader" = JSON.int 18
      ∧ (File.open chainCodec 3
          (writeHeader (addHeader (addHeader createdFile [7, 7]).1 [2]).1
            [1, 1, 1, 1, 1, 1, 1, 1, 1, 1, 1] true).1.F false 0).map (fun g => g.firstmetadata)
          = some (chainCodec.fromDTMI [1, 1, 1, 1, 1, 1, 1, 1, 1, 1, 1])
      ∧ (File.open chainCodec 3
          (writeHeader (addHeader (addHeader createdFile [7, 7]).1 [2]).1
            [1, 1, 1, 1, 1, 1, 1, 1, 1, 1, 1] true).1.F false 0).map (fun g => g.metadata)
          = some JSON.null
      ∧ (chainCodec.fromDTMI [2]).set "vod" (JSON.bool true) ≠ JSON.null := by
  refine ⟨by decide, rfl, rfl, rfl, ?_⟩
  intro h
  cases h

end DTSC

namespace DTSC

/-! ### The scan of `seek_time` on a file tiled by frames -/

theorem toI32_nat (n : Nat) (h : n < 2 ^ 31) : toI32 (n : Int) = n := by
  unfold toI32
  omega

theorem toU64_nat (n : Nat) (h : n < 2 ^ 64) : toU64 (n : Int) = n := by
  unfold toU64
  omega

theorem toU64_nonneg (ms : Int) (h0 : 0 ≤ ms) (h : ms < 2 ^ 64) : toU64 ms = ms.toNat := by
  unfold toU64
  rw [Int.emod_eq_of_lt h0 h]

theorem getBytePosEOF_val (f : File) (hend : f.endPos = 0 ∨ f.endPos = f.F.length) :
    (getBytePosEOF f).2 = f.F.length := by
  unfold getBytePosEOF fseekEnd
  split_ifs with h
  · rfl
  · rcases hend with h1 | h1
    · exact absurd h1 h
    · exact h1

theorem getBytePosEOF_file (f : File) (hend : f.endPos = 0 ∨ f.endPos = f.F.length) :
    ∃ p, (getBytePosEOF f).1 = { f with pos := p, endPos := f.F.length } := by
  unfold getBytePosEOF fseekEnd
  split_ifs with h
  · exact ⟨f.F.length, rfl⟩
  · rcases hend with h1 | h1
    · exact absurd h1 h
    · refine ⟨f.pos, ?_⟩
      rw [← h1]

theorem seekScan_eof (n : Nat) (f : File) (ms t : Int) (tmp : seekPos)
    (hend : f.endPos = 0 ∨ f.endPos = f.F.length) (ha : tmp.bytePos = f.F.length) :
    ∃ p, seekScan (n + 1) f ms t tmp = some ({ f with pos := p, endPos := f.F.length }, none) := by
  obtain ⟨p, hp⟩ := getBytePosEOF_file f hend
  refine ⟨p, ?_⟩
  rw [seekScan]
  simp only [getBytePosEOF_val f hend, ha, if_true, hp]

theorem seekScan_read (f : File) (a : Nat) (hend : f.endPos = 0 ∨ f.endPos = f.F.length)
    (hlen : f.F.length < 2 ^ 31) (ha : a + 20 ≤ f.F.length) :
    fread (seek_bpos (getBytePosEOF f).1 (toI32 (a : Nat))) 20
      = ({ f with pos := a + 20, endPos := f.F.length }, prefixAt f.F a, 1) := by
  obtain ⟨p, hp⟩ := getBytePosEOF_file f hend
  have h1 : toI32 (a : Nat) = a := toI32_nat a (by omega)
  rw [hp, h1]
  unfold seek_bpos fseekSet fread prefixAt
  have h2 : ¬ ((a : Int) < 0) := by omega
  simp only [h2, if_false, Int.toNat_ofNat]
  have h3 : (List.take 20 (List.drop a f.F)).length = 20 := by
    rw [List.length_take, List.length_drop]
    omega
  simp [h3]

theorem seekScan_skip (n : Nat) (f : File) (ms t : Int) (tmp : seekPos)
    (hend : f.endPos = 0 ∨ f.endPos = f.F.length) (hlen : f.F.length < 2 ^ 31)
    (hms0 : 0 ≤ ms) (hms : ms < 2 ^ 31)
    (ha : tmp.bytePos + 20 ≤ f.F.length) (hnot : ¬ isHit f.F ms t tmp.bytePos)
    (hb : tmp.bytePos + 8 + prefixSize f.F tmp.bytePos < 2 ^ 31) :
    seekScan (n + 1) f ms t tmp
      = seekScan n { f with pos := tmp.bytePos + 20, endPos := f.F.length } ms t
          { tmp with bytePos := tmp.bytePos + 8 + prefixSize f.F tmp.bytePos } := by
  have hne : tmp.bytePos ≠ (getBytePosEOF f).2 := by
    rw [getBytePosEOF_val f hend]
    omega
  unfold isHit prefixTrack prefixTime at hnot
  unfold prefixSize at hb ⊢
  have hsz : toI32 (ntohlAt (prefixAt f.F tmp.bytePos) 4 : Nat)
      = ntohlAt (prefixAt f.F tmp.bytePos) 4 :=
    toI32_nat _ (by omega)
  have hpos : toU64 ((tmp.bytePos : Int) + 8 + (ntohlAt (prefixAt f.F tmp.bytePos) 4 : Nat))
      = tmp.bytePos + 8 + ntohlAt (prefixAt f.F tmp.bytePos) 4 := by
    have := toU64_nat (tmp.bytePos + 8 + ntohlAt (prefixAt f.F tmp.bytePos) 4) (by omega)
    rw [← this]
    congr 1
  rw [seekScan]
  simp only [if_neg hne, seekScan_read f tmp.bytePos hend hlen ha, hsz, hpos,
    toU64_nonneg ms hms0 (by omega)]
  split_ifs with h1 h2
  · rfl
  · exact absurd ⟨not_not.mp h1, h2⟩ hnot
  · rfl

theorem seekScan_hit (n : Nat) (f : File) (ms t : Int) (tmp : seekPos)
    (hend : f.endPos = 0 ∨ f.endPos = f.F.length) (hlen : f.F.length < 2 ^ 31)
    (hms0 : 0 ≤ ms) (hms : ms < 2 ^ 31)
    (ha : tmp.bytePos + 20 ≤ f.F.length) (hhit : isHit f.F ms t tmp.bytePos) :
    seekScan (n + 1) f ms t tmp
      = some ({ f with pos := tmp.bytePos + 20, endPos := f.F.length },
          some { tmp with seekTime := prefixTime f.F tmp.bytePos }) := by
  have hne : tmp.bytePos ≠ (getBytePosEOF f).2 := by
    rw [getBytePosEOF_val f hend]
    omega
  rw [seekScan]
  simp only [if_neg hne, seekScan_read f tmp.bytePos hend hlen ha]
  change (if toI32 (prefixTrack f.F tmp.bytePos : Nat) ≠ t then _ else
    if prefixTime f.F tmp.bytePos ≥ toU64 ms then _ else _) = _
  rw [toU64_nonneg ms hms0 (by omega)]
  unfold isHit at hhit
  rw [if_neg (not_not.mpr hhit.1), if_pos hhit.2]
  rfl

theorem Skips_start_le (F : List Nat) (ms t : Int) (l : List Nat) (a o : Nat)
    (h : Skips F ms t a l o) (ho : o ≤ F.length) : a ≤ F.length := by
  cases l with
  | nil =>
    have h1 : a = o := h
    omega
  | cons b l =>
    have h1 : a + 20 ≤ F.length := h.1
    omega

theorem seekScan_finds_first (ms t : Int) (hms0 : 0 ≤ ms) (hms : ms < 2 ^ 31) (k : Nat)
    (l : List Nat) : ∀ (f : File) (tmp : seekPos) (o : Nat),
    f.F.length < 2 ^ 31 → (f.endPos = 0 ∨ f.endPos = f.F.length) →
    Skips f.F ms t tmp.bytePos l o → o + 20 ≤ f.F.length → isHit f.F ms t o →
    seekScan (k + l.length + 1) f ms t tmp
      = some ({ f with pos := o + 20, endPos := f.F.length },
          some { tmp with bytePos := o, seekTime := prefixTime f.F o }) := by
  induction l with
  | nil =>
    intro f tmp o hlen hend hs ho hhit
    have h1 : tmp.bytePos = o := hs
    subst h1
    exact seekScan_hit k f ms t tmp hend hlen hms0 hms ho hhit
  | cons b l ih =>
    intro f tmp o hlen hend hs ho hhit
    obtain ⟨ha, hnot, hb, hrest⟩ := hs
    have hble : b ≤ f.F.length := Skips_start_le f.F ms t l b o hrest (by omega)
    have hstep := seekScan_skip (k + l.length + 1) f ms t tmp hend hlen hms0 hms ha hnot
      (by omega)
    have hfuel : k + (b :: l).length + 1 = (k + l.length + 1) + 1 := by
      simp only [List.length_cons]
      omega
    rw [hfuel, hstep, ← hb]
    exact ih { f with pos := tmp.bytePos + 20, endPos := f.F.length }
      { tmp with bytePos := b } o hlen (Or.inr rfl) hrest ho hhit

theorem seekScan_reaches_eof (ms t : Int) (hms0 : 0 ≤ ms) (hms : ms < 2 ^ 31) (k : Nat)
    (l : List Nat) : ∀ (f : File) (tmp : seekPos),
    f.F.length < 2 ^ 31 → (f.endPos = 0 ∨ f.endPos = f.F.length) →
    Skips f.F ms t tmp.bytePos l f.F.length →
    ∃ p, seekScan (k + l.length + 1) f ms t tmp
      = some ({ f with pos := p, endPos := f.F.length }, none) := by
  induction l with
  | nil =>
    intro f tmp hlen hend hs
    exact seekScan_eof k f ms t tmp hend hs
  | cons b l ih =>
    intro f tmp hlen hend hs
    obtain ⟨ha, hnot, hb, hrest⟩ := hs
    have hble : b ≤ f.F.length := Skips_start_le f.F ms t l b _ hrest (le_refl _)
    have hstep := seekScan_skip (k + l.length + 1) f ms t tmp hend hlen hms0 hms ha hnot
      (by omega)
    have hfuel : k + (b :: l).length + 1 = (k + l.length + 1) + 1 := by
      simp only [List.length_cons]
      omega
    rw [hfuel, hstep, ← hb]
    exact ih { f with pos := tmp.bytePos + 20, endPos := f.F.length }
      { tmp with bytePos := b } hlen (Or.inr rfl) hrest

/-! ### The key index and `seek_time` -/

theorem seekKey_run (track : JSON) (ms : Int) (j : Nat)
    (hj : j < (track.get "keynum").size)
    (hgt : j + 1 < (track.get "keynum").size → ((track.get "keytime").idx (j + 1)).asInt > ms) :
    ∀ (fuel i : Nat) (tmp : Nat × Nat), i ≤ j → fuel + i = (track.get "keynum").size →
    (∀ x, i ≤ x → x ≤ j → ((track.get "keytime").idx x).asInt ≤ ms) →
    seekKey track ms fuel i tmp
      = (toU64 ((track.get "keytime").idx j).asInt, toU64 ((track.get "keybpos").idx j).asInt) := by
  intro fuel
  induction fuel with
  | zero =>
    intro i tmp hi hf _
    omega
  | succ fuel ih =>
    intro i tmp hi hf hle
    rw [seekKey]
    have h1 : i < (track.get "keynum").size := by omega
    have h2 : ¬ ((track.get "keytime").idx i).asInt > ms := by
      have := hle i (le_refl _) hi
      omega
    rw [if_pos h1, if_neg h2]
    rcases Nat.lt_or_ge i j with hlt | hge
    · exact ih (i + 1) _ hlt (by omega) (fun x hx hxj => hle x (by omega) hxj)
    · have hij : i = j := by omega
      subst hij
      cases fuel with
      | zero => rfl
      | succ fuel =>
        rw [seekKey]
        rw [if_pos (by omega), if_pos (hgt (by omega))]

/-- The start of the scan: with `keytime` increasing, `tmpPos` is the last key
whose `keytime` is at most `ms`. -/
theorem seekInit_last_key (f : File) (ms t : Int) (j : Nat)
    (hj : j < ((seekTrack f t).get "keynum").size)
    (hsorted : ∀ x y, x ≤ y → y < ((seekTrack f t).get "keynum").size →
      (((seekTrack f t).get "keytime").idx x).asInt ≤ (((seekTrack f t).get "keytime").idx y).asInt)
    (hle : (((seekTrack f t).get "keytime").idx j).asInt ≤ ms)
    (hlast : ∀ y, j < y → y < ((seekTrack f t).get "keynum").size →
      (((seekTrack f t).get "keytime").idx y).asInt > ms) :
    seekInit f ms t
      = { trackID := toU32 t,
          seekTime := toU64 (((seekTrack f t).get "keytime").idx j).asInt,
          bytePos := toU64 (((seekTrack f t).get "keybpos").idx j).asInt } := by
  unfold seekInit
  dsimp only
  rw [seekKey_run _ ms j hj (fun h => hlast (j + 1) (by omega) h) _ 0 _ (Nat.zero_le _)
    (Nat.add_zero _) (fun x _ hx => le_trans (hsorted x j hx hj) hle)]

/-- The start of the scan when no key has a `keytime` of at most `ms`, or the
track has no keys: `tmpPos` is key 0. -/
theorem seekInit_no_key (f : File) (ms t : Int)
    (h : ((seekTrack f t).get "keynum").size = 0
      ∨ (((seekTrack f t).get "keytime").idx 0).asInt > ms) :
    seekInit f ms t
      = { trackID := toU32 t,
          seekTime := toU64 (((seekTrack f t).get "keytime").idx 0).asInt,
          bytePos := toU64 (((seekTrack f t).get "keybpos").idx 0).asInt } := by
  unfold seekInit
  dsimp only
  rcases h with h | h
  · rw [h]
    rfl
  · generalize ((seekTrack f t).get "keynum").size = n
    cases n with
    | zero => rfl
    | succ n =>
      rw [seekKey]
      split_ifs
      · rfl
      · rfl

theorem seek_time_eq (fuel : Nat) (f : File) (ms t : Int) :
    seek_time fuel f ms t
      = match seekScan fuel { f with trackMapping := (mapIndex f.trackMapping t).1 } ms t
          (seekInit f ms t) with
        | none => none
        | some (f2, none) => some (f2, some false)
        | some (f2, some tmpPos) =>
          some ({ f2 with currentPositions := setInsert tmpPos f2.currentPositions }, none) :=
  rfl

/-- The scan for `0 <= ms`: when the frames from the start
offset on tile the file up to offset `o`, the frame at `o` being the first
packet of track `t` with a timestamp of at least `ms`, `seek_time(ms, t)`
inserts the `seekPos` of that packet, with its offset and its timestamp, into
`currentPositions`. -/
theorem seek_time_inserts_first (k : Nat) (f : File) (ms t : Int) (l : List Nat) (o : Nat)
    (hms0 : 0 ≤ ms) (hms : ms < 2 ^ 31) (hlen : f.F.length < 2 ^ 31)
    (hend : f.endPos = 0 ∨ f.endPos = f.F.length)
    (hs : Skips f.F ms t (seekInit f ms t).bytePos l o)
    (ho : o + 20 ≤ f.F.length) (hhit : isHit f.F ms t o) :
    seek_time (k + l.length + 1) f ms t
      = some ({ f with
                trackMapping := (mapIndex f.trackMapping t).1,
                pos := o + 20,
                endPos := f.F.length,
                currentPositions := setInsert
                  { seekTime := prefixTime f.F o, bytePos := o, trackID := toU32 t }
                  f.currentPositions }, none) := by
  rw [seek_time_eq, seekScan_finds_first ms t hms0 hms k l
    { f with trackMapping := (mapIndex f.trackMapping t).1 } (seekInit f ms t) o hlen hend hs ho
    hhit]
  rfl

/-- The scan that finds no packet: when the frames from the start offset on
tile the file up to its end and none of them is a packet of track `t` with a
timestamp of at least `ms`, `seek_time(ms, t)` returns false and leaves
`currentPositions` as it was. -/
theorem seek_time_reaches_eof (k : Nat) (f : File) (ms t : Int) (l : List Nat)
    (hms0 : 0 ≤ ms) (hms : ms < 2 ^ 31) (hlen : f.F.length < 2 ^ 31)
    (hend : f.endPos = 0 ∨ f.endPos = f.F.length)
    (hs : Skips f.F ms t (seekInit f ms t).bytePos l f.F.length) :
    ∃ p, seek_time (k + l.length + 1) f ms t
      = some ({ f with
                trackMapping := (mapIndex f.trackMapping t).1,
                pos := p,
                endPos := f.F.length }, some false) := by
  obtain ⟨p, hp⟩ := seekScan_reaches_eof ms t hms0 hms k l
    { f with trackMapping := (mapIndex f.trackMapping t).1 } (seekInit f ms t) hlen hend hs
  exact ⟨p, by rw [seek_time_eq, hp]⟩

/-- An instance of `seek_time_inserts_first`: in the example file with
timestamps 0 and 1000, `seek_time(500, 1)` starts at key 0 (offset 8), passes
over the packet with timestamp 0 and inserts the packet at offset 29. -/
theorem seek_time_inserts_first_example :
    (seekInit (exampleSeekFile 0 1000 []) 500 1).bytePos = 8
      ∧ prefixTime (exampleSeekFile 0 1000 []).F 29 = 1000
      ∧ (seek_time 2 (exampleSeekFile 0 1000 []) 500 1).map (fun r => r.1.currentPositions)
          = some [⟨1000, 29, 1⟩] := by
  refine ⟨by decide, by decide, ?_⟩
  have h : seek_time 2 (exampleSeekFile 0 1000 []) 500 1 = _ :=
    seek_time_inserts_first 0 (exampleSeekFile 0 1000 []) 500 1 [29] 29 (by decide) (by decide)
      (by decide) (by decide) ⟨by decide, by decide, by decide, rfl⟩ (by decide) (by decide)
  rw [h]
  decide

theorem setInsert_length_le (x : seekPos) (s : List seekPos) :
    (setInsert x s).length ≤ s.length + 1 := by
  induction s with
  | nil => simp [setInsert]
  | cons y ys ih =>
    unfold setInsert
    split_ifs <;> simp only [List.length_cons] <;> omega

/-- `insert` adds the element when no element of the set is equivalent to it
under the order. -/
theorem setInsert_new (x : seekPos) (s : List seekPos)
    (h : ∀ y ∈ s, x.lt y = true ∨ y.lt x = true) :
    x ∈ setInsert x s ∧ (setInsert x s).length = s.length + 1 := by
  induction s with
  | nil => simp [setInsert]
  | cons y ys ih =>
    have ih1 := ih (fun z hz => h z (List.mem_cons_of_mem _ hz))
    unfold setInsert
    split_ifs with h1 h2
    · simp
    · simp only [List.mem_cons, List.length_cons]
      exact ⟨Or.inr ih1.1, by omega⟩
    · rcases h y (List.mem_cons_self _ _) with h3 | h3
      · exact absurd h3 h1
      · exact absurd h3 h2

/-! ### `seekNext` for timestamps that fit an `int` -/

theorem freadBuffer_magic (f : File) (h : (freadBuffer f).2 = 1)
    (hm : (f.F.drop f.pos).take 4 ≠ Magic_Header) :
    (freadBuffer f).1.buffer ≠ Magic_Header := by
  unfold freadBuffer fread at h ⊢
  dsimp only at h ⊢
  split_ifs at h with h1
  · intro hc
    apply hm
    have h2 := congrArg (List.take 4) hc
    rw [List.take_left' h1.2] at h2
    exact h2

theorem fread_frame (f : File) (n : Nat) :
    (fread f n).1.currentPositions = f.currentPositions
      ∧ (fread f n).1.lastreadpos = f.lastreadpos ∧ (fread f n).1.F = f.F :=
  ⟨rfl, rfl, rfl⟩

theorem freadBuffer_frame (f : File) :
    (freadBuffer f).1.currentPositions = f.currentPositions
      ∧ (freadBuffer f).1.lastreadpos = f.lastreadpos ∧ (freadBuffer f).1.F = f.F :=
  ⟨rfl, rfl, rfl⟩

theorem readPacket_packet (c : Codec) (fuel : Nat) (f : File)
    (hm : (f.F.drop f.pos).take 4 ≠ Magic_Header) :
    ∃ g, readPacket c fuel f = some g ∧ g.currentPositions = f.currentPositions
      ∧ g.lastreadpos = f.pos ∧ g.F = f.F := by
  suffices h : ∀ r, r = readPacket c fuel f → ∃ g, r = some g
      ∧ g.currentPositions = f.currentPositions ∧ g.lastreadpos = f.pos ∧ g.F = f.F from h _ rfl
  intro r hr
  have hb : (freadBuffer { f with lastreadpos := f.pos }).2 = 1 →
      (freadBuffer { f with lastreadpos := f.pos }).1.buffer ≠ Magic_Header :=
    fun h => freadBuffer_magic _ h hm
  have e1 := freadBuffer_frame { f with lastreadpos := f.pos }
  unfold readPacket at hr
  dsimp only at e1 hr
  generalize freadBuffer { f with lastreadpos := f.pos } = r1 at e1 hb hr
  have e2 := freadBuffer_frame r1.1
  generalize freadBuffer r1.1 = r2 at e2 hr
  have e3 := fread_frame { r2.1 with strbuffer := resize r2.1.strbuffer (ntohlAt r2.1.buffer 0) }
    (ntohlAt r2.1.buffer 0)
  dsimp only at e3
  generalize fread { r2.1 with strbuffer := resize r2.1.strbuffer (ntohlAt r2.1.buffer 0) }
    (ntohlAt r2.1.buffer 0) = r3 at e3 hr
  obtain ⟨a1, b1, c1⟩ := e1
  obtain ⟨a2, b2, c2⟩ := e2
  obtain ⟨a3, b3, c3⟩ := e3
  split_ifs at hr with h1 h2 h3 h4 h5 h6 h7
  all_goals first
    | contradiction
    | exact absurd h2 (hb (not_not.mp h1))
    | exact ⟨_, hr, a1, b1, c1⟩
    | exact ⟨_, hr, a2.trans a1, b2.trans b1, c2.trans c1⟩
    | exact ⟨_, hr, a3.trans (a2.trans a1), b3.trans (b2.trans b1), c3.trans (c2.trans c1)⟩

theorem fseekSet_nat (f : File) (n : Nat) : fseekSet f (n : Nat) = { f with pos := n } := by
  unfold fseekSet
  rw [if_neg (by omega)]
  rfl

theorem seekNext_eq (c : Codec) (fuel : Nat) (f f1 : File) (m : seekPos) (rest : List seekPos)
    (r : Option Bool) (hcp : f.currentPositions = m :: rest)
    (h : seek_time fuel f (toI32 (toU64 ((m.seekTime : Int) + 1))) (toI32 m.trackID)
      = some (f1, r)) :
    seekNext c fuel f
      = readPacket c fuel { f1 with
          pos := (f1.currentPositions.headD m).bytePos,
          currentPositions := f1.currentPositions.tail } := by
  unfold seekNext
  rw [hcp]
  dsimp only
  rw [h]
  dsimp only
  rw [fseekSet_nat]

theorem setInsert_after (p m : seekPos) (rest : List seekPos) (h : m.seekTime < p.seekTime) :
    setInsert p (m :: rest) = m :: setInsert p rest := by
  rw [setInsert]
  have h1 : p.lt m = false := by
    unfold seekPos.lt
    simp only [Bool.or_eq_false_iff, Bool.and_eq_false_iff, decide_eq_false_iff_not]
    exact ⟨by omega, Or.inl (by omega)⟩
  have h2 : m.lt p = true := by
    unfold seekPos.lt
    simp only [Bool.or_eq_true, decide_eq_true_eq]
    exact Or.inl h
  rw [h1, h2]
  simp

/-- The order of `seekNext` for small timestamps: when the timestamp and the track id of the
least element `m` fit an `int` and the frames from the start offset of
`seek_time(m.seekTime + 1, m.trackID)` on tile the file, up to the first
later packet of the track at offset `o` or up to the end of the file,
`seekNext` reads the frame at `m.seekPos`, sets `lastreadpos` to it, removes
`m` and adds at most the `seekPos` of the packet at `o`, whose timestamp is
above `m.seekTime`. The frame at `m.seekPos` is taken not to be a header. -/
theorem seekNext_reads_least (c : Codec) (k : Nat) (f : File) (m : seekPos)
    (rest : List seekPos) (l : List Nat) (o : Nat)
    (hcp : f.currentPositions = m :: rest)
    (hst : m.seekTime + 1 < 2 ^ 31) (htr : m.trackID < 2 ^ 31)
    (hlen : f.F.length < 2 ^ 31) (hend : f.endPos = 0 ∨ f.endPos = f.F.length)
    (hs : Skips f.F ((m.seekTime + 1 : Nat) : Int) (m.trackID : Nat)
      (seekInit f ((m.seekTime + 1 : Nat) : Int) (m.trackID : Nat)).bytePos l o)
    (ho : o = f.F.length
      ∨ (o + 20 ≤ f.F.length ∧ isHit f.F ((m.seekTime + 1 : Nat) : Int) (m.trackID : Nat) o))
    (hm : (f.F.drop m.bytePos).take 4 ≠ Magic_Header) :
    ∃ g, seekNext c (k + l.length + 1) f = some g
      ∧ g.lastreadpos = m.bytePos
      ∧ g.F = f.F
      ∧ g.currentPositions
          = (if o = f.F.length then rest
             else setInsert { seekTime := prefixTime f.F o, bytePos := o, trackID := m.trackID }
               rest)
      ∧ (o ≠ f.F.length → m.seekTime < prefixTime f.F o) := by
  have hms : toI32 (toU64 ((m.seekTime : Int) + 1)) = ((m.seekTime + 1 : Nat) : Int) := by
    unfold toI32 toU64
    omega
  have ht : toI32 (m.trackID : Nat) = (m.trackID : Nat) := toI32_nat _ htr
  have htu : toU32 ((m.trackID : Nat) : Int) = m.trackID := by
    unfold toU32
    omega
  rcases ho with ho | ⟨ho, hhit⟩
  · subst ho
    obtain ⟨p, hp⟩ := seek_time_reaches_eof k f _ _ l (by omega) (by omega) hlen hend hs
    rw [← hms, ← ht] at hp
    rw [seekNext_eq c _ f _ m rest _ hcp hp]
    dsimp only
    rw [hcp]
    obtain ⟨g, hg, h1, h2, h3⟩ := readPacket_packet c (k + l.length + 1)
      { f with
        trackMapping := (mapIndex f.trackMapping (toI32 (m.trackID : Nat))).1,
        pos := m.bytePos,
        endPos := f.F.length,
        currentPositions := rest } hm
    exact ⟨g, hg, h2, h3, by rw [h1, if_pos rfl], fun h => absurd rfl h⟩
  · have hne : o ≠ f.F.length := by omega
    have hgt : m.seekTime < prefixTime f.F o := by
      have := hhit.2
      omega
    have hp := seek_time_inserts_first k f _ _ l o (by omega) (by omega) hlen hend hs ho hhit
    rw [htu, ← hms, ← ht] at hp
    rw [seekNext_eq c _ f _ m rest _ hcp hp]
    dsimp only
    rw [hcp, setInsert_after _ m rest hgt]
    obtain ⟨g, hg, h1, h2, h3⟩ := readPacket_packet c (k + l.length + 1)
      { f with
        trackMapping := (mapIndex f.trackMapping (toI32 (m.trackID : Nat))).1,
        pos := m.bytePos,
        endPos := f.F.length,
        currentPositions := setInsert
          { seekTime := prefixTime f.F o, bytePos := o, trackID := m.trackID } rest } hm
    exact ⟨g, hg, h2, h3, by rw [h1, if_neg hne], fun _ => hgt⟩

/-- With `currentPositions` empty, `seekNext` leaves
a null packet and an empty raw buffer, and nothing else is changed. -/
theorem seekNext_empty (c : Codec) (fuel : Nat) (f : File) (h : f.currentPositions = []) :
    seekNext c fuel f = some (packetFailed f)
      ∧ (packetFailed f).jsonbuffer = JSON.null ∧ (packetFailed f).strbuffer = [] := by
  refine ⟨?_, rfl, rfl⟩
  unfold seekNext
  rw [h]

/-- An instance of `seekNext_reads_least`: in the example file with timestamps
0 and 1000 and `currentPositions` holding the first packet, `seekNext` reads
at offset 8 and leaves the second packet in `currentPositions`. -/
theorem seekNext_reads_least_example :
    (seekNext (constCodec exampleKeyPacket) 2 (exampleSeekFile 0 1000 [⟨0, 8, 1⟩])).map
        (fun g => (g.currentPositions, g.lastreadpos))
      = some ([⟨1000, 29, 1⟩], 8) := by
  obtain ⟨g, hg, h1, _, h2, _⟩ := seekNext_reads_least (constCodec exampleKeyPacket) 0
    (exampleSeekFile 0 1000 [⟨0, 8, 1⟩]) ⟨0, 8, 1⟩ [] [29] 29 rfl (by decide) (by decide)
    (by decide) (by decide) ⟨by decide, by decide, by decide, rfl⟩
    (Or.inr ⟨by decide, by decide⟩) (by decide)
  have hg2 : seekNext (constCodec exampleKeyPacket) 2 (exampleSeekFile 0 1000 [⟨0, 8, 1⟩])
      = some g := hg
  rw [hg2, Option.map_some', h1, h2]
  decide

end DTSC

namespace DTSC

/-! ### `seek_time` and `seekNext` -/

/-- C18, at the failing input: a file with two packets of track 1, at offset 8
with timestamp 0 and at offset 29 with timestamp 1000, and `ms = -1`. Every
packet has a timestamp `>= ms`, but the comparison `myTime >= ms` is made in
`long long unsigned int`, where `ms` is 2^64 - 1: no packet matches, the scan
runs to the end of the file, `seek_time(-1, 1)` returns false and
`currentPositions` stays empty. -/
theorem seek_time_negative_ms_finds_nothing :
    (exampleSeekFile 0 1000 []).F.length = 50
      ∧ toU64 (-1) = 2 ^ 64 - 1
      ∧ (seek_time 10 (exampleSeekFile 0 1000 []) (-1) 1).map
          (fun r => (r.1.currentPositions, r.2)) = some ([], some false)
      ∧ (seek_time 10 (exampleSeekFile 0 1000 []) 0 1).map
          (fun r => (r.1.currentPositions, r.2)) = some ([⟨0, 8, 1⟩], none) := by
  decide

/-- C19, at the failing input: the same file with timestamps 0 and 2^32 - 1,
and `currentPositions` holding the one element `m` for the second packet
(`seekTime = 2^32 - 1`, offset 29). `seekNext` calls `seek_time` with
`seekTime + 1 = 2^32` converted to `int`, which is 0; that inserts the first
packet (time 0, offset 8) before `m`; `seekNext` then reads and erases that
element: `lastreadpos` is 8, not 29, and `m` is still in `currentPositions`. -/
theorem seekNext_large_timestamp_keeps_least :
    toI32 (toU64 (((4294967295 : Nat) : Int) + 1)) = 0
      ∧ (seekNext (constCodec exampleKeyPacket) 10
          (exampleSeekFile 0 4294967295 [⟨4294967295, 29, 1⟩])).map
          (fun g => (g.currentPositions, g.lastreadpos))
        = some ([⟨4294967295, 29, 1⟩], 8) := by
  decide

end DTSC

namespace DTSC

/-! ### The scan that finds no packet -/

theorem isHit_of_neg (F : List Nat) (ms t : Int) (o : Nat) (hms : ms < 0) :
    isHit F ms t o ↔ toI32 (prefixTrack F o) = t := by
  unfold isHit
  have h : ms.toNat = 0 := Int.toNat_eq_zero.mpr (by omega)
  rw [h]
  exact ⟨fun h1 => h1.1, fun h1 => ⟨h1, Nat.zero_le _⟩⟩

/-- A frame is a packet of track `t` with a timestamp of at least `ms`, the
comparison being the one of the integers. -/
theorem isHit_iff (F : List Nat) (ms t : Int) (o : Nat) :
    isHit F ms t o ↔ (toI32 (prefixTrack F o) = t ∧ ms ≤ (prefixTime F o : Int)) := by
  unfold isHit
  rw [Int.toNat_le]

theorem seekScan_skip_any (n : Nat) (f : File) (ms t : Int) (tmp : seekPos)
    (hend : f.endPos = 0 ∨ f.endPos = f.F.length) (hlen : f.F.length < 2 ^ 31)
    (hms : ms < 2 ^ 31)
    (ha : tmp.bytePos + 20 ≤ f.F.length) (hnot : ¬ isHit f.F ms t tmp.bytePos)
    (hb : tmp.bytePos + 8 + prefixSize f.F tmp.bytePos < 2 ^ 31) :
    seekScan (n + 1) f ms t tmp
      = seekScan n { f with pos := tmp.bytePos + 20, endPos := f.F.length } ms t
          { tmp with bytePos := tmp.bytePos + 8 + prefixSize f.F tmp.bytePos } := by
  rcases Int.lt_or_le ms 0 with hneg | hpos
  · rw [isHit_of_neg _ _ _ _ hneg] at hnot
    have hne : tmp.bytePos ≠ (getBytePosEOF f).2 := by
      rw [getBytePosEOF_val f hend]
      omega
    unfold prefixTrack at hnot
    unfold prefixSize at hb ⊢
    have hsz : toI32 (ntohlAt (prefixAt f.F tmp.bytePos) 4 : Nat)
        = ntohlAt (prefixAt f.F tmp.bytePos) 4 :=
      toI32_nat _ (by omega)
    have hpos : toU64 ((tmp.bytePos : Int) + 8 + (ntohlAt (prefixAt f.F tmp.bytePos) 4 : Nat))
        = tmp.bytePos + 8 + ntohlAt (prefixAt f.F tmp.bytePos) 4 := by
      have := toU64_nat (tmp.bytePos + 8 + ntohlAt (prefixAt f.F tmp.bytePos) 4) (by omega)
      rw [← this]
      congr 1
    rw [seekScan]
    simp only [if_neg hne, seekScan_read f tmp.bytePos hend hlen ha, hsz, hpos]
    rw [if_pos hnot]
  · exact seekScan_skip n f ms t tmp hend hlen hpos hms ha hnot hb

theorem seekScan_no_packet (ms t : Int) (hms : ms < 2 ^ 31) (k : Nat)
    (l : List Nat) : ∀ (f : File) (tmp : seekPos),
    f.F.length < 2 ^ 31 → (f.endPos = 0 ∨ f.endPos = f.F.length) →
    Skips f.F ms t tmp.bytePos l f.F.length →
    ∃ p, seekScan (k + l.length + 1) f ms t tmp
      = some ({ f with pos := p, endPos := f.F.length }, none) := by
  induction l with
  | nil =>
    intro f tmp hlen hend hs
    exact seekScan_eof k f ms t tmp hend hs
  | cons b l ih =>
    intro f tmp hlen hend hs
    obtain ⟨ha, hnot, hb, hrest⟩ := hs
    have hble : b ≤ f.F.length := Skips_start_le f.F ms t l b _ hrest (le_refl _)
    have hstep := seekScan_skip_any (k + l.length + 1) f ms t tmp hend hlen hms ha hnot
      (by omega)
    have hfuel : k + (b :: l).length + 1 = (k + l.length + 1) + 1 := by
      simp only [List.length_cons]
      omega
    rw [hfuel, hstep, ← hb]
    exact ih { f with pos := tmp.bytePos + 20, endPos := f.F.length }
      { tmp with bytePos := b } hlen (Or.inr rfl) hrest

/-- While the value cached by `getBytePosEOF` is unset or the length of this
file: on a file of less than 2^31 bytes whose frames, from the start offset
that `seek_time` takes from the key index, tile the file exactly up to its
end (`l` lists the offsets of the frames after the first), none of them being
a packet of track `t` with a timestamp of at least `ms`, the call
`seek_time(ms, t)` terminates (the loop runs once per frame and once more at
the end of the file), returns false and leaves `currentPositions`, like the
file's bytes, unchanged. -/
theorem seek_time_no_packet_returns_false (k : Nat) (f : File) (ms t : Int) (l : List Nat)
    (hms : ms < 2 ^ 31) (hlen : f.F.length < 2 ^ 31)
    (hend : f.endPos = 0 ∨ f.endPos = f.F.length)
    (hs : Skips f.F ms t (seekInit f ms t).bytePos l f.F.length) :
    ∃ g, seek_time (k + l.length + 1) f ms t = some (g, some false)
      ∧ g.currentPositions = f.currentPositions ∧ g.F = f.F := by
  obtain ⟨p, hp⟩ := seekScan_no_packet ms t hms k l
    { f with trackMapping := (mapIndex f.trackMapping t).1 } (seekInit f ms t) hlen hend hs
  refine ⟨{ f with
            trackMapping := (mapIndex f.trackMapping t).1,
            pos := p,
            endPos := f.F.length }, ?_, rfl, rfl⟩
  rw [seek_time_eq, hp]

/-- An instance, on the example file with timestamps 0 and 1000: no packet of track 1
has a timestamp of 2000 or more, nor has track 2 any packet (its scan starts
at offset 0, with the header frame). -/
theorem seek_time_no_packet_returns_false_witness :
    (∃ g, seek_time 3 (exampleSeekFile 0 1000 [⟨7, 8, 1⟩]) 2000 1 = some (g, some false)
        ∧ g.currentPositions = [⟨7, 8, 1⟩] ∧ g.F = (exampleSeekFile 0 1000 []).F)
      ∧ (∃ g, seek_time 4 (exampleSeekFile 0 1000 [⟨7, 8, 1⟩]) (-5) 2 = some (g, some false)
        ∧ g.currentPositions = [⟨7, 8, 1⟩] ∧ g.F = (exampleSeekFile 0 1000 []).F) :=
  ⟨seek_time_no_packet_returns_false 0 (exampleSeekFile 0 1000 [⟨7, 8, 1⟩]) 2000 1 [29, 50]
      (by decide) (by decide) (by decide)
      ⟨by decide, by decide, by decide, by decide, by decide, by decide, rfl⟩,
    seek_time_no_packet_returns_false 0 (exampleSeekFile 0 1000 [⟨7, 8, 1⟩]) (-5) 2 [8, 29, 50]
      (by decide) (by decide) (by decide)
      ⟨by decide, by decide, by decide, by decide, by decide, by decide, by decide, by decide,
        by decide, rfl⟩⟩

end DTSC

/-! ## Theorems, part 5: the main loop of the relay -/

namespace Buffer

/-! ### Stats lines -/

theorem findSpace_append (a rest : List Char) (h : ' ' ∉ a) :
    findSpace (a ++ ' ' :: rest) = some a.length := by
  induction a with
  | nil => simp [findSpace]
  | cons c cs ih =>
    have hc : c ≠ ' ' := fun e => h (by simp [e])
    have hcs : ' ' ∉ cs := fun e => h (List.mem_cons_of_mem _ e)
    simp [findSpace, hc, ih hcs]

theorem findSpace_none (a : List Char) (h : ' ' ∉ a) : findSpace a = none := by
  induction a with
  | nil => rfl
  | cons c cs ih =>
    have hc : c ≠ ' ' := fun e => h (by simp [e])
    have hcs : ' ' ∉ cs := fun e => h (List.mem_cons_of_mem _ e)
    simp [findSpace, hc, ih hcs]

theorem isDigit_toNat (c : Char) (h : c.isDigit = true) : 48 ≤ c.toNat ∧ c.toNat ≤ 57 := by
  unfold Char.isDigit at h
  simp only [Bool.and_eq_true, decide_eq_true_eq] at h
  exact ⟨h.1, h.2⟩

theorem atoiDigits_digits (cs : List Char) (h : ∀ c ∈ cs, c.isDigit = true) :
    ∀ acc : Nat, atoiDigits cs (acc : Int)
      = ((Nat.ofDigits 10 ((cs.reverse.map (fun c => c.toNat - 48)) ++ [acc]) : Nat) : Int) := by
  induction cs with
  | nil =>
    intro acc
    simp [atoiDigits, Nat.ofDigits]
  | cons c cs ih =>
    intro acc
    have hc := h c (List.mem_cons_self _ _)
    have hd := isDigit_toNat c hc
    rw [atoiDigits, if_pos hc]
    have e : (acc : Int) * 10 + ((c.toNat : Int) - 48) = ((acc * 10 + (c.toNat - 48) : Nat) : Int) := by
      omega
    rw [e, ih (fun x hx => h x (List.mem_cons_of_mem _ hx))]
    congr 1
    simp only [List.reverse_cons, List.map_append, List.map_cons, List.map_nil,
      List.append_assoc, List.singleton_append]
    rw [Nat.ofDigits_append, Nat.ofDigits_append]
    simp only [Nat.ofDigits_cons, Nat.ofDigits_nil, List.length_map, List.length_reverse]
    ring

theorem take_sep (a rest : List Char) (x : Char) : (a ++ x :: rest).take a.length = a := by
  simp

theorem drop_sep (a rest : List Char) (x : Char) :
    (a ++ x :: rest).drop (a.length + 1) = rest := by
  rw [List.drop_append]
  rfl

theorem atoi_digits (cs : List Char) (h : ∀ c ∈ cs, c.isDigit = true) :
    atoi cs = (decimal cs : Int) := by
  have hz : ∀ l : List Nat, Nat.ofDigits 10 (l ++ [0]) = Nat.ofDigits 10 l := by
    intro l
    rw [Nat.ofDigits_append]
    simp [Nat.ofDigits]
  cases cs with
  | nil => simp [atoi, decimal, Nat.ofDigits]
  | cons c cs =>
    have hc := h c (List.mem_cons_self _ _)
    have hd := isDigit_toNat c hc
    have hsp : isspace c = false := by
      unfold isspace
      simp only [Bool.or_eq_false_iff, Bool.and_eq_false_iff, decide_eq_false_iff_not]
      exact ⟨by omega, Or.inr (by omega)⟩
    have hm : c ≠ '-' := by
      intro e
      rw [e] at hd
      revert hd
      decide
    have hp : c ≠ '+' := by
      intro e
      rw [e] at hd
      revert hd
      decide
    unfold atoi
    rw [List.dropWhile_cons_of_neg (by simp [hsp])]
    dsimp only
    rw [if_neg hm, if_neg hp]
    have := atoiDigits_digits (c :: cs) h 0
    rw [hz] at this
    exact this

/-- C21: a stats line made of a host and a connector without spaces and three
decimal numerals below 2^31, separated by single spaces, is parsed into
those five fields, whatever the fields held before. -/
theorem Stats_parse_line (junk : Stats) (host connector c u d : List Char)
    (hh : ' ' ∉ host) (hcn : ' ' ∉ connector)
    (hc : ∀ x ∈ c, x.isDigit = true) (hu : ∀ x ∈ u, x.isDigit = true)
    (hd : ∀ x ∈ d, x.isDigit = true)
    (hcv : decimal c < 2 ^ 31) (huv : decimal u < 2 ^ 31) (hdv : decimal d < 2 ^ 31) :
    Stats.parse junk (host ++ ' ' :: (connector ++ ' ' :: (c ++ ' ' :: (u ++ ' ' :: d))))
      = { host := String.mk host, connector := String.mk connector,
          conntime := decimal c, up := decimal u, down := decimal d } := by
  have digits_nospace : ∀ l : List Char, (∀ x ∈ l, x.isDigit = true) → ' ' ∉ l := by
    intro l hl hm
    have := isDigit_toNat _ (hl _ hm)
    revert this
    decide
  have conv : ∀ n : Nat, n < 2 ^ 31 → toUInt32 (n : Int) = n := by
    intro n hn
    unfold toUInt32
    omega
  unfold Stats.parse
  simp only [findSpace_append host _ hh, take_sep, drop_sep,
    findSpace_append connector _ hcn, findSpace_append c _ (digits_nospace c hc),
    findSpace_append u _ (digits_nospace u hu), atoi_digits c hc, atoi_digits u hu,
    atoi_digits d hd, conv _ hcv, conv _ huv, conv _ hdv]

/-- C21 on the line of the example: `edge1 rtmp 15 150000 75000`. -/
theorem Stats_parse_line_witness :
    Stats.parse ⟨7, 7, "x", "y", 7⟩ ("edge1 rtmp 15 150000 75000").toList
      = { host := "edge1", connector := "rtmp", conntime := 15, up := 150000, down := 75000 } :=
  Stats_parse_line ⟨7, 7, "x", "y", 7⟩ "edge1".toList "rtmp".toList "15".toList "150000".toList
    "75000".toList (by decide) (by decide) (by decide) (by decide) (by decide) (by decide)
    (by decide) (by decide)

end Buffer

namespace Buffer

/-! ### `Send`: normal completion -/

/-- C26: on a ring of `N >= 1` slots, a connected viewer for which this call of
`Send` writes (a snapshot of the slot is held and the data pointer matches),
whose write returns `r > 0` bringing `currsend` to the snapshot length, while
the slot's number is still the snapshot number, ends with its cursor one slot
further (modulo `N`), `MyBuffer_num = -1`, a null `lastpointer` and
`currsend = 0`; it stays connected. -/
theorem Send_normal_completion (ringbuf : List buffer) (N : Nat) (io : WriteOutcome) (u : user)
    (hN : 1 ≤ N) (hc : u.connected = true) (hs : (snapshot ringbuf u).2 = true)
    (hp : (snapshot ringbuf u).1.lastpointer = (slot ringbuf u.MyBuffer).FLV.ptr)
    (hr : 0 < io.r) (hlen : u.currsend + io.r = (snapshot ringbuf u).1.MyBuffer_len)
    (hnum : (slot ringbuf u.MyBuffer).number = (snapshot ringbuf u).1.MyBuffer_num) :
    Send ringbuf N io u
      = { MyBuffer := (u.MyBuffer + 1) % N, MyBuffer_num := -1,
          MyBuffer_len := (snapshot ringbuf u).1.MyBuffer_len, currsend := 0, lastpointer := 0,
          connected := true }
      ∧ (u.MyBuffer + 1) % N < N := by
  refine ⟨?_, Nat.mod_lt _ (by omega)⟩
  have hconn : (snapshot ringbuf u).1.connected = true := by
    rw [← hc]
    unfold snapshot
    dsimp only
    split_ifs <;> rfl
  have hd : doSend io (snapshot ringbuf u).1
      = ({ (snapshot ringbuf u).1 with currsend := (snapshot ringbuf u).1.currsend + io.r },
          true) := by
    unfold doSend
    rw [if_neg (by omega)]
    dsimp only
    rw [snapshot_currsend, hlen]
    simp
  unfold Send
  rw [hc]
  simp only [Bool.not_true, Bool.false_eq_true, if_false, hs, snapshot_MyBuffer, hp, ne_eq,
    not_true_eq_false, hd, if_true]
  unfold afterSend
  dsimp only
  rw [if_neg (by rw [hnum]; simp)]
  unfold resetSend
  simp [hconn]

/-- C26 on a two-slot ring: the viewer at slot 1 completes its send (10 bytes
sent, 3 written, length 13) and moves to slot 0. -/
theorem Send_normal_completion_witness :
    Send [⟨6, exampleKeyframe⟩, ⟨7, exampleAudio⟩] 2 ⟨3, false⟩ ⟨1, 7, 13, 10, 200, true⟩
        = ⟨0, -1, 13, 0, 0, true⟩
      ∧ (1 + 1) % 2 < 2 :=
  Send_normal_completion [⟨6, exampleKeyframe⟩, ⟨7, exampleAudio⟩] 2 ⟨3, false⟩
    ⟨1, 7, 13, 10, 200, true⟩ (by decide) (by decide) (by decide) (by decide) (by decide)
    (by decide) (by decide)

end Buffer

namespace Buffer

/-! ### The ingest step: sequence numbers, `gotData`, metadata -/

theorem number_setFLV (rb : List buffer) (i j : Nat) (t : Tag) :
    (slot (setFLV rb i t) j).number = (slot rb j).number := by
  unfold setFLV
  rw [slot_set]
  split_ifs with h
  · rw [h.1]
  · rfl

theorem number_setNumber (rb : List buffer) (i j : Nat) (n : Int) :
    (slot (setNumber rb i n) j).number
      = if i = j ∧ j < rb.length then n else (slot rb j).number := by
  unfold setNumber
  rw [slot_set]
  split_ifs <;> rfl

theorem length_setFLV (rb : List buffer) (i : Nat) (t : Tag) :
    (setFLV rb i t).length = rb.length := by
  simp [setFLV]

theorem length_setNumber (rb : List buffer) (i : Nat) (n : Int) :
    (setNumber rb i n).length = rb.length := by
  simp [setNumber]

/-- The fields that the metadata step leaves alone, and the two it sets. -/
theorem ingestMetadata_fields (s : Relay) :
    (ingestMetadata s).ringbuf = s.ringbuf ∧ (ingestMetadata s).buffers = s.buffers
      ∧ (ingestMetadata s).current_buffer = s.current_buffer
      ∧ (ingestMetadata s).loopcount = s.loopcount ∧ (ingestMetadata s).gotData = s.gotData
      ∧ (ingestMetadata s).metadata
          = (if (slot s.ringbuf s.current_buffer).FLV.data.getD 0 0 = 0x12
              then (slot s.ringbuf s.current_buffer).FLV else s.metadata)
      ∧ (ingestMetadata s).Parse_Error
          = (s.Parse_Error || (decide ((slot s.ringbuf s.current_buffer).FLV.data.getD 0 0 = 0x12)
              && (s.gotVideoInfo && s.gotAudioInfo))) := by
  unfold ingestMetadata
  dsimp only
  by_cases h : (slot s.ringbuf s.current_buffer).FLV.data.getD 0 0 = 0x12
  · rw [if_pos h, if_pos h, decide_eq_true h, Bool.true_and]
    exact ⟨rfl, rfl, rfl, rfl, rfl, rfl, rfl⟩
  · rw [if_neg h, if_neg h, decide_eq_false h, Bool.false_and, Bool.or_false]
    exact ⟨rfl, rfl, rfl, rfl, rfl, rfl, rfl⟩

theorem KeepsCounters_same (s : Relay) : KeepsCounters s s :=
  ⟨rfl, rfl, rfl, rfl, rfl, rfl, rfl, fun _ => rfl⟩

theorem KeepsCounters_chain {a b c : Relay} (h1 : KeepsCounters a b) (h2 : KeepsCounters b c) :
    KeepsCounters a c := by
  obtain ⟨a1, a2, a3, a4, a5, a6, a7, a8⟩ := h1
  obtain ⟨b1, b2, b3, b4, b5, b6, b7, b8⟩ := h2
  exact ⟨b1.trans a1, b2.trans a2, b3.trans a3, b4.trans a4, b5.trans a5, b6.trans a6,
    b7.trans a7, fun j => (b8 j).trans (a8 j)⟩

theorem KeepsCounters_ingestVideoInit (s : Relay) : KeepsCounters s (ingestVideoInit s) := by
  unfold ingestVideoInit
  dsimp only
  split_ifs
  · exact ⟨rfl, rfl, rfl, rfl, rfl, rfl, length_setFLV _ _ _, fun j => number_setFLV _ _ _ _⟩
  · exact KeepsCounters_same s
  · exact ⟨rfl, rfl, rfl, rfl, rfl, rfl, rfl, fun _ => rfl⟩
  · exact KeepsCounters_same s

theorem KeepsCounters_ingestAudioInit (p : Nat) (s : Relay) :
    KeepsCounters s (ingestAudioInit p s) := by
  unfold ingestAudioInit
  dsimp only
  split_ifs
  · exact ⟨rfl, rfl, rfl, rfl, rfl, rfl, length_setFLV _ _ _, fun j => number_setFLV _ _ _ _⟩
  · exact ⟨rfl, rfl, rfl, rfl, rfl, rfl, rfl, fun _ => rfl⟩
  · exact KeepsCounters_same s

theorem KeepsCounters_ingestLastproper (p : Nat) (s : Relay) :
    KeepsCounters s (ingestLastproper p s) := by
  unfold ingestLastproper
  dsimp only
  split_ifs
  · exact ⟨rfl, rfl, rfl, rfl, rfl, rfl, rfl, fun _ => rfl⟩
  · exact KeepsCounters_same s
  · exact KeepsCounters_same s

theorem ingestFinish_fields (s : Relay) :
    (ingestFinish s).buffers = s.buffers
      ∧ (ingestFinish s).current_buffer = (s.current_buffer + 1) % s.buffers
      ∧ (ingestFinish s).loopcount = s.loopcount
      ∧ (ingestFinish s).gotData = (s.gotData || decide (s.loopcount > 5))
      ∧ (ingestFinish s).metadata = s.metadata
      ∧ (ingestFinish s).Parse_Error = s.Parse_Error
      ∧ (ingestFinish s).ringbuf.length = s.ringbuf.length
      ∧ ∀ j, (slot (ingestFinish s).ringbuf j).number
          = if s.current_buffer = j ∧ j < s.ringbuf.length then toInt32 s.loopcount
            else (slot s.ringbuf j).number := by
  unfold ingestFinish
  dsimp only
  split_ifs with h
  · exact ⟨rfl, rfl, rfl, by simp [h], rfl, rfl, length_setNumber _ _ _,
      fun j => number_setNumber _ _ _ _⟩
  · exact ⟨rfl, rfl, rfl, by simp [h], rfl, rfl, length_setNumber _ _ _,
      fun j => number_setNumber _ _ _ _⟩

/-- The ingest step that loaded the tag `t`: the counters, the flags, the
metadata and the numbers of the slots afterwards. -/
theorem ingest_loaded_fields (s : Relay) (t : Tag) (hlen : s.buffers = s.ringbuf.length)
    (hcur : s.current_buffer < s.buffers) :
    (ingest s (some (t, true))).current_buffer = (s.current_buffer + 1) % s.buffers
      ∧ (ingest s (some (t, true))).loopcount = wrap32 (s.loopcount + 1)
      ∧ (ingest s (some (t, true))).gotData
          = (s.gotData || decide (wrap32 (s.loopcount + 1) > 5))
      ∧ (ingest s (some (t, true))).metadata
          = (if t.data.getD 0 0 = 0x12 then t else s.metadata)
      ∧ (ingest s (some (t, true))).Parse_Error
          = (s.Parse_Error
              || (decide (t.data.getD 0 0 = 0x12) && (s.gotVideoInfo && s.gotAudioInfo)))
      ∧ (∀ j, (slot (ingest s (some (t, true))).ringbuf j).number
          = if j = s.current_buffer then toInt32 (wrap32 (s.loopcount + 1))
            else (slot s.ringbuf j).number) := by
  have hc2 : s.current_buffer < s.ringbuf.length := by omega
  obtain ⟨s2, hs2⟩ : ∃ s2 : Relay, s2 = { s with
      ringbuf := setFLV (setNumber s.ringbuf s.current_buffer (-1)) s.current_buffer t,
      loopcount := wrap32 (s.loopcount + 1) } := ⟨_, rfl⟩
  have hcurslot : (slot s2.ringbuf s2.current_buffer).FLV = t := by
    rw [hs2]
    simp [setFLV, setNumber, slot_set, hc2]
  have hlen2 : s2.ringbuf.length = s.ringbuf.length := by
    rw [hs2]
    simp [setFLV, setNumber]
  have hnum2 : ∀ j, (slot s2.ringbuf j).number
      = if s.current_buffer = j ∧ j < s.ringbuf.length then -1 else (slot s.ringbuf j).number := by
    intro j
    rw [hs2]
    show (slot (setFLV (setNumber s.ringbuf s.current_buffer (-1)) s.current_buffer t) j).number = _
    rw [number_setFLV, number_setNumber]
  obtain ⟨m1, m2, m3, m4, m5, m6, m7⟩ := ingestMetadata_fields s2
  obtain ⟨p, hp⟩ : ∃ p : Nat, p = (slot s2.ringbuf s2.current_buffer).FLV.data.getD 0 0 := ⟨_, rfl⟩
  have hk : KeepsCounters (ingestMetadata s2)
      (ingestLastproper p (ingestAudioInit p (ingestVideoInit (ingestMetadata s2)))) :=
    KeepsCounters_chain
      (KeepsCounters_chain (KeepsCounters_ingestVideoInit _) (KeepsCounters_ingestAudioInit p _))
      (KeepsCounters_ingestLastproper p _)
  obtain ⟨x, hx⟩ : ∃ x : Relay,
      x = ingestLastproper p (ingestAudioInit p (ingestVideoInit (ingestMetadata s2))) := ⟨_, rfl⟩
  rw [← hx] at hk
  have hfin : ingest s (some (t, true)) = ingestFinish x := by
    rw [hx, hp, hs2]
    rfl
  obtain ⟨k1, k2, k3, k4, k5, k6, k7, k8⟩ := hk
  obtain ⟨f1, f2, f3, f4, f5, f6, f7, f8⟩ := ingestFinish_fields x
  have e2 : s2.current_buffer = s.current_buffer := by rw [hs2]
  have e3 : s2.buffers = s.buffers := by rw [hs2]
  have e4 : s2.loopcount = wrap32 (s.loopcount + 1) := by rw [hs2]
  have e5 : s2.gotData = s.gotData := by rw [hs2]
  have e6 : s2.metadata = s.metadata := by rw [hs2]
  have e7 : s2.Parse_Error = s.Parse_Error := by rw [hs2]
  have e8 : s2.gotVideoInfo = s.gotVideoInfo := by rw [hs2]
  have e9 : s2.gotAudioInfo = s.gotAudioInfo := by rw [hs2]
  rw [hfin]
  refine ⟨?_, ?_, ?_, ?_, ?_, ?_⟩
  · rw [f2, k2, k1, m3, m2, e2, e3]
  · rw [f3, k3, m4, e4]
  · rw [f4, k4, k3, m5, m4, e5, e4]
  · rw [f5, k5, m6, hcurslot, e6]
  · rw [f6, k6, m7, hcurslot, e7, e8, e9]
  · intro j
    rw [f8, k2, m3, e2, k7, m1, hlen2, k3, m4, e4, k8, m1, hnum2]
    by_cases hj : j = s.current_buffer
    · subst hj
      simp [hc2]
    · have hj2 : ¬ s.current_buffer = j := fun h => hj h.symm
      simp [hj, hj2]

end Buffer

namespace Buffer

theorem ingest_not_loaded_fields (s : Relay) (l : LoadResult)
    (hl : l = none ∨ ∃ t, l = some (t, false)) :
    (ingest s l).buffers = s.buffers ∧ (ingest s l).current_buffer = s.current_buffer
      ∧ (ingest s l).loopcount = s.loopcount ∧ (ingest s l).gotData = s.gotData
      ∧ (ingest s l).Parse_Error = s.Parse_Error
      ∧ (ingest s l).ringbuf.length = s.ringbuf.length
      ∧ ∀ j, (slot (ingest s l).ringbuf j).number
          = if s.current_buffer = j ∧ j < s.ringbuf.length then -1
            else (slot s.ringbuf j).number := by
  rcases hl with rfl | ⟨t, rfl⟩
  · refine ⟨rfl, rfl, rfl, rfl, rfl, ?_, fun j => ?_⟩
    · exact length_setNumber _ _ _
    · exact number_setNumber _ _ _ _
  · refine ⟨rfl, rfl, rfl, rfl, rfl, ?_, fun j => ?_⟩
    · show (setFLV (setNumber s.ringbuf s.current_buffer (-1)) s.current_buffer t).length = _
      rw [length_setFLV, length_setNumber]
    · show (slot (setFLV (setNumber s.ringbuf s.current_buffer (-1)) s.current_buffer t)
        j).number = _
      rw [number_setFLV, number_setNumber]

/-- C27, the claim as stated fails: a ring of two slots, both with number -1,
after two iterations that each loaded a tag. When the loop over the viewers
of the second iteration runs, the ingest cursor is 0 and the slot at the
cursor has number 1. The same on a ring of one slot after one iteration. -/
theorem cursor_slot_keeps_number_after_ingest :
    (ingestAll (initRelay [⟨-1, default⟩, ⟨-1, default⟩])
        [some (exampleAudio, true), some (exampleAudio, true)]).current_buffer = 0
      ∧ (slot (ingestAll (initRelay [⟨-1, default⟩, ⟨-1, default⟩])
        [some (exampleAudio, true), some (exampleAudio, true)]).ringbuf 0).number = 1
      ∧ (ingest (initRelay [⟨-1, default⟩]) (some (exampleAudio, true))).current_buffer = 0
      ∧ (slot (ingest (initRelay [⟨-1, default⟩]) (some (exampleAudio, true))).ringbuf 0).number
          = 1 := by
  decide

/-- C27 as amended: when the loop over the viewers runs in an iteration whose
ingest step did not load a tag (no loader call, or a tag not yet complete),
the slot at the ingest cursor has number -1. In an iteration whose ingest
step loaded a tag, the slot just filled has the new sequence number, the
cursor has moved on by one, and every other slot, the one at the new cursor
included, has the number it had before the iteration. -/
theorem cursor_slot_invalid_unless_just_loaded (s : Relay) (hlen : s.buffers = s.ringbuf.length)
    (hcur : s.current_buffer < s.buffers) :
    (∀ l : LoadResult, (l = none ∨ ∃ t, l = some (t, false)) →
        (ingest s l).current_buffer = s.current_buffer
          ∧ (slot (ingest s l).ringbuf (ingest s l).current_buffer).number = -1)
      ∧ (∀ t : Tag,
        (ingest s (some (t, true))).current_buffer = (s.current_buffer + 1) % s.buffers
          ∧ (slot (ingest s (some (t, true))).ringbuf s.current_buffer).number
              = toInt32 (wrap32 (s.loopcount + 1))
          ∧ ∀ j, j ≠ s.current_buffer →
              (slot (ingest s (some (t, true))).ringbuf j).number = (slot s.ringbuf j).number) := by
  constructor
  · intro l hl
    obtain ⟨_, h2, _, _, _, _, h7⟩ := ingest_not_loaded_fields s l hl
    refine ⟨h2, ?_⟩
    rw [h2, h7, if_pos ⟨rfl, by omega⟩]
  · intro t
    obtain ⟨h1, _, _, _, _, h6⟩ := ingest_loaded_fields s t hlen hcur
    refine ⟨h1, ?_, fun j hj => ?_⟩
    · rw [h6, if_pos rfl]
    · rw [h6, if_neg hj]

/-- C27 as amended, on a ring of three slots with the numbers 4, 2 and 3 and
the cursor at slot 1. -/
theorem cursor_slot_invalid_unless_just_loaded_witness :
    (∀ l : LoadResult, (l = none ∨ ∃ t, l = some (t, false)) →
        (ingest countedRelay l).current_buffer = countedRelay.current_buffer
          ∧ (slot (ingest countedRelay l).ringbuf (ingest countedRelay l).current_buffer).number
              = -1)
      ∧ (∀ t : Tag,
        (ingest countedRelay (some (t, true))).current_buffer
            = (countedRelay.current_buffer + 1) % countedRelay.buffers
          ∧ (slot (ingest countedRelay (some (t, true))).ringbuf
              countedRelay.current_buffer).number
              = toInt32 (wrap32 (countedRelay.loopcount + 1))
          ∧ ∀ j, j ≠ countedRelay.current_buffer →
              (slot (ingest countedRelay (some (t, true))).ringbuf j).number
                = (slot countedRelay.ringbuf j).number) :=
  cursor_slot_invalid_unless_just_loaded countedRelay (by decide) (by decide)

end Buffer

namespace Buffer

/-! ### `gotData` and what a joining viewer is sent -/

theorem gotData_invariant (ls : List LoadResult) : ∀ (s : Relay) (n : Nat),
    s.buffers = s.ringbuf.length → s.current_buffer < s.buffers →
    s.loopcount = n % 2 ^ 32 → s.gotData = decide (6 ≤ n) →
    (ingestAll s ls).gotData = decide (6 ≤ n + loadedCount ls)
      ∧ (ingestAll s ls).loopcount = (n + loadedCount ls) % 2 ^ 32 := by
  induction ls with
  | nil =>
    intro s n _ _ hl hg
    exact ⟨by simpa [ingestAll, loadedCount] using hg, by simpa [ingestAll, loadedCount] using hl⟩
  | cons l ls ih =>
    intro s n hlen hcur hl hg
    have hstep : ingestAll s (l :: ls) = ingestAll (ingest s l) ls := rfl
    rw [hstep]
    rcases l with _ | ⟨t, ok⟩
    · obtain ⟨a1, a2, a3, a4, _, a6, _⟩ := ingest_not_loaded_fields s none (Or.inl rfl)
      have := ih (ingest s none) n (by rw [a1, a6]; exact hlen) (by rw [a2, a1]; exact hcur)
        (by rw [a3]; exact hl) (by rw [a4]; exact hg)
      rw [loadedCount_cons_none]
      exact this
    · cases ok with
      | false =>
        obtain ⟨a1, a2, a3, a4, _, a6, _⟩ :=
          ingest_not_loaded_fields s (some (t, false)) (Or.inr ⟨t, rfl⟩)
        have := ih (ingest s (some (t, false))) n (by rw [a1, a6]; exact hlen)
          (by rw [a2, a1]; exact hcur) (by rw [a3]; exact hl) (by rw [a4]; exact hg)
        rw [loadedCount_cons_failed]
        exact this
      | true =>
        obtain ⟨b1, b2, b3, _, _, _⟩ := ingest_loaded s t hlen hcur
        obtain ⟨c1, c2, c3, _, _, _⟩ := ingest_loaded_fields s t hlen hcur
        have hpos : 0 < s.buffers := by omega
        have hl2 : (ingest s (some (t, true))).loopcount = (n + 1) % 2 ^ 32 := by
          rw [c2, hl]
          unfold wrap32
          omega
        have hg2 : (ingest s (some (t, true))).gotData = decide (6 ≤ n + 1) := by
          rw [c3, hg, hl]
          unfold wrap32
          by_cases h6 : 6 ≤ n
          · have : 6 ≤ n + 1 := by omega
            simp [h6, this]
          · have e : (n % 2 ^ 32 + 1) % 2 ^ 32 = n + 1 := by omega
            rw [e]
            simp [h6]
            omega
        have := ih (ingest s (some (t, true))) (n + 1) (by rw [b1, b2]; exact hlen)
          (by rw [b3, b1]; exact Nat.mod_lt _ hpos) hl2 hg2
        rw [loadedCount_cons_loaded]
        have e : n + (loadedCount ls + 1) = n + 1 + loadedCount ls := by omega
        rw [e]
        exact this

theorem joinSend_no_data (r : Relay) (w : Nat → Bool) (h : Hub) (v : viewer)
    (hg : r.gotData = false) : joinSend r w h v = (h, v) := by
  unfold joinSend
  rw [hg]
  rfl

theorem joinWrite_ok (w : Nat → Bool) (t : Tag) (reason : String) (st : Hub × viewer × Nat)
    (hw : ∀ k, w k = true) :
    (joinWrite w t reason st).1.wrote
        = st.1.wrote ++ (if t.len > 0 then [(st.2.1.MyNum, JoinWrite.tag t)] else [])
      ∧ (joinWrite w t reason st).2.1 = st.2.1 := by
  unfold joinWrite
  split_ifs with h1 h2
  · rw [hw] at h2
    exact absurd h2 (by simp)
  · exact ⟨rfl, rfl⟩
  · exact ⟨by simp, rfl⟩

theorem acceptViewer_wrote (r : Relay) (inc : Incoming) (h : Hub) (hg : r.gotData = true)
    (hw : ∀ k, inc.w k = true) :
    (acceptViewer r inc h).wrote
      = h.wrote ++ [(h.UserCount, JoinWrite.header)]
          ++ (if r.metadata.len > 0 then [(h.UserCount, JoinWrite.tag r.metadata)] else [])
          ++ (if r.audio_init.len > 0 then [(h.UserCount, JoinWrite.tag r.audio_init)] else [])
          ++ (if r.video_init.len > 0 then [(h.UserCount, JoinWrite.tag r.video_init)]
              else []) := by
  unfold acceptViewer joinSend
  dsimp only
  rw [hg, if_pos rfl, hw 0]
  simp only [Bool.not_true, Bool.false_eq_true, if_false]
  obtain ⟨a1, a2⟩ := joinWrite_ok inc.w r.video_init "failed to receive video init!"
    (joinWrite inc.w r.audio_init "failed to receive audio init!"
      (joinWrite inc.w r.metadata "failed to receive metadata!"
        ({ h with UserCount := h.UserCount + 1,
                  wrote := h.wrote ++ [(h.UserCount, JoinWrite.header)] },
          { MyNum := h.UserCount, send := accept r inc.len0 inc.ptr0,
            stats := { lastStats := Stats.empty, curr_up := 0, curr_down := 0 } }, 1))) hw
  obtain ⟨b1, b2⟩ := joinWrite_ok inc.w r.audio_init "failed to receive audio init!"
    (joinWrite inc.w r.metadata "failed to receive metadata!"
      ({ h with UserCount := h.UserCount + 1,
                wrote := h.wrote ++ [(h.UserCount, JoinWrite.header)] },
        { MyNum := h.UserCount, send := accept r inc.len0 inc.ptr0,
          stats := { lastStats := Stats.empty, curr_up := 0, curr_down := 0 } }, 1)) hw
  obtain ⟨c1, c2⟩ := joinWrite_ok inc.w r.metadata "failed to receive metadata!"
    ({ h with UserCount := h.UserCount + 1,
              wrote := h.wrote ++ [(h.UserCount, JoinWrite.header)] },
      { MyNum := h.UserCount, send := accept r inc.len0 inc.ptr0,
        stats := { lastStats := Stats.empty, curr_up := 0, curr_down := 0 } }, 1) hw
  show (joinWrite inc.w r.video_init _ _).1.wrote = _
  rw [a1, b1, c1, b2, c2]

/-- C25, the claim as stated fails: on a ring of eight slots, after five
iterations that each loaded a tag, `loopcount` is 5 and `gotData` is still
false, so a viewer accepted then is sent nothing on joining; `gotData` is true
after the sixth tag. -/
theorem gotData_false_after_five_tags :
    (ingestAll (initRelay (List.replicate 8 ⟨-1, default⟩))
        (List.replicate 5 (some (exampleAudio, true)))).loopcount = 5
      ∧ (ingestAll (initRelay (List.replicate 8 ⟨-1, default⟩))
        (List.replicate 5 (some (exampleAudio, true)))).gotData = false
      ∧ (acceptViewer (ingestAll (initRelay (List.replicate 8 ⟨-1, default⟩))
          (List.replicate 5 (some (exampleAudio, true)))) ⟨0, 0, fun _ => true⟩
          (startState 3 (List.replicate 8 ⟨-1, default⟩) []).2).wrote = []
      ∧ (ingestAll (initRelay (List.replicate 8 ⟨-1, default⟩))
        (List.replicate 6 (some (exampleAudio, true)))).gotData = true := by
  decide

/-- C25 as amended: over any sequence of loop iterations on a ring with at
least one slot, `gotData` is true exactly when six or more tags have been
loaded. A viewer accepted while fewer than six tags have been loaded is sent
nothing on joining; one accepted later, whose writes all succeed, is sent the
FLV header and then the metadata, the audio init and the video init tag, each
if its length is positive. -/
theorem gotData_from_sixth_tag (ring : List buffer) (hring : 0 < ring.length)
    (ls : List LoadResult) :
    (ingestAll (initRelay ring) ls).gotData = decide (6 ≤ loadedCount ls)
      ∧ (∀ (inc : Incoming) (h : Hub), loadedCount ls < 6 →
          (acceptViewer (ingestAll (initRelay ring) ls) inc h).wrote = h.wrote)
      ∧ (∀ (inc : Incoming) (h : Hub), 6 ≤ loadedCount ls → (∀ k, inc.w k = true) →
          (acceptViewer (ingestAll (initRelay ring) ls) inc h).wrote
            = h.wrote ++ [(h.UserCount, JoinWrite.header)]
              ++ (if (ingestAll (initRelay ring) ls).metadata.len > 0
                  then [(h.UserCount, JoinWrite.tag (ingestAll (initRelay ring) ls).metadata)]
                  else [])
              ++ (if (ingestAll (initRelay ring) ls).audio_init.len > 0
                  then [(h.UserCount, JoinWrite.tag (ingestAll (initRelay ring) ls).audio_init)]
                  else [])
              ++ (if (ingestAll (initRelay ring) ls).video_init.len > 0
                  then [(h.UserCount, JoinWrite.tag (ingestAll (initRelay ring) ls).video_init)]
                  else [])) := by
  have hg : (ingestAll (initRelay ring) ls).gotData = decide (6 ≤ loadedCount ls) := by
    have := (gotData_invariant ls (initRelay ring) 0 rfl hring rfl rfl).1
    rw [Nat.zero_add] at this
    exact this
  refine ⟨hg, fun inc h hlt => ?_, fun inc h hge hw => ?_⟩
  · have hf : (ingestAll (initRelay ring) ls).gotData = false := by
      rw [hg]
      exact decide_eq_false (by omega)
    unfold acceptViewer
    dsimp only
    rw [joinSend_no_data _ _ _ _ hf]
  · exact acceptViewer_wrote _ inc h (by rw [hg]; exact decide_eq_true hge) hw

/-- C25 as amended, on a ring of eight slots and six loaded tags. -/
theorem gotData_from_sixth_tag_witness :
    (ingestAll (initRelay (List.replicate 8 ⟨-1, default⟩))
        (List.replicate 6 (some (exampleKeyframe, true)))).gotData = true
      ∧ loadedCount (List.replicate 6 (some (exampleKeyframe, true))) = 6 :=
  ⟨(gotData_from_sixth_tag (List.replicate 8 ⟨-1, default⟩) (by decide)
      (List.replicate 6 (some (exampleKeyframe, true)))).1.trans (by decide), by decide⟩

end Buffer

namespace Buffer

/-! ### The main loop: parse errors and the value returned -/

theorem mainLoop_parse_error (st : Relay × Hub) (es : List Env)
    (h : st.1.Parse_Error = true) : mainLoop st es = some st := by
  cases es with
  | nil =>
    rw [mainLoop, if_pos h]
  | cons e es =>
    rw [mainLoop, h]
    simp [loopCond]

/-- C23: an ingest step that loads a tag with `data[0] = 0x12`, in an
iteration the loop test let through (`Parse_Error` false), makes the tag the
current metadata and sets `Parse_Error` exactly when `gotVideoInfo` and
`gotAudioInfo` were both true before the step; with `Parse_Error` set, the
main loop ends without a further iteration, whatever the input delivers. -/
theorem metadata_reannounce_sets_Parse_Error (s : Relay) (t : Tag)
    (hlen : s.buffers = s.ringbuf.length) (hcur : s.current_buffer < s.buffers)
    (hpe : s.Parse_Error = false) (ht : t.data.getD 0 0 = 0x12) :
    (ingest s (some (t, true))).metadata = t
      ∧ ((ingest s (some (t, true))).Parse_Error = true
          ↔ (s.gotVideoInfo = true ∧ s.gotAudioInfo = true))
      ∧ (∀ (h : Hub) (es : List Env), (ingest s (some (t, true))).Parse_Error = true →
          mainLoop (ingest s (some (t, true)), h) es = some (ingest s (some (t, true)), h)) := by
  obtain ⟨_, _, _, h4, h5, _⟩ := ingest_loaded_fields s t hlen hcur
  refine ⟨?_, ?_, fun h es hp => mainLoop_parse_error _ es hp⟩
  · rw [h4, if_pos ht]
  · rw [h5, hpe, decide_eq_true ht]
    simp

/-- C23 on a relay that has seen video and audio data: the metadata tag is
stored and `Parse_Error` is set. -/
theorem metadata_reannounce_sets_Parse_Error_witness :
    (ingest (exampleRelay true true) (some (exampleMetadata, true))).metadata = exampleMetadata
      ∧ (ingest (exampleRelay true true) (some (exampleMetadata, true))).Parse_Error = true :=
  ⟨(metadata_reannounce_sets_Parse_Error (exampleRelay true true) exampleMetadata (by decide)
      (by decide) (by decide) (by decide)).1,
    (metadata_reannounce_sets_Parse_Error (exampleRelay true true) exampleMetadata (by decide)
      (by decide) (by decide) (by decide)).2.1.mpr ⟨rfl, rfl⟩⟩

/-- C24, the claim as stated fails: the relay is started with two arguments
and loads a video tag, an audio tag and then a metadata tag. The metadata
after both kinds of data sets `Parse_Error`, the main loop ends, the line
"FLV parse error" is printed, and `Start` returns 0, not 1. -/
theorem Start_returns_zero_after_parse_error :
    (Start 3 exampleRing [] [loadEnv exampleVideo, loadEnv exampleAudio,
        loadEnv exampleMetadata]).map (fun x => (x.code, x.line, x.relay.Parse_Error))
      = some (0, "FLV parse error", true) := by
  decide

/-- C24 as amended: `Start` returns 1 when fewer than two arguments are given.
With two or more it returns 0 whenever the main loop ends, whether
`Parse_Error` was set or the input reached its end; only the line printed
tells the two apart. Every viewer is erased before it returns. -/
theorem Start_exit_code (argc : Nat) (ring : List buffer) (argv3 : List Char) (es : List Env) :
    (argc < 3 → (Start argc ring argv3 es).map (fun x => x.code) = some 1)
      ∧ (3 ≤ argc → ∀ st, mainLoop (startState argc ring argv3) es = some st →
          (Start argc ring argv3 es).map (fun x => (x.code, x.line, x.relay))
            = some (0, (if st.1.Parse_Error then "FLV parse error" else "Reached EOF of input"),
                st.1)) := by
  constructor
  · intro h
    unfold Start
    rw [if_pos h]
    rfl
  · intro h st hst
    unfold Start
    rw [if_neg (by omega), hst]
    rfl

/-- C24 as amended, on three runs: one argument; a run that ends on the end
of the input after one tag; a run that ends on `Parse_Error`. -/
theorem Start_exit_code_witness :
    (Start 2 exampleRing [] []).map (fun x => x.code) = some 1
      ∧ (Start 3 exampleRing [] [loadEnv exampleVideo, eofEnv]).map (fun x => (x.code, x.line))
          = some (0, "Reached EOF of input")
      ∧ (Start 3 exampleRing [] [loadEnv exampleVideo, loadEnv exampleAudio,
          loadEnv exampleMetadata]).map (fun x => x.code) = some 0 :=
  ⟨(Start_exit_code 2 exampleRing [] []).1 (by decide), by decide, by decide⟩

end Buffer

namespace Buffer

/-! ### The loop over the viewers -/

theorem Send_not_connected (ringbuf : List buffer) (N : Nat) (io : WriteOutcome) (u : user)
    (h : u.connected = false) : Send ringbuf N io u = u := by
  unfold Send
  rw [h]
  rfl

theorem substr2_cons_cons (c d : Char) (rest : List Char) :
    substr2 (c :: d :: rest) = some rest := by
  unfold substr2
  rw [if_neg (by simp)]
  rfl

/-- What the handling of a control line does, by whether the line is an
accepted push attempt. -/
theorem handleLine_cases (h : Hub) (v : viewer) (junk : Stats) (tmp : List Char)
    (hP : tmp ≠ ['P']) (hS : tmp ≠ ['S']) :
    (isAcceptedPush h tmp = true →
        handleLine h v junk tmp
          = some ({ h with ip_input := some v.MyNum, ip_connected := v.send.connected }, none))
      ∧ (isAcceptedPush h tmp = false →
        ∃ h1 v1, handleLine h v junk tmp = some (h1, some v1) ∧ h1.sent = h.sent
          ∧ v1.MyNum = v.MyNum ∧ h1.waiting_ip = h.waiting_ip
          ∧ h1.ip_connected = h.ip_connected ∧ h1.ip_input = h.ip_input) := by
  unfold isAcceptedPush handleLine handlePush handleStatsLine
  rcases tmp with _ | ⟨c, _ | ⟨d, rest⟩⟩
  · simp
    exact ⟨_, _, ⟨rfl, rfl⟩, rfl, rfl, rfl, rfl, rfl⟩
  · have h1 : c ≠ 'P' := fun e => hP (by rw [e])
    have h2 : c ≠ 'S' := fun e => hS (by rw [e])
    simp [h1, h2]
    exact ⟨_, _, ⟨rfl, rfl⟩, rfl, rfl, rfl, rfl, rfl⟩
  · rw [substr2_cons_cons]
    by_cases hc : c = 'P'
    · subst hc
      by_cases hip : rest = h.waiting_ip
      · by_cases hcon : h.ip_connected = true
        · simp [hip, hcon, disconnectViewer]
          exact ⟨_, _, ⟨rfl, rfl⟩, rfl, rfl, rfl, rfl, rfl⟩
        · simp [hip, hcon]
      · simp [hip, disconnectViewer]
        exact ⟨_, _, ⟨rfl, rfl⟩, rfl, rfl, rfl, rfl, rfl⟩
    · by_cases hs : c = 'S'
      · subst hs
        simp
        exact ⟨_, _, ⟨rfl, rfl⟩, rfl, rfl, rfl, rfl, rfl⟩
      · simp [hc, hs]
        exact ⟨_, _, ⟨rfl, rfl⟩, rfl, rfl, rfl, rfl, rfl⟩

/-- What the loop body does for one viewer, by whether the viewer is erased. -/
theorem serve_cases (ringbuf : List buffer) (N : Nat) (h : Hub) (v : viewer) (i : ViewerInput)
    (hth : throws i = false) :
    (isErased h v i = true →
        ∃ h1, serve ringbuf N h v i = some (h1, none) ∧ h1.sent = h.sent)
      ∧ (isErased h v i = false →
        ∃ h1 v1, serve ringbuf N h v i = some (h1, some v1) ∧ h1.sent = h.sent ++ [v.MyNum]
          ∧ v1.MyNum = v.MyNum ∧ h1.waiting_ip = h.waiting_ip
          ∧ h1.ip_connected = h.ip_connected ∧ h1.ip_input = h.ip_input) := by
  unfold isErased serve
  by_cases hc : v.send.connected = true
  · rw [hc]
    simp only [Bool.not_true, Bool.false_eq_true, if_false, Bool.false_or]
    rcases hl : i.line with _ | tmp
    · simp only [Bool.false_eq_true, false_implies, true_and]
      intro _
      exact ⟨_, _, rfl, rfl, rfl, rfl, rfl, rfl⟩
    · dsimp only
      have hth2 : tmp ≠ ['P'] ∧ tmp ≠ ['S'] := by
        unfold throws at hth
        rw [hl] at hth
        simpa using hth
      by_cases hne : tmp = []
      · subst hne
        simp only [if_true]
        constructor
        · intro he
          exact absurd he (by simp [isAcceptedPush])
        · intro _
          exact ⟨_, _, rfl, rfl, rfl, rfl, rfl, rfl⟩
      · rw [if_neg hne]
        obtain ⟨c1, c2⟩ := handleLine_cases h v i.junk tmp hth2.1 hth2.2
        constructor
        · intro he
          rw [c1 he]
          exact ⟨_, rfl, rfl⟩
        · intro he
          obtain ⟨h1, v1, e, a1, a2, a3, a4, a5⟩ := c2 he
          rw [e]
          exact ⟨_, _, rfl, by rw [← a1, a2], a2, a3, a4, a5⟩
  · have hc2 : v.send.connected = false := by simpa using hc
    rw [hc2]
    simp only [Bool.not_false, if_true, Bool.true_or, true_implies, Bool.true_eq_false,
      false_implies, and_true]
    exact ⟨_, rfl, rfl⟩

theorem servedBefore_congr (h h1 : Hub) (inp : Nat → ViewerInput)
    (hw : h1.waiting_ip = h.waiting_ip) (hc : h1.ip_connected = h.ip_connected) :
    ∀ (todo : List viewer) (pos : Nat), servedBefore h1 inp todo pos = servedBefore h inp todo pos := by
  intro todo
  induction todo with
  | nil => intro pos; rfl
  | cons v rest ih =>
    intro pos
    have e : isErased h1 v (inp pos) = isErased h v (inp pos) := by
      unfold isErased isAcceptedPush
      rw [hw, hc]
    rw [servedBefore, servedBefore, e, ih]

/-- The loop over the viewers: `Send` is called, in order, for the viewers
before the first one that is erased, and the pass ends there. -/
theorem fanLoop_serves_until_erase (ringbuf : List buffer) (N : Nat) (inp : Nat → ViewerInput)
    (hth : ∀ pos, throws (inp pos) = false) :
    ∀ (todo : List viewer) (h : Hub) (done : List viewer) (pos : Nat),
    ∃ h2, fanLoop ringbuf N inp h done todo pos = some h2
      ∧ h2.sent = h.sent ++ (servedBefore h inp todo pos).map (fun v => v.MyNum)
      ∧ h2.users.map (fun v => v.MyNum)
          = (done ++ todo.eraseIdx (servedBefore h inp todo pos).length).map (fun v => v.MyNum) := by
  intro todo
  induction todo with
  | nil =>
    intro h done pos
    exact ⟨_, rfl, by simp [servedBefore], by simp [servedBefore]⟩
  | cons v rest ih =>
    intro h done pos
    obtain ⟨c1, c2⟩ := serve_cases ringbuf N h v (inp pos) (hth pos)
    by_cases he : isErased h v (inp pos) = true
    · obtain ⟨h1, e1, e2⟩ := c1 he
      refine ⟨{ h1 with users := done ++ rest }, ?_, ?_, ?_⟩
      · rw [fanLoop, e1]
      · rw [servedBefore, if_pos he]
        simpa using e2
      · rw [servedBefore, if_pos he]
        simp
    · have he2 : isErased h v (inp pos) = false := by simpa using he
      obtain ⟨h1, v1, e1, a1, a2, a3, a4, _⟩ := c2 he2
      obtain ⟨h2, b1, b2, b3⟩ := ih h1 (done ++ [v1]) (pos + 1)
      refine ⟨h2, ?_, ?_, ?_⟩
      · rw [fanLoop, e1]
        exact b1
      · rw [b2, a1, servedBefore, if_neg he, servedBefore_congr h h1 inp a3 a4]
        simp
      · rw [b3, servedBefore_congr h h1 inp a3 a4]
        rw [servedBefore, if_neg he]
        simp [a2]

theorem handleLine_keeps_source (h : Hub) (v : viewer) (junk : Stats) (tmp : List Char)
    (hcon : h.ip_connected = true) (h1 : Hub) (o : Option viewer)
    (e : handleLine h v junk tmp = some (h1, o)) :
    h1.ip_input = h.ip_input ∧ h1.ip_connected = true ∧ h1.waiting_ip = h.waiting_ip := by
  unfold handleLine handlePush handleStatsLine at e
  rcases tmp with _ | ⟨c, _ | ⟨d, rest⟩⟩
  · simp at e
    rw [← e.1]
    exact ⟨rfl, hcon, rfl⟩
  · by_cases hc : c = 'P'
    · subst hc
      simp [substr2] at e
    · by_cases hs : c = 'S'
      · subst hs
        simp [substr2] at e
      · simp [hc, hs] at e
        rw [← e.1]
        exact ⟨rfl, hcon, rfl⟩
  · rw [substr2_cons_cons] at e
    by_cases hc : c = 'P'
    · subst hc
      by_cases hip : rest = h.waiting_ip
      · simp [hip, hcon, disconnectViewer] at e
        rw [← e.1]
        exact ⟨rfl, rfl, rfl⟩
      · simp [hip, disconnectViewer] at e
        rw [← e.1]
        exact ⟨rfl, hcon, rfl⟩
    · by_cases hs : c = 'S'
      · subst hs
        simp at e
        rw [← e.1]
        exact ⟨rfl, hcon, rfl⟩
      · simp [hc, hs] at e
        rw [← e.1]
        exact ⟨rfl, hcon, rfl⟩

theorem serve_keeps_source (ringbuf : List buffer) (N : Nat) (h : Hub) (v : viewer)
    (i : ViewerInput) (hcon : h.ip_connected = true) (h1 : Hub) (o : Option viewer)
    (e : serve ringbuf N h v i = some (h1, o)) :
    h1.ip_input = h.ip_input ∧ h1.ip_connected = true ∧ h1.waiting_ip = h.waiting_ip := by
  unfold serve at e
  by_cases hc : v.send.connected = true
  · rw [hc] at e
    simp only [Bool.not_true, Bool.false_eq_true, if_false] at e
    have key : ∀ (r : Option (Hub × Option viewer)),
        (∀ h0 o0, r = some (h0, o0) →
          h0.ip_input = h.ip_input ∧ h0.ip_connected = true ∧ h0.waiting_ip = h.waiting_ip) →
        (match r with
          | none => none
          | some (h1, none) => some (h1, none)
          | some (h1, some v1) =>
            some ({ h1 with sent := h1.sent ++ [v1.MyNum] },
              some { v1 with send := Send ringbuf N i.io v1.send })) = some (h1, o) →
        h1.ip_input = h.ip_input ∧ h1.ip_connected = true ∧ h1.waiting_ip = h.waiting_ip := by
      intro r hr hm
      rcases r with _ | ⟨h0, _ | v0⟩
      · simp at hm
      · simp at hm
        rw [← hm.1]
        exact hr _ _ rfl
      · simp at hm
        rw [← hm.1]
        exact hr h0 (some v0) rfl
    refine key _ ?_ e
    intro h0 o0 hr
    rcases hl : i.line with _ | tmp
    · rw [hl] at hr
      simp at hr
      rw [← hr.1]
      exact ⟨rfl, hcon, rfl⟩
    · rw [hl] at hr
      dsimp only at hr
      by_cases hne : tmp = []
      · rw [if_pos hne] at hr
        simp at hr
        rw [← hr.1]
        exact ⟨rfl, hcon, rfl⟩
      · rw [if_neg hne] at hr
        exact handleLine_keeps_source h v i.junk tmp hcon h0 o0 hr
  · have hc2 : v.send.connected = false := by simpa using hc
    rw [hc2] at e
    simp [disconnectViewer] at e
    rw [← e.1]
    exact ⟨rfl, hcon, rfl⟩

theorem fanLoop_keeps_source (ringbuf : List buffer) (N : Nat) (inp : Nat → ViewerInput) :
    ∀ (todo : List viewer) (h : Hub) (done : List viewer) (pos : Nat) (h2 : Hub),
    h.ip_connected = true → fanLoop ringbuf N inp h done todo pos = some h2 →
    h2.ip_input = h.ip_input ∧ h2.ip_connected = true := by
  intro todo
  induction todo with
  | nil =>
    intro h done pos h2 hcon e
    rw [fanLoop] at e
    simp at e
    rw [← e]
    exact ⟨rfl, hcon⟩
  | cons v rest ih =>
    intro h done pos h2 hcon e
    rw [fanLoop] at e
    rcases hs : serve ringbuf N h v (inp pos) with _ | ⟨h1, _ | v1⟩
    · rw [hs] at e
      simp at e
    · rw [hs] at e
      simp at e
      obtain ⟨a1, a2, _⟩ := serve_keeps_source ringbuf N h v (inp pos) hcon h1 none hs
      rw [← e]
      exact ⟨a1, a2⟩
    · rw [hs] at e
      obtain ⟨a1, a2, _⟩ := serve_keeps_source ringbuf N h v (inp pos) hcon h1 (some v1) hs
      obtain ⟨b1, b2⟩ := ih h1 (done ++ [v1]) (pos + 1) h2 a2 e
      exact ⟨b1.trans a1, b2⟩

theorem serve_push_line (ringbuf : List buffer) (N : Nat) (h : Hub) (v : viewer)
    (i : ViewerInput) (ip : List Char) (hc : v.send.connected = true)
    (hl : i.line = some ('P' :: ' ' :: ip)) :
    serve ringbuf N h v i
      = match handlePush h v ('P' :: ' ' :: ip) with
        | none => none
        | some (h1, none) => some (h1, none)
        | some (h1, some v1) =>
          some ({ h1 with sent := h1.sent ++ [v1.MyNum] },
            some { v1 with send := Send ringbuf N i.io v1.send }) := by
  unfold serve
  rw [hc, hl]
  simp only [Bool.not_true, Bool.false_eq_true, if_false, reduceCtorEq, handleLine,
    List.head?_cons, if_true]
  rcases handlePush h v ('P' :: ' ' :: ip) with _ | ⟨h1, _ | v1⟩
  · rfl
  · rfl
  · have : ¬ (some 'P' = some 'S') := by decide
    simp only [this, if_false]

/-- C22: a connected viewer whose control line is `P <ip>`. If `ip` is not
the awaited IP the viewer is disconnected with the invalid-IP reason and
stays in the list, and the ingest source is unchanged. If it is the awaited
IP and no ingest source is connected, the viewer's connection becomes the
ingest source and the viewer is erased from the list. If it is the awaited
IP and an ingest source is connected, the viewer is disconnected with the
push-in-progress reason and the ingest source is unchanged. A pass over the
viewers that starts with an ingest source connected ends with the same
source, connected: no second connection is promoted. -/
theorem push_negotiation (ringbuf : List buffer) (N : Nat) (h : Hub) (v : viewer)
    (i : ViewerInput) (ip : List Char) (hc : v.send.connected = true)
    (hl : i.line = some ('P' :: ' ' :: ip)) :
    (ip ≠ h.waiting_ip →
        serve ringbuf N h v i
          = some ({ h with out := h.out ++ [(v.MyNum, "Push denied - invalid IP address!")],
                           sent := h.sent ++ [v.MyNum] },
              some { v with send := Disconnect v.send }))
      ∧ (ip = h.waiting_ip → h.ip_connected = false →
        serve ringbuf N h v i
            = some ({ h with ip_input := some v.MyNum, ip_connected := true }, none)
          ∧ ∀ (inp : Nat → ViewerInput) (done rest : List viewer) (pos : Nat), inp pos = i →
              fanLoop ringbuf N inp h done (v :: rest) pos
                = some { h with ip_input := some v.MyNum, ip_connected := true,
                                users := done ++ rest })
      ∧ (ip = h.waiting_ip → h.ip_connected = true →
        serve ringbuf N h v i
          = some ({ h with
                    out := h.out ++ [(v.MyNum, "Push denied - push already in progress!")],
                    sent := h.sent ++ [v.MyNum] },
              some { v with send := Disconnect v.send }))
      ∧ (∀ (inp : Nat → ViewerInput) (h2 : Hub), h.ip_connected = true →
          fanOut ringbuf N inp h = some h2 →
          h2.ip_input = h.ip_input ∧ h2.ip_connected = true) := by
  have hs := serve_push_line ringbuf N h v i ip hc hl
  have hd : Send ringbuf N i.io (Disconnect v.send) = Disconnect v.send :=
    Send_not_connected _ _ _ _ rfl
  refine ⟨fun hne => ?_, fun he hcon => ?_, fun he hcon => ?_, fun inp h2 hcon e => ?_⟩
  · rw [hs]
    unfold handlePush
    rw [substr2_cons_cons]
    simp only [if_neg hne, disconnectViewer, hd]
  · have e1 : serve ringbuf N h v i
        = some ({ h with ip_input := some v.MyNum, ip_connected := true }, none) := by
      rw [hs]
      unfold handlePush
      rw [substr2_cons_cons]
      simp only [if_pos he, hcon, Bool.not_false, if_true, hc]
    refine ⟨e1, fun inp done rest pos hi => ?_⟩
    rw [fanLoop, hi, e1]
  · rw [hs]
    unfold handlePush
    rw [substr2_cons_cons]
    simp only [if_pos he, hcon, Bool.not_true, Bool.false_eq_true, if_false, disconnectViewer,
      hd]
  · exact fanLoop_keeps_source ringbuf N inp h.users h [] 0 h2 hcon e

/-- C22 on a relay that awaits a push from `10.0.0.1`: a viewer that names
another IP is refused; the first viewer that names `10.0.0.1` becomes the
ingest source and leaves the viewer list; with the source connected, a second
such viewer is refused and the source stays the first one. -/
theorem push_negotiation_witness :
    (fanOut exampleRing 8 (fun _ => lineInput "P 10.0.0.2")
        (exampleHub [exampleViewer 0 true] false)).map
          (fun h => (h.ip_input, h.out, h.users.map (fun v => v.send.connected)))
        = some (none, [(0, "Push denied - invalid IP address!")], [false])
      ∧ (fanOut exampleRing 8 (fun _ => lineInput "P 10.0.0.1")
        (exampleHub [exampleViewer 0 true, exampleViewer 1 true] false)).map
          (fun h => (h.ip_input, h.ip_connected, h.users.map (fun v => v.MyNum)))
        = some (some 0, true, [1])
      ∧ (fanOut exampleRing 8 (fun _ => lineInput "P 10.0.0.1")
        (exampleHub [exampleViewer 1 true] true)).map
          (fun h => (h.ip_input, h.out, h.users.map (fun v => v.send.connected)))
        = some (some 99, [(1, "Push denied - push already in progress!")], [false])
      ∧ serve exampleRing 8 (exampleHub [exampleViewer 1 true] true) (exampleViewer 1 true)
          (lineInput "P 10.0.0.1")
        = some ({ exampleHub [exampleViewer 1 true] true with
                  out := [(1, "Push denied - push already in progress!")],
                  sent := [1] },
            some { exampleViewer 1 true with send := Disconnect (exampleViewer 1 true).send }) :=
  ⟨by decide, by decide, by decide,
    (push_negotiation exampleRing 8 (exampleHub [exampleViewer 1 true] true)
      (exampleViewer 1 true) (lineInput "P 10.0.0.1") "10.0.0.1".toList rfl rfl).2.2.1 rfl rfl⟩

/-- C28, the claim as stated fails: two viewers, the first found disconnected
and the second connected. The pass erases the first viewer and ends: `Send`
is not called for the second viewer, which is connected and stays in the
list. The same when the first viewer is promoted to push source. -/
theorem fanOut_ends_at_erased_viewer :
    (fanOut exampleRing 8 (fun _ => quietInput)
        (exampleHub [exampleViewer 0 false, exampleViewer 1 true] false)).map
          (fun h => (h.sent, h.users.map (fun v => (v.MyNum, v.send.connected))))
        = some ([], [(1, true)])
      ∧ (fanOut exampleRing 8 (fun k => if k = 0 then lineInput "P 10.0.0.1" else quietInput)
        (exampleHub [exampleViewer 0 true, exampleViewer 1 true] false)).map
          (fun h => (h.sent, h.ip_input, h.users.map (fun v => (v.MyNum, v.send.connected))))
        = some ([], some 0, [(1, true)]) := by
  decide

theorem servedBefore_all (h : Hub) (inp : Nat → ViewerInput) :
    ∀ (todo : List viewer) (pos : Nat),
    (∀ k v, todo[k]? = some v → isErased h v (inp (pos + k)) = false) →
    servedBefore h inp todo pos = todo := by
  intro todo
  induction todo with
  | nil => intro pos _; rfl
  | cons v rest ih =>
    intro pos hall
    have h0 := hall 0 v (by simp)
    rw [Nat.add_zero] at h0
    rw [servedBefore, h0]
    simp only [Bool.false_eq_true, if_false, List.cons.injEq, true_and]
    apply ih
    intro k w hk
    have := hall (k + 1) w (by simpa using hk)
    rw [show pos + (k + 1) = pos + 1 + k by omega] at this
    exact this

/-- C28 as amended: in a pass over the viewers in which no control line is
just `P` or just `S`, `Send` is called once, in list order, for each viewer
that comes before the first viewer erased in the pass (one found
disconnected, or promoted to push source), and for no other; the erased
viewer leaves the list and the pass ends there. When no viewer is erased,
`Send` is called once for every viewer. -/
theorem fanOut_serves_until_first_erased (ringbuf : List buffer) (N : Nat)
    (inp : Nat → ViewerInput) (h : Hub) (hth : ∀ pos, throws (inp pos) = false) :
    ∃ h2, fanOut ringbuf N inp h = some h2
      ∧ h2.sent = h.sent ++ (servedBefore h inp h.users 0).map (fun v => v.MyNum)
      ∧ h2.users.map (fun v => v.MyNum)
          = (h.users.eraseIdx (servedBefore h inp h.users 0).length).map (fun v => v.MyNum)
      ∧ ((∀ k v, h.users[k]? = some v → isErased h v (inp k) = false) →
          h2.sent = h.sent ++ h.users.map (fun v => v.MyNum)
            ∧ h2.users.map (fun v => v.MyNum) = h.users.map (fun v => v.MyNum)) := by
  obtain ⟨h2, e, a1, a2⟩ := fanLoop_serves_until_erase ringbuf N inp hth h.users h [] 0
  refine ⟨h2, e, a1, by simpa using a2, fun hall => ?_⟩
  have hs : servedBefore h inp h.users 0 = h.users :=
    servedBefore_all h inp h.users 0 (fun k v hk => by
      rw [Nat.zero_add]
      exact hall k v hk)
  rw [hs] at a1 a2
  refine ⟨a1, ?_⟩
  rw [a2, List.eraseIdx_of_length_le (le_refl _)]
  rfl

/-- C28 as amended, on three viewers of which the second is found
disconnected: `Send` is called for the first only, and the first and third
stay in the list. -/
theorem fanOut_serves_until_first_erased_witness :
    ∃ h2, fanOut exampleRing 8 (fun _ => quietInput)
        (exampleHub [exampleViewer 0 true, exampleViewer 1 false, exampleViewer 2 true] false)
          = some h2
      ∧ h2.sent = [0] ∧ h2.users.map (fun v => v.MyNum) = [0, 2] := by
  obtain ⟨h2, e, a1, a2, _⟩ := fanOut_serves_until_first_erased exampleRing 8
    (fun _ => quietInput)
    (exampleHub [exampleViewer 0 true, exampleViewer 1 false, exampleViewer 2 true] false)
    (fun _ => rfl)
  exact ⟨h2, e, a1.trans (by decide), a2.trans (by decide)⟩

end Buffer

/-! ## Theorems, part 6: `updateHeaders` -/

namespace DTSC

theorem find?_filter_ne (m : List (String × JSON)) (k k1 : String) :
    (m.filter (fun p => !(p.1 == k))).find? (fun p => p.1 == k1)
      = if k1 = k then none else m.find? (fun p => p.1 == k1) := by
  induction m with
  | nil => simp
  | cons p ps ih =>
    by_cases hp : p.1 = k
    · have e : (p :: ps).filter (fun p => !(p.1 == k)) = ps.filter (fun p => !(p.1 == k)) := by
        simp [List.filter_cons, hp]
      rw [e, ih]
      by_cases hk : k1 = k
      · rw [if_pos hk, if_pos hk]
      · rw [if_neg hk, if_neg hk]
        have : ¬ p.1 = k1 := fun h => hk (h.symm.trans hp)
        simp [List.find?_cons, this]
    · have e : (p :: ps).filter (fun p => !(p.1 == k))
          = p :: ps.filter (fun p => !(p.1 == k)) := by
        simp [List.filter_cons, hp]
      rw [e]
      by_cases hk : k1 = k
      · rw [if_pos hk]
        have hne : (p.1 == k1) = false := by
          rw [beq_eq_false_iff_ne]
          exact fun h => hp (h.trans hk)
        rw [List.find?_cons, hne, ih, if_pos hk]
      · rw [if_neg hk]
        rw [List.find?_cons, List.find?_cons, ih, if_neg hk]

/-- `removeMember` removes the member it names and keeps every other. -/
theorem member?_removeMember (j : JSON) (k k1 : String) :
    (j.removeMember k).member? k1 = if k1 = k then none else j.member? k1 := by
  cases j with
  | obj m =>
    show ((m.filter (fun p => !(p.1 == k))).find? (fun p => p.1 == k1)).map Prod.snd = _
    rw [find?_filter_ne]
    split_ifs <;> rfl
  | _ =>
    split_ifs <;> rfl

theorem member?_resetHeaders (s : Stream) (k1 : String) :
    (resetHeaders s).metadata.member? k1
      = if k1 ∈ derivedMembers then none else s.metadata.member? k1 := by
  show ((((((s.metadata.removeMember "keytime").removeMember "keynum").removeMember
      "keylen").removeMember "frags").removeMember "lastms").removeMember
      "missed_frags").member? k1 = _
  simp only [member?_removeMember, derivedMembers, List.mem_cons, List.mem_singleton,
    List.not_mem_nil, or_false]
  split_ifs <;> simp_all

/-- C29, the claim as stated fails: a stream with exactly two keyframes, the
newest with time 0 and the oldest with time 5000. `updateHeaders` changes
nothing: both packets and both keyframes are still there, the ring is not
marked, and `keytime` is still a member of the metadata. -/
theorem updateHeaders_two_keyframes_no_reset :
    (restartedStream [0, 5000]).keyframes.length = 2
      ∧ keyTime (restartedStream [0, 5000]) ((restartedStream [0, 5000]).keyframes.getD 0 (Ring.mk0 0))
          < keyTime (restartedStream [0, 5000])
              ((restartedStream [0, 5000]).keyframes.getD 1 (Ring.mk0 0))
      ∧ (updateHeaders (fun x => x) (restartedStream [0, 5000])).buffers.length = 2
      ∧ (updateHeaders (fun x => x) (restartedStream [0, 5000])).keyframes.length = 2
      ∧ (updateHeaders (fun x => x) (restartedStream [0, 5000])).rings = [Ring.mk0 1]
      ∧ (updateHeaders (fun x => x) (restartedStream [0, 5000])).metadata.isMember "keytime"
          = true := by
  decide

/-- C29 as amended: for a stream with at least three keyframes in which the
newest keyframe's packet time is below the oldest keyframe's packet time,
`updateHeaders` empties `buffers` and `keyframes`, sets `updated`, `starved`
and `b = 0` on every ring given out, removes the members `keytime`, `keynum`,
`keylen`, `frags`, `lastms` and `missed_frags` from the metadata and keeps
every other member; the code that appends to those arrays is not run. With
two keyframes or fewer `updateHeaders` changes nothing. -/
theorem updateHeaders_restart (rest : Stream → Stream) (s : Stream) :
    (2 < s.keyframes.length →
      keyTime s (s.keyframes.getD 0 (Ring.mk0 0))
        < keyTime s (s.keyframes.getD (s.keyframes.length - 1) (Ring.mk0 0)) →
      updateHeaders rest s = resetHeaders s
        ∧ (updateHeaders rest s).buffers = [] ∧ (updateHeaders rest s).keyframes = []
        ∧ (updateHeaders rest s).rings.length = s.rings.length
        ∧ (∀ r ∈ (updateHeaders rest s).rings,
            r.updated = true ∧ r.starved = true ∧ r.b = 0)
        ∧ (∀ k ∈ derivedMembers, (updateHeaders rest s).metadata.isMember k = false)
        ∧ (∀ k, k ∉ derivedMembers →
            (updateHeaders rest s).metadata.member? k = s.metadata.member? k))
      ∧ (s.keyframes.length ≤ 2 → updateHeaders rest s = s) := by
  constructor
  · intro h3 hlt
    have e : updateHeaders rest s = resetHeaders s := by
      unfold updateHeaders
      rw [if_pos h3, if_pos hlt]
    rw [e]
    refine ⟨rfl, rfl, rfl, ?_, ?_, ?_, ?_⟩
    · show (s.rings.map _).length = _
      rw [List.length_map]
    · intro r hr
      have hr2 : r ∈ s.rings.map
          (fun r => { r with updated := true, b := 0, starved := true }) := hr
      rw [List.mem_map] at hr2
      obtain ⟨r0, _, rfl⟩ := hr2
      exact ⟨rfl, rfl, rfl⟩
    · intro k hk
      unfold JSON.isMember
      rw [member?_resetHeaders, if_pos hk]
      rfl
    · intro k hk
      rw [member?_resetHeaders, if_neg hk]
  · intro h2
    unfold updateHeaders
    rw [if_neg (by omega)]

/-- C29 as amended, on a stream with three keyframes at times 0, 6000 and
5000, newest first, and on the stream with two. -/
theorem updateHeaders_restart_witness :
    ((updateHeaders (fun x => x) (restartedStream [0, 6000, 5000])).buffers = []
        ∧ (updateHeaders (fun x => x) (restartedStream [0, 6000, 5000])).keyframes = []
        ∧ (updateHeaders (fun x => x) (restartedStream [0, 6000, 5000])).rings
            = [{ b := 0, waiting := false, starved := true, updated := true, playCount := 0 }]
        ∧ (updateHeaders (fun x => x) (restartedStream [0, 6000, 5000])).metadata.isMember
            "keytime" = false
        ∧ (updateHeaders (fun x => x) (restartedStream [0, 6000, 5000])).metadata.isMember
            "video" = true)
      ∧ updateHeaders (fun x => x) (restartedStream [0, 5000]) = restartedStream [0, 5000] := by
  obtain ⟨e, h1, h2, _, _, h6, h7⟩ :=
    (updateHeaders_restart (fun x => x) (restartedStream [0, 6000, 5000])).1 (by decide)
      (by decide)
  refine ⟨⟨h1, h2, ?_, h6 "keytime" (by decide), ?_⟩,
    (updateHeaders_restart (fun x => x) (restartedStream [0, 5000])).2 (by decide)⟩
  · rw [e]
    decide
  · unfold JSON.isMember
    rw [h7 "video" (by decide)]
    rfl

end DTSC

/-! ## Theorems, part 7: header chains, the send state of a viewer, the keyframe index -/

namespace DTSC

/-! ### The recursion of `readHeader` -/

/-- A header frame at offset `p > 0` whose `moreheader` is `p`: `readHeader(p)`
reads the frame and calls `readHeader(p)` again, on a file in which the frame
is as before; no amount of fuel lets it return. -/
theorem readHeader_self_loop (c : Codec) (p n : Nat) (body rest : List Nat)
    (hn : body.length = n) (hn0 : n ≠ 0) (hn32 : n < 2 ^ 32) (hp0 : 0 < p) (hp : p < 2 ^ 31)
    (hm : (c.fromDTMI body).isMember "moreheader" = true)
    (hv : ((c.fromDTMI body).get "moreheader").asInt = (p : Int)) :
    ∀ (fuel : Nat) (f : File), f.F.drop p = Magic_Header ++ be32 n ++ body ++ rest →
      f.buffer.length = 4 → readHeader c fuel f (p : Int) = none := by
  intro fuel
  induction fuel with
  | zero =>
    intro f _ _
    rfl
  | succ fuel ih =>
    intro f hF hb
    have hfr := readHeaderFrame_at c f p n body rest hF hn hn0 hn32 hb
    rw [readHeader]
    simp only [hfr, Bool.not_true, Bool.false_eq_true, if_false, hm, hv, Bool.true_and]
    rw [if_pos (by simp; omega), toI32_of_small p hp]
    exact ih _ hF (by simp [be32])

/-- Two header frames at offsets `p` and `q` that name each other:
`readHeader` returns from neither, whatever the fuel. -/
theorem readHeader_two_cycle (c : Codec) (p q n m : Nat) (body1 rest1 body2 rest2 : List Nat)
    (hn : body1.length = n) (hn0 : n ≠ 0) (hn32 : n < 2 ^ 32)
    (hm : body2.length = m) (hm0 : m ≠ 0) (hm32 : m < 2 ^ 32)
    (hp0 : 0 < p) (hp : p < 2 ^ 31) (hq0 : 0 < q) (hq : q < 2 ^ 31)
    (hm1 : (c.fromDTMI body1).isMember "moreheader" = true)
    (hv1 : ((c.fromDTMI body1).get "moreheader").asInt = (q : Int))
    (hm2 : (c.fromDTMI body2).isMember "moreheader" = true)
    (hv2 : ((c.fromDTMI body2).get "moreheader").asInt = (p : Int)) :
    ∀ (fuel : Nat) (f : File), f.F.drop p = Magic_Header ++ be32 n ++ body1 ++ rest1 →
      f.F.drop q = Magic_Header ++ be32 m ++ body2 ++ rest2 → f.buffer.length = 4 →
      readHeader c fuel f (p : Int) = none ∧ readHeader c fuel f (q : Int) = none := by
  intro fuel
  induction fuel with
  | zero =>
    intro f _ _ _
    exact ⟨rfl, rfl⟩
  | succ fuel ih =>
    intro f hF1 hF2 hb
    have hfr1 := readHeaderFrame_at c f p n body1 rest1 hF1 hn hn0 hn32 hb
    have hfr2 := readHeaderFrame_at c f q m body2 rest2 hF2 hm hm0 hm32 hb
    constructor
    · rw [readHeader]
      simp only [hfr1, Bool.not_true, Bool.false_eq_true, if_false, hm1, hv1, Bool.true_and]
      rw [if_pos (decide_eq_true (by omega)), toI32_of_small q hq]
      generalize hg : File.mk _ _ _ _ _ _ _ _ _ _ _ _ _ _ _ = g
      have hgF : g.F = f.F := by rw [← hg]
      have hgb : g.buffer.length = 4 := by rw [← hg]; simp [be32]
      exact (ih g (by rw [hgF]; exact hF1) (by rw [hgF]; exact hF2) hgb).2
    · rw [readHeader]
      simp only [hfr2, Bool.not_true, Bool.false_eq_true, if_false, hm2, hv2, Bool.true_and]
      rw [if_pos (decide_eq_true (by omega)), toI32_of_small p hp]
      generalize hg : File.mk _ _ _ _ _ _ _ _ _ _ _ _ _ _ _ = g
      have hgF : g.F = f.F := by rw [← hg]
      have hgb : g.buffer.length = 4 := by rw [← hg]; simp [be32]
      exact (ih g (by rw [hgF]; exact hF1) (by rw [hgF]; exact hF2) hgb).1

/-- Opening a file whose first header names an offset from which `readHeader`
does not return: the constructor does not return either. -/
theorem open_into_loop (c : Codec) (endPos : Nat) (disk body rest : List Nat) (p : Nat)
    (hd : disk = Magic_Header ++ be32 body.length ++ body ++ rest) (hne : body ≠ [])
    (hlen : body.length < 2 ^ 32) (hp0 : 0 < p) (hp : p < 2 ^ 31)
    (hm : (c.fromDTMI body).isMember "moreheader" = true)
    (hv : ((c.fromDTMI body).get "moreheader").asInt = (p : Int))
    (hloop : ∀ (fuel : Nat) (f : File), f.F = disk → f.buffer.length = 4 →
      readHeader c fuel f (p : Int) = none) :
    ∀ fuel, File.open c fuel disk false endPos = none := by
  intro fuel
  have hsz := readHeaderSize_frame disk endPos body.length (body ++ rest)
    (by rw [hd, List.append_assoc]) hlen
  have hn0 : body.length ≠ 0 := fun h => hne (List.length_eq_zero.1 h)
  unfold File.open
  rw [hsz]
  cases fuel with
  | zero => rfl
  | succ fuel =>
    have hrh := readHeader_frame c fuel
      { File.blank disk endPos with pos := 8, buffer := be32 body.length,
                                    headerSize := body.length }
      0 body.length body rest (by simpa using hd) rfl hn0 hlen rfl
    have hcond : ((c.fromDTMI body).isMember "moreheader"
        && decide (((c.fromDTMI body).get "moreheader").asInt > 0)) = true := by
      simp only [hm, Bool.true_and, decide_eq_true_eq, hv]
      omega
    rw [hcond, if_pos rfl, hv, toI32_of_small p hp] at hrh
    have h0 : ((0 : Nat) : Int) = 0 := rfl
    rw [h0] at hrh
    rw [hrh, hloop fuel _ rfl (by simp [be32])]

/-- C33, at the failing inputs: a file whose first header names offset 9 and
whose header at offset 9 names offset 9 again, and a file whose headers at
offsets 9 and 18 name each other. `readHeader(0)`, called by the constructor,
follows the offsets from header to header and never returns: for every bound
on the depth of the recursion the call is still running. On a chain that ends
(the second header has no positive `moreheader`) two levels suffice. -/
theorem readHeader_cycle_never_returns :
    (∀ fuel, File.open pointerCodec fuel selfLoopDisk false 0 = none)
      ∧ (∀ fuel, File.open pointerCodec fuel twoCycleDisk false 0 = none)
      ∧ (File.open pointerCodec 2 endedChainDisk false 0).isSome = true := by
  refine ⟨?_, ?_, by decide⟩
  · exact open_into_loop pointerCodec 0 selfLoopDisk [9] (pointerFrame 9) 9 rfl (by decide)
      (by decide) (by decide) (by decide) rfl rfl
      (fun fuel f hF hb =>
        readHeader_self_loop pointerCodec 9 1 [9] [] rfl (by decide) (by decide) (by decide)
          (by decide) rfl rfl fuel f (by rw [hF]; rfl) hb)
  · exact open_into_loop pointerCodec 0 twoCycleDisk [9] (pointerFrame 18 ++ pointerFrame 9) 9
      (by decide) (by decide) (by decide) (by decide) (by decide) rfl rfl
      (fun fuel f hF hb =>
        (readHeader_two_cycle pointerCodec 9 18 1 1 [18] (pointerFrame 9) [9] [] rfl (by decide)
          (by decide) rfl (by decide) (by decide) (by decide) (by decide) (by decide)
          (by decide) rfl rfl rfl rfl fuel f (by rw [hF]; rfl) (by rw [hF]; rfl) hb).1)

end DTSC

namespace Buffer

/-! ### The send state of a viewer -/

theorem slot_len_nonneg (ringbuf : List buffer) (h : NonNegLens ringbuf) (i : Nat) :
    0 ≤ (slot ringbuf i).FLV.len := by
  unfold slot
  by_cases hi : i < ringbuf.length
  · rw [List.getD_eq_getElem _ _ hi]
    exact h _ (List.getElem_mem hi)
  · rw [List.getD_eq_default _ _ (by omega)]
    decide

/-- What the snapshot leaves: after an early return the condition still
holds; otherwise a tag is in flight, with the offset inside its length, and
at offset 0 when the snapshot was taken in this call. -/
theorem snapshot_inv (ringbuf : List buffer) (u : user) (hinv : SendInv u)
    (hr : NonNegLens ringbuf) :
    ((snapshot ringbuf u).2 = false → SendInv (snapshot ringbuf u).1)
      ∧ ((snapshot ringbuf u).2 = true →
          0 ≤ (snapshot ringbuf u).1.MyBuffer_num
            ∧ 0 ≤ (snapshot ringbuf u).1.currsend
            ∧ (snapshot ringbuf u).1.currsend ≤ (snapshot ringbuf u).1.MyBuffer_len
            ∧ (u.MyBuffer_num < 0 → (snapshot ringbuf u).1.currsend = 0)) := by
  have hl := slot_len_nonneg ringbuf hr u.MyBuffer
  obtain ⟨h1, h2⟩ := hinv
  unfold snapshot
  by_cases hn : u.MyBuffer_num < 0
  · have hc := h1 hn
    by_cases hs : (slot ringbuf u.MyBuffer).number < 0
    · simp only [hn, hs, if_true]
      refine ⟨fun _ => ⟨fun _ => hc, fun h => absurd h (by simp only []; omega)⟩, fun h => ?_⟩
      exact absurd h (by simp)
    · simp only [hn, hs, if_true, if_false]
      refine ⟨fun h => absurd h (by simp), fun _ => ⟨by omega, by omega, by omega, fun _ => hc⟩⟩
  · simp only [hn, if_false]
    have := h2 (by omega)
    refine ⟨fun h => absurd h (by simp), fun _ => ⟨by omega, this.1, this.2, fun h => False.elim h⟩⟩

theorem resetSend_inv (u : user) : SendInv (resetSend u) := by
  unfold SendInv resetSend
  simp

theorem afterSend_inv (ringbuf : List buffer) (buffers : Nat) (u : user) (h : SendInv u) :
    SendInv (afterSend ringbuf buffers u) := by
  unfold afterSend
  dsimp only
  split_ifs
  · exact h
  · exact resetSend_inv _
  · exact resetSend_inv _

/-- One call of `Send` keeps the condition. -/
theorem Send_inv (ringbuf : List buffer) (buffers : Nat) (io : WriteOutcome) (u : user)
    (hinv : SendInv u) (hr : NonNegLens ringbuf)
    (hio : reachesWrite ringbuf u = true → io.r ≤ requested ringbuf u) :
    SendInv (Send ringbuf buffers io u) := by
  obtain ⟨hs0, hs1⟩ := snapshot_inv ringbuf u hinv hr
  unfold reachesWrite requested at hio
  unfold Send
  generalize snapshot ringbuf u = s at hs0 hs1 hio
  obtain ⟨u1, ok⟩ := s
  by_cases hc : u.connected = true
  · simp only [hc, Bool.not_true, Bool.false_eq_true, if_false]
    cases ok with
    | false => simpa using hs0 rfl
    | true =>
      obtain ⟨hnum, hlo, hhi, _⟩ := hs1 rfl
      simp only at hnum hlo hhi
      simp only [Bool.not_true, Bool.false_eq_true, if_false]
      by_cases hp : u1.lastpointer = (slot ringbuf u1.MyBuffer).FLV.ptr
      · have hle := hio (by simp [hc, hp])
        simp only at hle
        rw [if_neg (not_not.2 hp)]
        have hd : SendInv (doSend io u1).1 := by
          unfold doSend
          split_ifs
          · exact ⟨fun h => absurd h (by simp only []; omega), fun _ => ⟨hlo, hhi⟩⟩
          · exact ⟨fun h => absurd h (by simp only [Disconnect]; omega),
              fun _ => ⟨hlo, hhi⟩⟩
          · exact ⟨fun h => absurd h (by simp only []; omega),
              fun _ => ⟨by simp only []; omega, by simp only []; omega⟩⟩
        split_ifs
        · exact afterSend_inv _ _ _ hd
        · exact hd
      · rw [if_pos hp]
        exact ⟨fun h => absurd h (by simp only [Disconnect]; omega), fun _ => ⟨hlo, hhi⟩⟩
  · simp only [Bool.not_eq_true] at hc
    simp only [hc, Bool.not_false, if_true]
    exact hinv

theorem accept_inv (s : Relay) (len0 : Int) (ptr0 : Nat) : SendInv (accept s len0 ptr0) := by
  unfold SendInv accept
  simp

theorem sendAll_inv (calls : List SendCall) :
    ∀ u : user, SendInv u → Admissible u calls → SendInv (sendAll u calls) := by
  induction calls with
  | nil => intro u h _; exact h
  | cons c cs ih =>
    intro u h ha
    obtain ⟨hr, hio, hrest⟩ := ha
    exact ih (sendStep u c) (Send_inv c.ringbuf c.buffers c.io u h hr hio) hrest

/-- C32: in every viewer state reached from a join (`MyBuffer = lastproper`,
`MyBuffer_num = -1`, `currsend = 0`) by calls of `Send` over rings with
non-negative slot lengths, with every write returning no more than the length
asked for: `MyBuffer_num < 0` implies `currsend = 0`, and `MyBuffer_num >= 0`
implies `0 <= currsend <= MyBuffer_len`. Consequently, in any further call
over such a ring that reaches the write, the length asked for is not
negative, and the write of a call that starts a tag (`MyBuffer_num < 0` on
entry) is at offset 0. -/
theorem Send_state_invariant (s : Relay) (len0 : Int) (ptr0 : Nat) (calls : List SendCall)
    (h : Admissible (accept s len0 ptr0) calls) :
    SendInv (sendAll (accept s len0 ptr0) calls)
      ∧ ∀ ringbuf : List buffer, NonNegLens ringbuf →
          reachesWrite ringbuf (sendAll (accept s len0 ptr0) calls) = true →
          0 ≤ requested ringbuf (sendAll (accept s len0 ptr0) calls)
            ∧ ((sendAll (accept s len0 ptr0) calls).MyBuffer_num < 0 →
                writeOffset ringbuf (sendAll (accept s len0 ptr0) calls) = 0) := by
  have hinv := sendAll_inv calls _ (accept_inv s len0 ptr0) h
  refine ⟨hinv, fun ringbuf hr hw => ?_⟩
  obtain ⟨_, hs1⟩ := snapshot_inv ringbuf _ hinv hr
  unfold reachesWrite at hw
  simp only [Bool.and_eq_true] at hw
  obtain ⟨_, hlo, hhi, hz⟩ := hs1 hw.1.2
  unfold requested writeOffset
  exact ⟨by omega, hz⟩

/-- C32 at a viewer that joins `twoTagRing` at slot 0 and is served by
`twoTagCalls`: the tag of 10 bytes goes out in a write of 4 and a write of
6, and the viewer is then at slot 1 with nothing in flight. -/
theorem Send_state_invariant_witness :
    Admissible (accept (initRelay twoTagRing) 0 0) twoTagCalls
      ∧ sendAll (accept (initRelay twoTagRing) 0 0) twoTagCalls
          = ⟨1, -1, 10, 0, 0, true⟩
      ∧ SendInv (sendAll (accept (initRelay twoTagRing) 0 0) twoTagCalls) :=
  ⟨by decide, by decide,
    (Send_state_invariant (initRelay twoTagRing) 0 0 twoTagCalls (by decide)).1⟩

end Buffer

namespace DTSC

/-! ### The keyframe index -/

theorem eraseFirstStale_none (size : Nat) (ks : List Ring)
    (h : eraseFirstStale size ks = none) : ∀ k ∈ ks, k.b < size := by
  induction ks with
  | nil => intro k hk; cases hk
  | cons a ks ih =>
    unfold eraseFirstStale at h
    by_cases ha : a.b ≥ size
    · rw [if_pos ha] at h
      cases h
    · rw [if_neg ha] at h
      have h1 : eraseFirstStale size ks = none := by
        cases he : eraseFirstStale size ks with
        | none => rfl
        | some t => rw [he] at h; cases h
      intro k hk
      rcases List.mem_cons.1 hk with rfl | hk
      · omega
      · exact ih h1 k hk

theorem eraseFirstStale_some (size : Nat) (ks ks1 : List Ring)
    (h : eraseFirstStale size ks = some ks1) :
    ks1.length + 1 = ks.length
      ∧ ks1.filter (fun k => decide (k.b < size)) = ks.filter (fun k => decide (k.b < size)) := by
  induction ks generalizing ks1 with
  | nil => cases h
  | cons a ks ih =>
    unfold eraseFirstStale at h
    by_cases ha : a.b ≥ size
    · rw [if_pos ha] at h
      cases h
      refine ⟨rfl, ?_⟩
      rw [List.filter_cons_of_neg (by simp; omega)]
    · rw [if_neg ha] at h
      cases he : eraseFirstStale size ks with
      | none => rw [he] at h; cases h
      | some t =>
        rw [he] at h
        cases h
        obtain ⟨h1, h2⟩ := ih t he
        refine ⟨by simp [h1], ?_⟩
        rw [List.filter_cons_of_pos (by simp; omega), List.filter_cons_of_pos (by simp; omega), h2]

/-- The eviction loop of lines 306-315 leaves exactly the cursors with
`b < buffers.size()`, in their order. -/
theorem evictLoop_eq_filter (size : Nat) :
    ∀ (fuel : Nat) (ks : List Ring), ks.length ≤ fuel →
      evictLoop size fuel ks = ks.filter (fun k => decide (k.b < size)) := by
  intro fuel
  induction fuel with
  | zero =>
    intro ks h
    have : ks = [] := List.length_eq_zero.1 (by omega)
    subst this
    rfl
  | succ fuel ih =>
    intro ks h
    rw [evictLoop]
    cases he : eraseFirstStale size ks with
    | none =>
      have hall := eraseFirstStale_none size ks he
      exact (List.filter_eq_self.2 (fun k hk => by simpa using hall k hk)).symm
    | some ks1 =>
      obtain ⟨h1, h2⟩ := eraseFirstStale_some size ks ks1 he
      simp only
      rw [ih ks1 (by omega), h2]

theorem advanceKeyframes_eq_filter (size : Nat) (ks : List Ring) :
    advanceKeyframes size ks
      = (ks.map (fun k => { k with b := wrap32 (k.b + 1) })).filter
          (fun k => decide (k.b < size)) := by
  unfold advanceKeyframes
  exact evictLoop_eq_filter size _ _ (le_refl _)

theorem isNewKeyframe_congr (s s1 : Stream) (hb : s1.buffers = s.buffers)
    (hd : s1.datapointertype = s.datapointertype) (hm : s1.metadata = s.metadata)
    (hl : s1.lastkeytime = s.lastkeytime) : isNewKeyframe s1 = isNewKeyframe s := by
  unfold isNewKeyframe
  rw [hb, hd, hm, hl]

theorem pushKeyframe_keyframes (s : Stream) :
    (pushKeyframe s).keyframes
      = if isNewKeyframe s then Ring.mk0 0 :: s.keyframes else s.keyframes := by
  unfold pushKeyframe
  by_cases h : isNewKeyframe s = true
  · simp only [h, if_true]
    split_ifs <;> rfl
  · simp only [h, if_false]
    rfl

/-- The keyframe cursors after `advanceRings`: the old ones advanced and
evicted, with a cursor at 0 in front when line 319 holds. -/
theorem advanceRings_keyframes (s : Stream) :
    (advanceRings s).keyframes
      = if isNewKeyframe s then Ring.mk0 0 :: advanceKeyframes s.buffers.length s.keyframes
        else advanceKeyframes s.buffers.length s.keyframes := by
  unfold advanceRings
  simp only [growBuffer_keyframes, pushKeyframe_keyframes]
  rfl

theorem setFront_tail (bs : List JSON) (f : JSON) : (setFront bs f).tail = bs.tail := by
  cases bs <;> rfl

theorem advanceRings_buffers_tail (s : Stream) :
    (advanceRings s).buffers.tail = s.buffers.tail := by
  unfold advanceRings
  simp only [growBuffer_buffers]
  unfold pushKeyframe
  dsimp only
  split_ifs
  · exact setFront_tail _ _
  · rfl
  · rfl

theorem decodeV2_keyframes (c : Codec) (s : Stream) (buffer : List Nat) :
    (decodeV2 c s buffer).1.keyframes = s.keyframes := by
  unfold decodeV2
  dsimp only
  split_ifs <;> rfl

/-- What the enqueue of lines 81-116 leaves for `advanceRings`. -/
theorem enqueued_frame (c : Codec) (version : Nat) (s : Stream) (buffer : List Nat) :
    (∃ front, (enqueued c version s buffer).buffers = (front :: s.buffers).take s.buffercount)
      ∧ (enqueued c version s buffer).keyframes = s.keyframes
      ∧ (enqueued c version s buffer).buffercount = s.buffercount := by
  by_cases hv : version = 2
  · subst hv
    obtain ⟨hb, _, hc⟩ := decodeV2_frame c s buffer
    refine ⟨⟨(decodeV2 c s buffer).2, ?_⟩, decodeV2_keyframes c s buffer, hc⟩
    show ((decodeV2 c s buffer).2 :: (decodeV2 c s buffer).1.buffers).take
      (decodeV2 c s buffer).1.buffercount = _
    rw [hb, hc]
  · refine ⟨⟨if version = 1 then c.fromDTMI ((buffer.drop 8).take (ntohlAt4 buffer))
      else JSON.null, ?_⟩, ?_, ?_⟩ <;> simp only [enqueued, evictBuffers, hv, if_false]

/-- A call of `parsePacket` that returns true has enqueued the packet and
called `advanceRings`. -/
theorem parsePacket_success (c : Codec) (s : Stream) (buffer : List Nat)
    (h : (parsePacket c s buffer).2.2 = true) :
    (parsePacket c s buffer).1
      = { advanceRings (enqueued c (frameVersion buffer) s buffer) with syncing := false } := by
  unfold parsePacket at h ⊢
  by_cases hlen : buffer.length > 8
  · simp only [hlen, if_true] at h ⊢
    by_cases hH : hasMagic buffer Magic_Header = true
    · have h1 := hasMagic_excl buffer Magic_Header Magic_Packet (by decide) hH
      have h2 := hasMagic_excl buffer Magic_Header Magic_Packet2 (by decide) hH
      simp [h1, h2] at h
      split_ifs at h
    · have hph : ∀ v, parseHeader c v s buffer = (s, buffer, true) := by
        intro v
        unfold parseHeader
        simp [hH]
      simp only [hph] at h ⊢
      have hfv : (if hasMagic buffer Magic_Packet2 = true then 2
          else if hasMagic buffer Magic_Packet = true then 1 else 0) = frameVersion buffer := rfl
      rw [hfv] at h ⊢
      by_cases hv : frameVersion buffer = 0
      · simp [hv] at h
      · simp only [Bool.not_true, Bool.false_eq_true, if_false, ne_eq, hv, not_false_eq_true,
          if_true] at h ⊢
        unfold parsePayload at h ⊢
        by_cases hl : buffer.length < wrap32 (ntohlAt4 buffer + 8)
        · simp [hl] at h
        · simp only [hl, if_false]
          rfl
  · simp [hlen] at h

/-- A call of `parsePacket` that returns false leaves the packets, the
keyframe cursors and the buffer count as they were. -/
theorem parsePacket_failure (c : Codec) (s : Stream) (buffer : List Nat)
    (h : (parsePacket c s buffer).2.2 = false) :
    (parsePacket c s buffer).1.buffers = s.buffers
      ∧ (parsePacket c s buffer).1.keyframes = s.keyframes
      ∧ (parsePacket c s buffer).1.buffercount = s.buffercount := by
  have hph : ∀ v, (parseHeader c v s buffer).1.buffers = s.buffers
      ∧ (parseHeader c v s buffer).1.keyframes = s.keyframes
      ∧ (parseHeader c v s buffer).1.buffercount = s.buffercount := by
    intro v
    unfold parseHeader
    dsimp only
    split_ifs <;> exact ⟨rfl, rfl, rfl⟩
  have hpp : ∀ v s1 b1, (parsePayload c v s1 b1).2.2 = false →
      (parsePayload c v s1 b1).1 = s1 := by
    intro v s1 b1 hf
    unfold parsePayload at hf ⊢
    dsimp only at hf ⊢
    split_ifs at hf ⊢
    rfl
  unfold parsePacket at h ⊢
  by_cases hlen : buffer.length > 8
  · simp only [hlen, if_true] at h ⊢
    generalize (if hasMagic buffer Magic_Packet2 = true then 2
      else if hasMagic buffer Magic_Packet = true then 1 else 0) = v at h ⊢
    have hf := hph v
    generalize parseHeader c v s buffer = hr at h hf ⊢
    by_cases h1 : hr.2.2 = true
    · simp only [h1, Bool.not_true, Bool.false_eq_true, if_false] at h ⊢
      by_cases hv : v = 0
      · simp only [hv, ne_eq, not_true_eq_false, if_false]
        exact hf
      · simp only [ne_eq, hv, not_false_eq_true, if_true] at h ⊢
        rw [hpp _ _ _ h]
        exact hf
    · simp only [h1, Bool.not_false, Bool.not_eq_true, if_true] at h ⊢
      exact hf
  · simp only [hlen, if_false, and_self]

theorem getD_take_lt {α : Type} (l : List α) (n i : Nat) (d : α) (h : i < n) :
    (l.take n).getD i d = l.getD i d := by
  simp [List.getD_eq_getElem?_getD, List.getElem?_take, h]

theorem cons_headD_tail {α : Type} (l : List α) (d : α) (h : 0 < l.length) :
    l = l.headD d :: l.tail := by
  cases l with
  | nil => simp at h
  | cons a t => rfl

/-- One enqueue keeps the keyframe index well formed, as long as the cursors
and the buffer count are below `2^32`: `e` is the stream at the call of
`advanceRings`, with the new packet `front` before the packets of `s`. -/
theorem advanceRings_keyIndexOk (s e : Stream) (log : List (JSON × Bool)) (front : JSON)
    (hok : KeyIndexOk ⟨s, log⟩) (h1 : 1 ≤ s.buffercount) (hle : s.buffers.length ≤ s.buffercount)
    (h32 : s.buffercount < 2 ^ 32)
    (heb : e.buffers = (front :: s.buffers).take s.buffercount)
    (hek : e.keyframes = s.keyframes) :
    KeyIndexOk ⟨{ advanceRings e with syncing := false },
      (((advanceRings e).buffers.headD JSON.null, isNewKeyframe e) :: log).take s.buffercount⟩ := by
  obtain ⟨hlog, hk, hp⟩ := hok
  simp only at hlog hk hp
  obtain ⟨n, hn⟩ : ∃ n, s.buffercount = n + 1 := ⟨s.buffercount - 1, by omega⟩
  rw [hn, List.take_succ_cons] at heb
  have hlen : (advanceRings e).buffers.length = min n s.buffers.length + 1 := by
    rw [advanceRings_buffers_length, heb, List.length_cons, List.length_take]
  have htail : (advanceRings e).buffers.tail = s.buffers.take n := by
    rw [advanceRings_buffers_tail, heb, List.tail_cons]
  have hbuf : (advanceRings e).buffers
      = (advanceRings e).buffers.headD JSON.null :: s.buffers.take n := by
    rw [← htail]
    exact cons_headD_tail _ _ (by omega)
  -- the cursors that survive the advance
  have hadv : ∀ k1 ∈ advanceKeyframes e.buffers.length e.keyframes,
      ∃ k ∈ s.keyframes, k1.b = k.b + 1 ∧ k.b < n ∧ k.b < s.buffers.length := by
    intro k1 hk1
    rw [advanceKeyframes_eq_filter, List.mem_filter, List.mem_map] at hk1
    obtain ⟨⟨k, hkm, rfl⟩, hlt⟩ := hk1
    rw [hek] at hkm
    have hkb := (hk k hkm).1
    have hw : wrap32 (k.b + 1) = k.b + 1 := Nat.mod_eq_of_lt (by omega)
    simp only [decide_eq_true_eq, hw, heb, List.length_cons, List.length_take] at hlt
    exact ⟨k, hkm, hw, by omega, hkb⟩
  have hadvp : (advanceKeyframes e.buffers.length e.keyframes).Pairwise
      (fun a b => a.b < b.b) := by
    rw [advanceKeyframes_eq_filter]
    refine List.Pairwise.filter _ ?_
    rw [List.pairwise_map, hek]
    refine hp.imp_of_mem ?_
    intro a b ha hb hab
    have hwa : wrap32 (a.b + 1) = a.b + 1 := Nat.mod_eq_of_lt (by have := (hk a ha).1; omega)
    have hwb : wrap32 (b.b + 1) = b.b + 1 := Nat.mod_eq_of_lt (by have := (hk b hb).1; omega)
    simp only [hwa, hwb]
    omega
  have hold : ∀ k1 ∈ advanceKeyframes e.buffers.length e.keyframes,
      k1.b < (advanceRings e).buffers.length
        ∧ ((((advanceRings e).buffers.headD JSON.null, isNewKeyframe e) :: log.take n).getD k1.b
            (JSON.null, false)).2 = true := by
    intro k1 hk1
    obtain ⟨k, hkm, hb, hkn, hkb⟩ := hadv k1 hk1
    refine ⟨by rw [hlen, hb]; omega, ?_⟩
    rw [hb, List.getD_cons_succ, getD_take_lt _ _ _ _ hkn]
    exact (hk k hkm).2
  refine ⟨?_, ?_, ?_⟩
  · show List.map Prod.fst (List.take s.buffercount _) = (advanceRings e).buffers
    rw [hn, List.take_succ_cons, List.map_cons, List.map_take, hlog]
    exact hbuf.symm
  · show ∀ k ∈ (advanceRings e).keyframes, k.b < (advanceRings e).buffers.length
      ∧ ((List.take s.buffercount _).getD k.b (JSON.null, false)).2 = true
    rw [hn, List.take_succ_cons, advanceRings_keyframes]
    by_cases hkey : isNewKeyframe e = true
    · rw [if_pos hkey]
      intro k hkm
      rcases List.mem_cons.1 hkm with rfl | hkm
      · refine ⟨by rw [hlen]; exact Nat.succ_pos _, ?_⟩
        show (List.getD (_ :: _) 0 (JSON.null, false)).2 = true
        rw [List.getD_cons_zero]
        exact hkey
      · exact hold k hkm
    · rw [if_neg hkey]
      exact hold
  · show (advanceRings e).keyframes.Pairwise (fun a b => a.b < b.b)
    rw [advanceRings_keyframes]
    by_cases hkey : isNewKeyframe e = true
    · rw [if_pos hkey, List.pairwise_cons]
      refine ⟨?_, hadvp⟩
      intro k1 hk1
      obtain ⟨k, _, hb, _, _⟩ := hadv k1 hk1
      show 0 < k1.b
      omega
    · rw [if_neg hkey]
      exact hadvp

theorem growBuffer_buffercount_cases (s : Stream) :
    (growBuffer s).buffercount = s.buffercount
      ∨ (1 < s.buffercount ∧ (growBuffer s).buffercount = wrap32 (s.buffercount + 1)) := by
  unfold growBuffer
  by_cases h : (decide (s.buffercount > 1)
      && (decide (s.keyframes.length < 2) || decide (timeBuffered s < s.buffertime))) = true
  · rw [if_pos h]
    simp only [Bool.and_eq_true, decide_eq_true_eq] at h
    exact Or.inr ⟨h.1, rfl⟩
  · rw [if_neg h]
    exact Or.inl rfl

theorem advanceRings_buffercount_cases (s : Stream) :
    (advanceRings s).buffercount = s.buffercount
      ∨ (1 < s.buffercount ∧ (advanceRings s).buffercount = wrap32 (s.buffercount + 1)) := by
  unfold advanceRings
  dsimp only
  rcases growBuffer_buffercount_cases (pushKeyframe
    { s with rings := s.rings.map (advanceRing s.buffers.length),
             keyframes := advanceKeyframes s.buffers.length s.keyframes }) with h | ⟨h0, h⟩
  · rw [pushKeyframe_buffercount] at h
    exact Or.inl h
  · rw [pushKeyframe_buffercount] at h h0
    exact Or.inr ⟨h0, h⟩

/-- One call of `parsePacket`, whatever it returns, keeps the keyframe index
well formed and the packets within the buffer count, as long as the buffer
count can still grow `rem + 1` times without passing `2^32`. -/
theorem feed_keyIndexOk (c : Codec) (t : Tracked) (buffer : List Nat) (rem : Nat)
    (hok : KeyIndexOk t) (h1 : 1 ≤ t.s.buffercount) (hle : t.s.buffers.length ≤ t.s.buffercount)
    (hb : t.s.buffercount = 1 ∨ t.s.buffercount + (rem + 1) < 2 ^ 32) :
    KeyIndexOk (feed c t buffer) ∧ 1 ≤ (feed c t buffer).s.buffercount
      ∧ (feed c t buffer).s.buffers.length ≤ (feed c t buffer).s.buffercount
      ∧ ((feed c t buffer).s.buffercount = 1
          ∨ (feed c t buffer).s.buffercount + rem < 2 ^ 32) := by
  obtain ⟨s, log⟩ := t
  simp only at h1 hle hb
  unfold feed
  by_cases hr : (parsePacket c s buffer).2.2 = true
  · simp only [hr, if_true]
    rw [parsePacket_success c s buffer hr]
    obtain ⟨⟨front, heb⟩, hek, hec⟩ := enqueued_frame c (frameVersion buffer) s buffer
    have h32 : s.buffercount < 2 ^ 32 := by omega
    have hlen : (advanceRings (enqueued c (frameVersion buffer) s buffer)).buffers.length
        ≤ s.buffercount := by
      rw [advanceRings_buffers_length, heb, List.length_take]
      exact Nat.min_le_left _ _
    refine ⟨advanceRings_keyIndexOk s _ log front hok h1 hle h32 heb hek, ?_⟩
    show 1 ≤ (advanceRings (enqueued c (frameVersion buffer) s buffer)).buffercount
      ∧ (advanceRings (enqueued c (frameVersion buffer) s buffer)).buffers.length
          ≤ (advanceRings (enqueued c (frameVersion buffer) s buffer)).buffercount
      ∧ ((advanceRings (enqueued c (frameVersion buffer) s buffer)).buffercount = 1
          ∨ (advanceRings (enqueued c (frameVersion buffer) s buffer)).buffercount + rem < 2 ^ 32)
    rcases advanceRings_buffercount_cases (enqueued c (frameVersion buffer) s buffer)
      with hc | ⟨hgt, hc⟩
    · rw [hc, hec]
      exact ⟨h1, hlen,
        by rcases hb with hb | hb
           · exact Or.inl hb
           · exact Or.inr (by omega)⟩
    · rw [hec] at hgt
      have hw : wrap32 (s.buffercount + 1) = s.buffercount + 1 :=
        Nat.mod_eq_of_lt (by omega)
      rw [hc, hec, hw]
      exact ⟨by omega, by omega, Or.inr (by omega)⟩
  · simp only [Bool.not_eq_true] at hr
    simp only [hr, Bool.false_eq_true, if_false]
    obtain ⟨hfb, hfk, hfc⟩ := parsePacket_failure c s buffer hr
    obtain ⟨hlog, hk, hp⟩ := hok
    simp only at hlog hk hp
    refine ⟨⟨?_, ?_, ?_⟩, ?_, ?_, ?_⟩
    · show log.map Prod.fst = (parsePacket c s buffer).1.buffers
      rw [hfb]
      exact hlog
    · show ∀ k ∈ (parsePacket c s buffer).1.keyframes,
        k.b < (parsePacket c s buffer).1.buffers.length ∧ (log.getD k.b (JSON.null, false)).2 = true
      rw [hfb, hfk]
      exact hk
    · show (parsePacket c s buffer).1.keyframes.Pairwise (fun a b => a.b < b.b)
      rw [hfk]
      exact hp
    · show 1 ≤ (parsePacket c s buffer).1.buffercount
      rw [hfc]
      exact h1
    · show (parsePacket c s buffer).1.buffers.length ≤ (parsePacket c s buffer).1.buffercount
      rw [hfb, hfc]
      exact hle
    · show (parsePacket c s buffer).1.buffercount = 1
        ∨ (parsePacket c s buffer).1.buffercount + rem < 2 ^ 32
      rw [hfc]
      rcases hb with hb | hb
      · exact Or.inl hb
      · exact Or.inr (by omega)

theorem feedAll_keyIndexOk (c : Codec) (inputs : List (List Nat)) :
    ∀ t : Tracked, KeyIndexOk t → 1 ≤ t.s.buffercount → t.s.buffers.length ≤ t.s.buffercount →
      (t.s.buffercount = 1 ∨ t.s.buffercount + inputs.length < 2 ^ 32) →
      KeyIndexOk (feedAll c t inputs) := by
  induction inputs with
  | nil => intro t h _ _ _; exact h
  | cons b bs ih =>
    intro t hok h1 hle hb
    obtain ⟨a1, a2, a3, a4⟩ := feed_keyIndexOk c t b bs.length hok h1 hle hb
    exact ih (feed c t b) a1 a2 a3 a4

/-- A call of `parsePacket` that returns true and takes the packet as a
keyframe leaves a cursor with `b = 0` at the front of `keyframes`. -/
theorem feed_keyframe_front (c : Codec) (t : Tracked) (buffer : List Nat)
    (hr : (parsePacket c t.s buffer).2.2 = true) (hkey : keyframeEnqueued c t.s buffer = true) :
    (feed c t buffer).s.keyframes.head? = some (Ring.mk0 0) := by
  unfold feed
  simp only [hr, if_true]
  rw [parsePacket_success c t.s buffer hr]
  show (advanceRings (enqueued c (frameVersion buffer) t.s buffer)).keyframes.head? = _
  have hkey1 : isNewKeyframe (enqueued c (frameVersion buffer) t.s buffer) = true := hkey
  rw [advanceRings_keyframes, if_pos hkey1]
  rfl

/-- The keyframe index of a constructed stream stays well formed over any
calls of `parsePacket`, as long as the buffer count cannot pass `2^32`: a
stream built with `rbuffers` and fed `inputs` with
`rbuffers + inputs.length < 2^32`. A stream built with the default
constructor (`buffercount = 1`, which never grows) is the case
`rbuffers = 1`. -/
theorem parsePacket_keeps_keyIndexOk (c : Codec) (rbuffers bufferTime : Nat)
    (inputs : List (List Nat)) (h : wrap32 rbuffers + inputs.length < 2 ^ 32) :
    KeyIndexOk (feedAll c ⟨Stream.new2 rbuffers bufferTime, []⟩ inputs) := by
  refine feedAll_keyIndexOk c inputs _
    (And.intro rfl (And.intro (fun k hk => absurd hk (List.not_mem_nil k)) List.Pairwise.nil))
    ?_ ?_ ?_
  · show 1 ≤ (if wrap32 rbuffers < 1 then 1 else wrap32 rbuffers)
    split_ifs <;> omega
  · exact Nat.zero_le _
  · show (if wrap32 rbuffers < 1 then 1 else wrap32 rbuffers) = 1
      ∨ (if wrap32 rbuffers < 1 then 1 else wrap32 rbuffers) + inputs.length < 2 ^ 32
    split_ifs
    · exact Or.inl rfl
    · exact Or.inr h

/-- An instance: a stream built with `rbuffers = 3` after three keyframe
packets has its cursors at 0, 1 and 2, and the index is well formed. -/
theorem parsePacket_keeps_keyIndexOk_example :
    (feedAll secondsCodec ⟨Stream.new2 3 0, []⟩
        [frameV2 [2], frameV2 [4], frameV2 [6]]).s.keyframes.map Ring.b = [0, 1, 2]
      ∧ (feedAll secondsCodec ⟨Stream.new2 3 0, []⟩
          [frameV2 [2], frameV2 [4], frameV2 [6]]).log.map Prod.snd = [true, true, true]
      ∧ KeyIndexOk (feedAll secondsCodec ⟨Stream.new2 3 0, []⟩
          [frameV2 [2], frameV2 [4], frameV2 [6]]) :=
  ⟨by decide, by decide,
    parsePacket_keeps_keyIndexOk secondsCodec 3 0 [frameV2 [2], frameV2 [4], frameV2 [6]]
      (by decide)⟩

/-- C31, at the failing input: a stream constructed with `rbuffers = 2^32 - 1`
parses two payload frames, each a video keyframe. The first call wraps
`buffercount` to 0 (the defect of C6). In the second call the packet is
enqueued and popped again by the eviction of lines 114-116, so `buffers` is
empty when `advanceRings` runs; a cursor with `b = 0` is pushed all the same,
and `keyframes.front().b = 0` is not below `buffers.size() = 0`. -/
theorem keyframe_cursor_after_bufferCount_wrap :
    wrappedStream.buffercount = 0
      ∧ (parsePacket secondsCodec wrappedStream (frameV2 [2])).2.2 = true
      ∧ typeOfPacket (secondsCodec.fromDTMI2 [2]) = datatype.VIDEO
      ∧ (secondsCodec.fromDTMI2 [2]).isMember "keyframe" = true
      ∧ (parsePacket secondsCodec wrappedStream (frameV2 [2])).1.buffers.length = 0
      ∧ (parsePacket secondsCodec wrappedStream (frameV2 [2])).1.keyframes = [Ring.mk0 0]
      ∧ ¬ (∀ k ∈ (parsePacket secondsCodec wrappedStream (frameV2 [2])).1.keyframes,
            k.b < (parsePacket secondsCodec wrappedStream (frameV2 [2])).1.buffers.length) := by
  decide

end DTSC

namespace DTSC

/-! ### The scan with a stale end-of-file cache -/

theorem getD_even (l : List Nat) (h : ∀ b ∈ l, b % 2 = 0) (i : Nat) : l.getD i 0 % 2 = 0 := by
  by_cases hi : i < l.length
  · rw [List.getD_eq_getElem _ _ hi]
    exact h _ (List.getElem_mem hi)
  · rw [List.getD_eq_default _ _ (by omega)]

theorem getD_drop_four (l : List Nat) (j : Nat) (hj : 4 ≤ j) :
    l.getD j 0 = (l.drop 4).getD (j - 4) 0 := by
  simp only [List.getD_eq_getElem?_getD, List.getElem?_drop]
  rw [show 4 + (j - 4) = j by omega]

/-- The bytes of a prefix read anywhere in the file, from its fifth byte on,
are bytes of the file after its first four. -/
theorem prefix_getD_even (F : List Nat) (hF : ∀ b ∈ F.drop 4, b % 2 = 0) (p j : Nat)
    (hj : 4 ≤ j) : ((F.drop p).take 20).getD j 0 % 2 = 0 := by
  rw [getD_drop_four _ j hj]
  refine getD_even _ ?_ _
  intro b hb
  rw [List.drop_take, List.drop_drop] at hb
  have h1 := List.mem_of_mem_take hb
  have h2 : F.drop (4 + p) = (F.drop 4).drop p := by
    simp [List.drop_drop, Nat.add_comm]
  rw [show p + 4 = 4 + p by omega, h2] at h1
  exact hF b (List.mem_of_mem_drop h1)

theorem ntohlAt_even (h : List Nat) (k : Nat) (hk : h.getD (k + 3) 0 % 2 = 0) :
    ntohlAt h k % 2 = 0 := by
  unfold ntohlAt
  omega

theorem toI32_even (n : Nat) (h : n % 2 = 0) : toI32 (n : Int) % 2 = 0 := by
  unfold toI32
  omega

theorem toU64_even (v : Int) (h : v % 2 = 0) : toU64 v % 2 = 0 := by
  unfold toU64
  omega

theorem even_ne_odd (a t : Int) (ha : a % 2 = 0) (ht : t % 2 = 1) : a ≠ t := by
  omega

theorem even_step (b : Nat) (s : Int) (hb : b % 2 = 0) (hs : s % 2 = 0) :
    ((b : Int) + 8 + s) % 2 = 0 := by
  omega

theorem even_ne_odd_nat (a b : Nat) (ha : a % 2 = 0) (hb : b % 2 = 1) : a ≠ b := by
  omega

theorem fread_got (f : File) (n : Nat) : (fread f n).2.1 = (f.F.drop f.pos).take n := rfl

theorem fread_endPos (f : File) (n : Nat) : (fread f n).1.endPos = f.endPos := rfl

/-- With the bytes of the file even from the fifth on, an odd value in the
cache of `getBytePosEOF`, an even offset and an odd track, the loop of
`seek_time` never ends: no prefix it reads names the track, and no offset it
reaches equals the cached value. -/
theorem seekScan_stale_cache (ms t : Int) (ht : t % 2 = 1) :
    ∀ (fuel : Nat) (f : File) (tmp : seekPos),
      (∀ b ∈ f.F.drop 4, b % 2 = 0) → f.endPos % 2 = 1 → tmp.bytePos % 2 = 0 →
      seekScan fuel f ms t tmp = none := by
  intro fuel
  induction fuel with
  | zero => intro f tmp _ _ _; rfl
  | succ fuel ih =>
    intro f tmp hF he hb
    have hcache : getBytePosEOF f = (f, f.endPos) := by
      unfold getBytePosEOF
      rw [if_neg (by omega)]
    have hne : tmp.bytePos ≠ f.endPos := even_ne_odd_nat _ _ hb he
    rw [seekScan]
    simp only [hcache, if_neg hne]
    have hfF : (seek_bpos f (toI32 (tmp.bytePos : Int))).F = f.F := fseekSet_F f _
    have hfe : (seek_bpos f (toI32 (tmp.bytePos : Int))).endPos = f.endPos := by
      unfold seek_bpos fseekSet
      split <;> rfl
    generalize seek_bpos f (toI32 (tmp.bytePos : Int)) = f1 at hfF hfe
    have hhdr : (fread f1 20).2.1 = (f.F.drop f1.pos).take 20 := by
      rw [fread_got, hfF]
    have hrF : (fread f1 20).1.F = f.F := by
      rw [fread_F, hfF]
    have hre : (fread f1 20).1.endPos = f.endPos := by
      rw [fread_endPos, hfe]
    generalize fread f1 20 = r at hhdr hrF hre
    have h11 : r.2.1.getD 11 0 % 2 = 0 := by
      rw [hhdr]
      exact prefix_getD_even f.F hF f1.pos 11 (by omega)
    have h7 : r.2.1.getD 7 0 % 2 = 0 := by
      rw [hhdr]
      exact prefix_getD_even f.F hF f1.pos 7 (by omega)
    have hid : toI32 (ntohlAt r.2.1 8 : Nat) ≠ t :=
      even_ne_odd _ t (toI32_even _ (ntohlAt_even r.2.1 8 h11)) ht
    have hsz : toI32 (ntohlAt r.2.1 4 : Nat) % 2 = 0 :=
      toI32_even _ (ntohlAt_even r.2.1 4 h7)
    rw [if_pos hid]
    refine ih r.1 _ ?_ ?_ ?_
    · rw [hrF]
      exact hF
    · rw [hre]
      exact he
    · dsimp only
      exact toU64_even _ (even_step tmp.bytePos _ hb hsz)

/-- The call that finds no packet leaves the length of the file in the cache
of `getBytePosEOF`. -/
theorem seek_time_no_packet_caches_length (k : Nat) (f : File) (ms t : Int) (l : List Nat)
    (hms : ms < 2 ^ 31) (hlen : f.F.length < 2 ^ 31)
    (hend : f.endPos = 0 ∨ f.endPos = f.F.length)
    (hs : Skips f.F ms t (seekInit f ms t).bytePos l f.F.length) :
    ∃ g, seek_time (k + l.length + 1) f ms t = some (g, some false)
      ∧ g.endPos = f.F.length ∧ g.currentPositions = f.currentPositions := by
  obtain ⟨p, hp⟩ := seekScan_no_packet ms t hms k l
    { f with trackMapping := (mapIndex f.trackMapping t).1 } (seekInit f ms t) hlen hend hs
  refine ⟨{ f with
            trackMapping := (mapIndex f.trackMapping t).1,
            pos := p,
            endPos := f.F.length }, ?_, rfl, rfl⟩
  rw [seek_time_eq, hp]

/-- C30, at the failing input: the static `endPos` of `getBytePosEOF` is
shared by all files of the process and never refreshed. A first call of
`seek_time` on a file of 29 bytes leaves 29 in it. On a second file, of 52
bytes, whose frames tile it from offset 0 and which holds no packet of track
1, `seek_time(0, 1)` returns false while the cache is unset; with 29 in the
cache the test of line 819 compares the offset with 29, the scan passes the
end of the file at offset 52, and for every bound on the passes of the loop
the call has not returned. -/
theorem seek_time_stale_end_cache_never_returns :
    (∃ g, seek_time 2 shortSeekFile 2000 1 = some (g, some false) ∧ g.endPos = 29)
      ∧ (track2File 29).F.length = 52
      ∧ Skips (track2File 29).F 0 1 (seekInit (track2File 29) 0 1).bytePos [8, 30, 52] 52
      ∧ (∃ g, seek_time 4 (track2File 0) 0 1 = some (g, some false)
          ∧ g.currentPositions = (track2File 0).currentPositions)
      ∧ ∀ fuel, seek_time fuel (track2File 29) 0 1 = none := by
  refine ⟨?_, by decide, ?_, ?_, ?_⟩
  · obtain ⟨g, h1, h2, _⟩ := seek_time_no_packet_caches_length 0 shortSeekFile 2000 1 [29]
      (by decide) (by decide) (by decide) ⟨by decide, by decide, by decide, rfl⟩
    exact ⟨g, h1, h2⟩
  · exact ⟨by decide, by decide, by decide, by decide, by decide, by decide, by decide,
      by decide, by decide, rfl⟩
  · obtain ⟨g, h1, _, h3⟩ := seek_time_no_packet_caches_length 0 (track2File 0) 0 1 [8, 30, 52]
      (by decide) (by decide) (by decide)
      ⟨by decide, by decide, by decide, by decide, by decide, by decide, by decide,
        by decide, by decide, rfl⟩
    exact ⟨g, h1, h3⟩
  · intro fuel
    rw [seek_time_eq, seekScan_stale_cache 0 1 (by decide) fuel _ _ (by decide) (by decide)
      (by decide)]

end DTSC
